import Mathlib

/-!
# lava — a shallow embedding of `src/src/lava.c`

`lava` is a genotype caller: it loads two sorted k-mer dictionaries, indexes each
with a *jumpgate* (a prefix table into the sorted array), streams reads through
them, votes on the placement of every read in a small hash table, accumulates
allele counts in a pileup table and finally calls a genotype per SNP site.

Conventions of the embedding.

* Machine integers are natural numbers; a reduction `% 2 ^ w` is written wherever
  the C type can wrap or truncate (`uint32_t` jumpgate cells, `uint32_t` position
  arithmetic, `uint8_t` counters).
* C arrays are total maps `Nat → α` (or lists, for data read from a file).  A
  pointer into an array is the index it points to.  Capacities of fixed arrays
  are stated as predicates where a property depends on them.
* `lava.h` and `util.h` are not among the sources.  Their constants and macros
  are collected in the parameter record `LavaH`; the k-mer codec is modelled from
  the specification text and says so.
-/

namespace Lava

/-! ## Constants and the k-mer codec -/

/-- The constants and macros of the header `lava.h`, which is not among the
sources; every definition that needs one takes this record as a parameter. -/
structure LavaH where
  /-- saturation bound of the pileup counters -/
  MAX_COV : Nat
  /-- sentinel position of a k-mer that occurs too often -/
  POS_AMBIGUOUS : Nat
  FLAG_UNAMBIGUOUS : Nat
  FLAG_AMBIGUOUS : Nat
  /-- width of an aux-table row -/
  AUX_TABLE_COLS : Nat
  /-- bit that marks a base code as `N` -/
  BASE_N : Nat
  /-- reference-base part of a packed `snp_info` byte -/
  SNP_INFO_REF : Nat → Nat
  /-- offset-within-k-mer part of a packed `snp_info` byte -/
  SNP_INFO_POS : Nat → Nat
  /-- the value of `sizeof(struct pileup_entry)` -/
  sizeof_pileup_entry : Nat

/-- The macro `POW_2_32` of `lava.h`. -/
def POW_2_32 : Nat := 2 ^ 32

/-- The macro `POW_2_24` of `lava.h`. -/
def POW_2_24 : Nat := 2 ^ 24

/-- Modelled from the spec: the macro `HI` of `lava.h` is missing; "the high half
HI is bits [32..63] (32 bits)". -/
def HI (kmer : Nat) : Nat := kmer / 2 ^ 32 % 2 ^ 32

/-- Modelled from the spec: the macro `LO` of `lava.h` is missing; "the low half
LO is bits [0..31]". -/
def LO (kmer : Nat) : Nat := kmer % 2 ^ 32

/-- Modelled from the spec: the macro `HI24` of `lava.h` is missing; "a restricted
variant HI24/LO40 splits at 24/40 bits". -/
def HI24 (kmer : Nat) : Nat := kmer / 2 ^ 40 % 2 ^ 24

/-- Modelled from the spec: the macro `LO40` of `lava.h` is missing; the low 40
bits of the k-mer. -/
def LO40 (kmer : Nat) : Nat := kmer % 2 ^ 40

/-- Modelled from the spec: `kmer_get_base` lives in the missing `lava.h`;
"`base_at(kmer, i)` returns bits [2i, 2i+1]". -/
def kmer_get_base (kmer i : Nat) : Nat := (kmer >>> (2 * i)) &&& 3

/-- Modelled from the spec: the 2-bit code of a base character, `{A=0, C=1, G=2,
T=3}` in either case; `none` for every other character (the `had_n` case). -/
def encode_base (c : Char) : Option Nat :=
  if c = 'A' ∨ c = 'a' then some 0
  else if c = 'C' ∨ c = 'c' then some 1
  else if c = 'G' ∨ c = 'g' then some 2
  else if c = 'T' ∨ c = 't' then some 3
  else none

/-- Modelled from the spec: `encode_kmer` lives in the missing `util.c`;
"`encode(window[0..32]) -> (kmer, had_n)` maps each base to its 2-bit code", base
`i` occupying bits `[2i, 2i+1]`.  The result is `none` when `had_n` is set.  The
argument is the window, leftmost base first. -/
def encode_kmer : List Char → Option Nat
  | [] => some 0
  | c :: rest =>
    match encode_base c, encode_kmer rest with
    | some b, some k => some (b + 4 * k)
    | _, _ => none

/-! ## The index-voting table (lines 21–94) -/

/-- Line 21. -/
def INDEX_TABLE_SLOT_COUNT : Nat := 1009

/-- Line 22. -/
def INDEX_TABLE_ENTRY_DEPTH : Nat := 500

/-- Entry of a slot: a `uint32_t` index and a `uint8_t` vote count. -/
structure IndexTableEntry where
  index : Nat
  freq : Nat

/-- A slot: `count` live entries at the front of `entries`.  The C array has
`INDEX_TABLE_ENTRY_DEPTH` cells; cells at and after `count` hold stale data.
Here `entries` is a map on all of `Nat`: it stands for the array as long as
`count` is at most `INDEX_TABLE_ENTRY_DEPTH`. -/
structure IndexTableSlot where
  count : Nat
  entries : Nat → IndexTableEntry

/-- The voter.  `best` is a pointer to an entry, i.e. a slot number and a cell
number within that slot; `none` is the null pointer. -/
structure IndexTable where
  best : Option (Nat × Nat)
  ambiguous : Bool
  table : Nat → IndexTableSlot

/-- Lines 44–47. -/
def index_table_clear_index (index_table : IndexTable) (index : Nat) : IndexTable :=
  { index_table with
    table := Function.update index_table.table (index % INDEX_TABLE_SLOT_COUNT)
      { index_table.table (index % INDEX_TABLE_SLOT_COUNT) with count := 0 } }

/-- Lines 49–57. -/
def index_table_clear (index_table : IndexTable) : IndexTable :=
  (List.range INDEX_TABLE_SLOT_COUNT).foldl index_table_clear_index
    { index_table with best := none, ambiguous := false }

/-- The search loop of lines 65–72: the first cell `i < count` whose index is the
one looked for. -/
def slot_find (slot : IndexTableSlot) (index : Nat) : Option Nat :=
  (List.range slot.count).find? (fun i => (slot.entries i).index == index)

/-- Lines 65–81: the slot after the index has been counted, and the cell that
`target` points to.  `++e->freq` is an increment of a `uint8_t`.  Line 78 stores
at `slot->entries[slot->count++]` without a test of `count` against the 500 cells
of the array (lines 22, 31): with `count = INDEX_TABLE_ENTRY_DEPTH` the code
writes behind the array, onto the next slot, which this definition does not
follow.  It describes the code for slots with `count < INDEX_TABLE_ENTRY_DEPTH`
and for indices already stored; statements about sequences of adds carry
`within_capacity`, statements about whole reads `scan_within_capacity`. -/
def slot_add (slot : IndexTableSlot) (index : Nat) : IndexTableSlot × Nat :=
  match slot_find slot index with
  | some i =>
    ({ slot with
       entries := Function.update slot.entries i
         { index := (slot.entries i).index, freq := ((slot.entries i).freq + 1) % 256 } }, i)
  | none =>
    ({ count := slot.count + 1,
       entries := Function.update slot.entries slot.count { index := index, freq := 1 } },
     slot.count)

/-- The array `table` after lines 61–81. -/
def add_table (index_table : IndexTable) (index : Nat) : Nat → IndexTableSlot :=
  Function.update index_table.table (index % INDEX_TABLE_SLOT_COUNT)
    (slot_add (index_table.table (index % INDEX_TABLE_SLOT_COUNT)) index).1

/-- The pointer `target` after lines 61–81. -/
def add_target (index_table : IndexTable) (index : Nat) : Nat × Nat :=
  (index % INDEX_TABLE_SLOT_COUNT,
    (slot_add (index_table.table (index % INDEX_TABLE_SLOT_COUNT)) index).2)

/-- Lines 59–94.  The comparison `target == index_table->best` is a comparison
of pointers; the frequencies are read through the pointers after the update. -/
def index_table_add (index_table : IndexTable) (index : Nat) : IndexTable :=
  let table1 := add_table index_table index
  let target := add_target index_table index
  let freq_at : Nat × Nat → Nat := fun e => ((table1 e.1).entries e.2).freq
  match index_table.best with
  | none => { best := some target, ambiguous := false, table := table1 }
  | some best =>
    if target = best then { best := some best, ambiguous := false, table := table1 }
    else if freq_at target = freq_at best then
      { best := some best, ambiguous := true, table := table1 }
    else if freq_at target > freq_at best then
      { best := some target, ambiguous := false, table := table1 }
    else { best := some best, ambiguous := index_table.ambiguous, table := table1 }

/-- The voter after the calls `index_table_add(x)` for the `x` of `xs`, in order. -/
def add_all (index_table : IndexTable) (xs : List Nat) : IndexTable :=
  xs.foldl index_table_add index_table

/-- A pointer to a cell that holds a live entry: a slot of the table and a cell
below the slot's `count`. -/
def IndexTable.live (t : IndexTable) (e : Nat × Nat) : Prop :=
  e.1 < INDEX_TABLE_SLOT_COUNT ∧ e.2 < (t.table e.1).count

/-- The entry a pointer points to. -/
def IndexTable.entry (t : IndexTable) (e : Nat × Nat) : IndexTableEntry :=
  (t.table e.1).entries e.2

/-- The capacity of the voter for a sequence of added indices: no slot receives
more than `INDEX_TABLE_ENTRY_DEPTH` distinct indices, and no index is added more
than 255 times (the largest value of the `uint8_t` count). -/
def within_capacity (xs : List Nat) : Prop :=
  (∀ s, (xs.toFinset.filter (fun x => x % INDEX_TABLE_SLOT_COUNT = s)).card
      ≤ INDEX_TABLE_ENTRY_DEPTH) ∧
  ∀ x, xs.count x ≤ 255

/-- The voter `t` represents the votes `xs`: every live entry sits in the slot of
its index and counts the votes for it, every voted index has exactly one live
entry, every slot counts its distinct indices, and `best` and `ambiguous`
describe the largest count. -/
structure Voter (t : IndexTable) (xs : List Nat) : Prop where
  slot_of : ∀ e, t.live e → (t.entry e).index % INDEX_TABLE_SLOT_COUNT = e.1
  freq_eq : ∀ e, t.live e → (t.entry e).freq = xs.count (t.entry e).index
  mem : ∀ e, t.live e → (t.entry e).index ∈ xs
  inj : ∀ e e1, t.live e → t.live e1 → (t.entry e).index = (t.entry e1).index → e = e1
  stored : ∀ x, x ∈ xs → ∃ e, t.live e ∧ (t.entry e).index = x
  count_eq : ∀ s, s < INDEX_TABLE_SLOT_COUNT →
    (t.table s).count = (xs.toFinset.filter (fun x => x % INDEX_TABLE_SLOT_COUNT = s)).card
  best_none : xs = [] → t.best = none
  best_some : xs ≠ [] → ∃ b, t.best = some b ∧ t.live b ∧
    (∀ e, t.live e → (t.entry e).freq ≤ (t.entry b).freq) ∧
    (t.ambiguous = true ↔ ∃ e, t.live e ∧ e ≠ b ∧ (t.entry e).freq = (t.entry b).freq)

/-- The property of the voter that `best` and `ambiguous` are meant to keep: no
slot holds more entries than its array has cells, `best` points to a live entry
whose `freq` is the largest of all live entries, and `ambiguous` is set exactly
when two live entries with distinct indices have that largest `freq`. -/
def IndexTable.tracks_maximum (t : IndexTable) : Prop :=
  (∀ s, s < INDEX_TABLE_SLOT_COUNT → (t.table s).count ≤ INDEX_TABLE_ENTRY_DEPTH) ∧
  ∃ b, t.best = some b ∧ t.live b ∧
    (∀ e, t.live e → (t.entry e).freq ≤ (t.entry b).freq) ∧
    (t.ambiguous = true ↔
      ∃ e1 e2, t.live e1 ∧ t.live e2 ∧ (t.entry e1).index ≠ (t.entry e2).index ∧
        (t.entry e1).freq = (t.entry b).freq ∧ (t.entry e2).freq = (t.entry b).freq)

/-- What one call of `index_table_add` does to the entries of the table. -/
structure AddEffect (t : IndexTable) (xs : List Nat) (x : Nat) : Prop where
  tgt_slot : (add_target t x).1 = x % INDEX_TABLE_SLOT_COUNT
  live_iff : ∀ e : Nat × Nat,
    (e.1 < INDEX_TABLE_SLOT_COUNT ∧ e.2 < (add_table t x e.1).count)
      ↔ (t.live e ∨ e = add_target t x)
  other : ∀ e : Nat × Nat, e ≠ add_target t x → (add_table t x e.1).entries e.2 = t.entry e
  tgt_index : ((add_table t x (add_target t x).1).entries (add_target t x).2).index = x
  tgt_freq : ((add_table t x (add_target t x).1).entries (add_target t x).2).freq
    = xs.count x + 1
  tgt_live : t.live (add_target t x) ↔ x ∈ xs
  tgt_old : t.live (add_target t x) → (t.entry (add_target t x)).index = x
  count : ∀ s, s < INDEX_TABLE_SLOT_COUNT →
    (add_table t x s).count
      = (t.table s).count + (if s = x % INDEX_TABLE_SLOT_COUNT ∧ x ∉ xs then 1 else 0)

/-! ## Dictionary queries (lines 98–174) -/

/-- In-memory reference dictionary entry (`struct kmer_entry`). -/
structure kmer_entry where
  kmer_lo : Nat
  pos : Nat
  ambig_flag : Nat

/-- In-memory SNP dictionary entry (`struct snp_kmer_entry`). -/
structure snp_kmer_entry where
  kmer_lo40 : Nat
  pos : Nat
  snp : Nat
  ambig_flag : Nat

/-- The C library `bsearch` over `nmemb` elements, as the usual halving loop on
the window `[l, u)`; `elem i` is the sort key of element `i` (`none` outside the
array) and the comparison is the three-way comparison of `ref_dict_entry_cmp` and
`snp_dict_entry_cmp`.  The result is the offset of the matching element.
`fuel` bounds the number of iterations; `u - l` is always enough. -/
def bsearch_loop (key : Nat) (elem : Nat → Option Nat) : Nat → Nat → Nat → Option Nat
  | 0, _, _ => none
  | fuel + 1, l, u =>
    if l < u then
      let idx := (l + u) / 2
      match elem idx with
      | none => none
      | some e =>
        if key < e then bsearch_loop key elem fuel l idx
        else if key > e then bsearch_loop key elem fuel (idx + 1) u
        else some idx
    else none

/-- The call `bsearch(&key, base, nmemb, ...)`. -/
def bsearch (key : Nat) (elem : Nat → Option Nat) (nmemb : Nat) : Option Nat :=
  bsearch_loop key elem nmemb 0 nmemb

/-- Lines 115–140.  The result is the index in `ref_dict` of the entry pointed
to, `none` for `NULL`.  `lo` and `hi` are `uint32_t`, `ref_dict_size` is a
`size_t`. -/
def query_ref_dict (key : Nat) (ref_jumpgate : Nat → Nat) (ref_dict : List kmer_entry)
    (ref_dict_size : Nat) : Option Nat :=
  let kmer_hi := HI key
  let kmer_lo := LO key
  let lo := ref_jumpgate kmer_hi
  if lo = ref_dict_size then none
  else
    let hi := (if kmer_hi = 0xFFFFFFFF then ref_dict_size else ref_jumpgate (kmer_hi + 1)) % 2 ^ 32
    if lo = hi then none
    else
      (bsearch kmer_lo (fun i => (ref_dict[lo + i]?).map (fun e => e.kmer_lo))
        ((hi + 2 ^ 32 - lo) % 2 ^ 32)).map (fun i => lo + i)

/-- Lines 149–174. -/
def query_snp_dict (key : Nat) (snp_jumpgate : Nat → Nat) (snp_dict : List snp_kmer_entry)
    (snp_dict_size : Nat) : Option Nat :=
  let kmer_hi := HI24 key
  let kmer_lo := LO40 key
  let lo := snp_jumpgate kmer_hi
  if lo = snp_dict_size then none
  else
    let hi := (if kmer_hi = 0xFFFFFF then snp_dict_size else snp_jumpgate (kmer_hi + 1)) % 2 ^ 32
    if lo = hi then none
    else
      (bsearch kmer_lo (fun i => (snp_dict[lo + i]?).map (fun e => e.kmer_lo40))
        ((hi + 2 ^ 32 - lo) % 2 ^ 32)).map (fun i => lo + i)

/-- The common shape of `query_ref_dict` and `query_snp_dict`: the two differ in
the split of the key (`hi_of`, `lo_of`) and in the largest high part `max_hi`.
`los` is the column of low parts of the dictionary array. -/
def query_dict (hi_of lo_of : Nat → Nat) (max_hi : Nat) (key : Nat) (jumpgate : Nat → Nat)
    (los : List Nat) (dict_size : Nat) : Option Nat :=
  let kmer_hi := hi_of key
  let kmer_lo := lo_of key
  let lo := jumpgate kmer_hi
  if lo = dict_size then none
  else
    let hi := (if kmer_hi = max_hi then dict_size else jumpgate (kmer_hi + 1)) % 2 ^ 32
    if lo = hi then none
    else
      (bsearch kmer_lo (fun i => los[lo + i]?) ((hi + 2 ^ 32 - lo) % 2 ^ 32)).map
        (fun i => lo + i)

/-! ## Loading the dictionaries (lines 224–394) -/

/-- One record of the reference dictionary file: `u64 kmer; u32 pos; u8 ambig_flag`. -/
structure ref_file_entry where
  kmer : Nat
  pos : Nat
  ambig_flag : Nat

/-- One record of the SNP dictionary file:
`u64 kmer; u32 pos; u8 snp_info; u8 ambig_flag; u8 ref_freq; u8 alt_freq`. -/
structure snp_file_entry where
  kmer : Nat
  pos : Nat
  snp : Nat
  ambig_flag : Nat
  ref_freq : Nat
  alt_freq : Nat

/-- The loop `for (j = a; j <= b; j++) jumpgate[j] = v;`. -/
def jumpgate_fill (jumpgate : Nat → Nat) (a b v : Nat) : Nat → Nat :=
  fun j => if a ≤ j ∧ j ≤ b then v else jumpgate j

/-- Loop state of the jumpgate construction: the table, `last_hi` and the loop
counter `i`. -/
structure JumpgateState where
  jumpgate : Nat → Nat
  last_hi : Nat
  i : Nat

/-- Lines 254–264 (and 341–351): the part of one loop iteration that maintains
the jumpgate, for an entry whose high part is `hi`.  `last_hi + 1` is computed
in `uint32_t`; the cell written is a `uint32_t`. -/
def jumpgate_step (st : JumpgateState) (hi : Nat) : JumpgateState :=
  if hi ≠ st.last_hi then
    { jumpgate := jumpgate_fill st.jumpgate ((st.last_hi + 1) % 2 ^ 32) hi (st.i % 2 ^ 32),
      last_hi := hi,
      i := st.i + 1 }
  else { st with i := st.i + 1 }

/-- The loop of lines 240–265 (and 305–352) run over the high parts `his` of the
entries, in file order, from the initial `jumpgate[0] = 0; last_hi = 0;`. -/
def jumpgate_run (jumpgate0 : Nat → Nat) (his : List Nat) : JumpgateState :=
  his.foldl jumpgate_step { jumpgate := Function.update jumpgate0 0 0, last_hi := 0, i := 0 }

/-- Lines 240–270 (and 305–357) without the other work of the loop body: the
jumpgate for the sequence `his` of high parts, in file order.  `jumpgate0` is
the content of the freshly allocated table, `max_hi` is `0xFFFFFFFF` or
`0xFFFFFF`, `dict_size` the number of entries. -/
def build_jumpgate (jumpgate0 : Nat → Nat) (max_hi : Nat) (his : List Nat) (dict_size : Nat) :
    Nat → Nat :=
  let st := jumpgate_run jumpgate0 his
  if st.last_hi ≠ max_hi then
    jumpgate_fill st.jumpgate (st.last_hi + 1) max_hi (dict_size % 2 ^ 32)
  else st.jumpgate

/-- What loading the reference dictionary leaves in memory. -/
structure RefDict where
  ref_jumpgate : Nat → Nat
  ref_dict : List kmer_entry
  ref_dict_size : Nat
  max_pos : Nat

/-- Lines 225–270: `none` is the exit taken when the dictionary holds more than
`POW_2_32` entries. -/
def load_ref_dict (jumpgate0 : Nat → Nat) (file : List ref_file_entry) : Option RefDict :=
  if file.length > POW_2_32 then none
  else some
    { ref_jumpgate := build_jumpgate jumpgate0 0xFFFFFFFF (file.map (fun e => HI e.kmer))
        file.length,
      ref_dict := file.map
        (fun e => { kmer_lo := LO e.kmer, pos := e.pos, ambig_flag := e.ambig_flag }),
      ref_dict_size := file.length,
      max_pos := file.foldl (fun m e => if e.pos > m then e.pos else m) 0 }

/-- What the two key splits (`HI`/`LO` and `HI24`/`LO40`) have in common: the high
part is bounded and monotone, and among 64-bit keys with one high part the low
part orders as the key does. -/
structure KeySplit (hi_of lo_of : Nat → Nat) (max_hi : Nat) : Prop where
  max_lt : max_hi < 2 ^ 32
  hi_le : ∀ k, hi_of k ≤ max_hi
  hi_mono : ∀ k k1, k ≤ k1 → k1 < 2 ^ 64 → hi_of k ≤ hi_of k1
  lo_lt : ∀ k k1, k < 2 ^ 64 → k1 < 2 ^ 64 → hi_of k = hi_of k1 → (k < k1 ↔ lo_of k < lo_of k1)

/-! ## The pileup table and the SNP dictionary (lines 278–394) -/

/-- Modelled from the spec: `struct pileup_entry` lives in the missing `lava.h`;
"`{ ref: u3 (base code); alt: u3; ref_freq: u8; alt_freq: u8; ref_cnt: u8
(saturating at MAX_COV); alt_cnt: u8 }`". -/
structure pileup_entry where
  ref : Nat
  alt : Nat
  ref_freq : Nat
  alt_freq : Nat
  ref_cnt : Nat
  alt_cnt : Nat
deriving DecidableEq

/-- The all-zero entry that `calloc` produces. -/
def pileup_zero : pileup_entry :=
  { ref := 0, alt := 0, ref_freq := 0, alt_freq := 0, ref_cnt := 0, alt_cnt := 0 }

/-- The pileup table while the SNP dictionary is read.  `pileup_size` is the C
variable of that name; `allocated` is the number of entries the memory block
really holds.  `pileup_table` is the memory at the block's address, entry by
entry, also behind the end of the block. -/
structure PileupState where
  pileup_table : Nat → pileup_entry
  pileup_size : Nat
  allocated : Nat

/-- Lines 285–286: `calloc` of `max_pos + 32 + 1` zeroed entries.  `heap` is the
content of the memory behind the zeroed block, which `calloc` does not touch and
which a later `realloc` hands out as it is. -/
def pileup_init (heap : Nat → pileup_entry) (max_pos : Nat) : PileupState :=
  { pileup_table := fun i => if i < max_pos + 32 + 1 then pileup_zero else heap i,
    pileup_size := max_pos + 32 + 1,
    allocated := max_pos + 32 + 1 }

/-- Lines 320–339: the pileup part of one iteration of the SNP-dictionary loop.
`pos + snp_info_pos` is a sum of two 32-bit unsigned values.  On growth the
variable `pileup_size` receives the new size in bytes, and `realloc` keeps the
old entries and leaves the new ones as they are in memory. -/
def snp_pileup_step (H : LavaH) (st : PileupState) (e : snp_file_entry) : PileupState :=
  let snp_info_ref := H.SNP_INFO_REF e.snp
  if snp_info_ref &&& H.BASE_N = 0 ∧ e.pos ≠ H.POS_AMBIGUOUS ∧
      e.ambig_flag = H.FLAG_UNAMBIGUOUS then
    let snp_info_pos := H.SNP_INFO_POS e.snp
    let snp_pos := (e.pos + snp_info_pos) % 2 ^ 32
    let st1 : PileupState :=
      if snp_pos ≥ st.pileup_size then
        { st with pileup_size := (snp_pos + 1) * H.sizeof_pileup_entry, allocated := snp_pos + 1 }
      else st
    { st1 with
      pileup_table := Function.update st1.pileup_table snp_pos
        { st1.pileup_table snp_pos with
          ref := snp_info_ref,
          alt := kmer_get_base e.kmer snp_info_pos,
          ref_freq := e.ref_freq,
          alt_freq := e.alt_freq } }
  else st

/-- The test of lines 322–324: the entry is written to the pileup table. -/
def snp_qualifies (H : LavaH) (e : snp_file_entry) : Prop :=
  H.SNP_INFO_REF e.snp &&& H.BASE_N = 0 ∧ e.pos ≠ H.POS_AMBIGUOUS ∧
    e.ambig_flag = H.FLAG_UNAMBIGUOUS

instance (H : LavaH) (e : snp_file_entry) : Decidable (snp_qualifies H e) := by
  unfold snp_qualifies; infer_instance

/-- Line 327: the pileup position of the SNP of an entry. -/
def snp_pos_of (H : LavaH) (e : snp_file_entry) : Nat :=
  (e.pos + H.SNP_INFO_POS e.snp) % 2 ^ 32

/-- Lines 335–338: the four fields written from an entry; the counts are kept. -/
def snp_write (H : LavaH) (e : snp_file_entry) (p : pileup_entry) : pileup_entry :=
  { p with
    ref := H.SNP_INFO_REF e.snp,
    alt := kmer_get_base e.kmer (H.SNP_INFO_POS e.snp),
    ref_freq := e.ref_freq,
    alt_freq := e.alt_freq }

/-- The content claimed for pileup position `s` after loading `file`, on top of
the previous content `p`: the fields of the last qualifying entry of the file
whose SNP lies at `s`, if there is one. -/
def snp_expected (H : LavaH) (file : List snp_file_entry) (s : Nat) (p : pileup_entry) :
    pileup_entry :=
  match file.reverse.find? (fun e => decide (snp_qualifies H e ∧ snp_pos_of H e = s)) with
  | some e => snp_write H e p
  | none => p

/-- What loading the SNP dictionary leaves in memory. -/
structure SnpDict where
  snp_jumpgate : Nat → Nat
  snp_dict : List snp_kmer_entry
  snp_dict_size : Nat
  pileup : PileupState

/-- Lines 290–357: `none` is the exit taken when the dictionary holds more than
`POW_2_32` entries. -/
def load_snp_dict (H : LavaH) (jumpgate0 : Nat → Nat) (pileup : PileupState)
    (file : List snp_file_entry) : Option SnpDict :=
  if file.length > POW_2_32 then none
  else some
    { snp_jumpgate := build_jumpgate jumpgate0 0xFFFFFF (file.map (fun e => HI24 e.kmer))
        file.length,
      snp_dict := file.map
        (fun e => { kmer_lo40 := LO40 e.kmer, pos := e.pos, snp := e.snp,
                    ambig_flag := e.ambig_flag }),
      snp_dict_size := file.length,
      pileup := file.foldl (snp_pileup_step H) pileup }

/-- Lines 709–745 (and 756–792), the body of the loop over the 32 bases: the
update of the entry `p` that a base `base` of the winning k-mer covers. -/
def pileup_cover (H : LavaH) (p : pileup_entry) (base : Nat) : pileup_entry :=
  if p.ref ≠ p.alt then
    if base = p.ref then
      if p.ref_cnt ≠ H.MAX_COV then { p with ref_cnt := (p.ref_cnt + 1) % 256 } else p
    else if base = p.alt then
      if p.alt_cnt ≠ H.MAX_COV then { p with alt_cnt := (p.alt_cnt + 1) % 256 } else p
    else p
  else p

/-- The update of section 4.7 of the specification, in its words: "If `b == p.ref`
and `p.ref_cnt < MAX_COV` → `p.ref_cnt += 1`.  Else if `b == p.alt` and
`p.alt_cnt < MAX_COV` → `p.alt_cnt += 1`.  Otherwise no change", only where
`p.ref != p.alt`. -/
def pileup_cover_spec (max_cov : Nat) (p : pileup_entry) (b : Nat) : pileup_entry :=
  if p.ref = p.alt then p
  else if b = p.ref then
    if p.ref_cnt < max_cov then { p with ref_cnt := p.ref_cnt + 1 } else p
  else if b = p.alt then
    if p.alt_cnt < max_cov then { p with alt_cnt := p.alt_cnt + 1 } else p
  else p

/-! ## The read scanner (lines 397–825) -/

/-- Row of the reference aux table: `AUX_TABLE_COLS` positions. -/
structure aux_table where
  pos_list : Nat → Nat

/-- Row of the SNP aux table: positions and their `snp_info` bytes. -/
structure snp_aux_table where
  pos_list : Nat → Nat
  snp_list : Nat → Nat

/-- Both dictionaries as the scanner sees them. -/
structure Dicts where
  ref_jumpgate : Nat → Nat
  ref_dict : List kmer_entry
  ref_dict_size : Nat
  ref_aux_table : Nat → aux_table
  snp_jumpgate : Nat → Nat
  snp_dict : List snp_kmer_entry
  snp_dict_size : Nat
  snp_aux_table : Nat → snp_aux_table

/-- The local type `kmer_context` of lines 415–419. -/
structure kmer_context where
  kmer : Nat
  position : Nat
  kmer_pos : Nat
deriving DecidableEq

/-- The state that probing a read changes: the voter and the two context arrays
(`ref_hit_contexts[0 .. n_ref_hits)`, `snp_hit_contexts[0 .. n_snp_hits)`).  The
C arrays have `MAX_HITS = 2000` cells each (lines 407, 421–422); the lists stand
for them as long as they hold at most that many contexts. -/
structure ProbeState where
  index_table : IndexTable
  ref_hit_contexts : List kmer_context
  snp_hit_contexts : List kmer_context

/-- The entry a reference query points to, `none` for `NULL`. -/
def ref_hit_of (D : Dicts) (key : Nat) : Option kmer_entry :=
  (query_ref_dict key D.ref_jumpgate D.ref_dict D.ref_dict_size).bind (fun i => D.ref_dict[i]?)

/-- The entry a SNP query points to, `none` for `NULL`. -/
def snp_hit_of (D : Dicts) (key : Nat) : Option snp_kmer_entry :=
  (query_snp_dict key D.snp_jumpgate D.snp_dict D.snp_dict_size).bind (fun i => D.snp_dict[i]?)

/-- The statement `read_pos = pos - offset` on `uint32_t`. -/
def read_pos_of (pos offset : Nat) : Nat := (pos + 2 ^ 32 - offset % 2 ^ 32) % 2 ^ 32

/-- The three statements that cast one vote from a reference hit (lines 527–529
and their copies): compute `read_pos`, store the context, add to the voter.  The
store `ref_hit_contexts[n_ref_hits++]` has no test against the 2000 cells of the
array (lines 407, 421, 528): with 2000 contexts already stored the code writes
behind the array, which this definition does not follow.  It describes the code
while fewer than 2000 reference contexts are stored; statements about whole
reads carry `scan_within_capacity`. -/
def record_ref_hit (st : ProbeState) (kmer pos offset : Nat) : ProbeState :=
  { st with
    ref_hit_contexts := st.ref_hit_contexts ++
      [{ kmer := kmer, position := read_pos_of pos offset, kmer_pos := pos }],
    index_table := index_table_add st.index_table (read_pos_of pos offset) }

/-- The three statements that cast one vote from a SNP hit (lines 558–560 and
their copies).  The store `snp_hit_contexts[n_snp_hits++]` has no test against
the 2000 cells of the array (lines 407, 422, 559): with 2000 contexts already
stored the code writes behind the array, which this definition does not follow.
It describes the code while fewer than 2000 SNP contexts are stored; statements
about whole reads carry `scan_within_capacity`. -/
def record_snp_hit (st : ProbeState) (kmer pos offset : Nat) : ProbeState :=
  { st with
    snp_hit_contexts := st.snp_hit_contexts ++
      [{ kmer := kmer, position := read_pos_of pos offset, kmer_pos := pos }],
    index_table := index_table_add st.index_table (read_pos_of pos offset) }

/-- The loop `for (i = ...; i < AUX_TABLE_COLS; i++) { pos = pos_list[i]; if (pos ==
0) break; body }` over an aux row; `cols` counts the columns still to visit and
`i` is the current column. -/
def aux_loop (body : ProbeState → Nat → Nat → ProbeState) (pos_list : Nat → Nat) :
    Nat → Nat → ProbeState → ProbeState
  | 0, _, st => st
  | cols + 1, i, st =>
    if pos_list i = 0 then st
    else aux_loop body pos_list cols (i + 1) (body st i (pos_list i))

/-- How a read leaves the scanner other than by its normal end. -/
inductive ScanError where
  /-- the `assert(0)` of lines 547 and 578 -/
  | assertion
  /-- the model ran out of fuel for the `goto head` loop -/
  | fuel
deriving DecidableEq

/-- Lines 525–549: a direct hit in the reference dictionary. -/
def direct_ref_hit (H : LavaH) (D : Dicts) (kmer offset : Nat) (st : ProbeState) :
    Except ScanError ProbeState :=
  match ref_hit_of D kmer with
  | none => .ok st
  | some ref_hit =>
    if ref_hit.pos ≠ H.POS_AMBIGUOUS then
      if ref_hit.ambig_flag = H.FLAG_UNAMBIGUOUS then
        .ok (record_ref_hit st kmer ref_hit.pos offset)
      else if ref_hit.ambig_flag = H.FLAG_AMBIGUOUS then
        .ok (aux_loop (fun st _ pos => record_ref_hit st kmer pos offset)
          (D.ref_aux_table ref_hit.pos).pos_list H.AUX_TABLE_COLS 0 st)
      else .error .assertion
    else .ok st

/-- Lines 556–580: a direct hit in the SNP dictionary. -/
def direct_snp_hit (H : LavaH) (D : Dicts) (kmer offset : Nat) (st : ProbeState) :
    Except ScanError ProbeState :=
  match snp_hit_of D kmer with
  | none => .ok st
  | some snp_hit =>
    if snp_hit.pos ≠ H.POS_AMBIGUOUS then
      if snp_hit.ambig_flag = H.FLAG_UNAMBIGUOUS then
        .ok (record_snp_hit st kmer snp_hit.pos offset)
      else if snp_hit.ambig_flag = H.FLAG_AMBIGUOUS then
        .ok (aux_loop (fun st _ pos => record_snp_hit st kmer pos offset)
          (D.snp_aux_table snp_hit.pos).pos_list H.AUX_TABLE_COLS 0 st)
      else .error .assertion
    else .ok st

/-- Lines 598–641: a hit of the neighbour `neighbor` in the reference dictionary,
counted only where the pileup entry at the substituted base is blank.  The sums
`pos + diff_base_pos` are sums of 32-bit unsigned values. -/
def neighbor_ref_hit (H : LavaH) (D : Dicts) (pileup_table : Nat → pileup_entry)
    (neighbor offset diff_base_pos : Nat) (st : ProbeState) : ProbeState :=
  match ref_hit_of D neighbor with
  | none => st
  | some ref_hit =>
    let ref_hit_diff_loc :=
      if ref_hit.pos ≠ H.POS_AMBIGUOUS ∧ ref_hit.ambig_flag = H.FLAG_UNAMBIGUOUS then
        (ref_hit.pos + diff_base_pos) % 2 ^ 32
      else 0
    if ref_hit.pos ≠ H.POS_AMBIGUOUS then
      if ref_hit.ambig_flag = H.FLAG_UNAMBIGUOUS ∧
          (pileup_table ref_hit_diff_loc).ref = 0 ∧ (pileup_table ref_hit_diff_loc).alt = 0 then
        record_ref_hit st neighbor ref_hit.pos offset
      else if ref_hit.ambig_flag = H.FLAG_AMBIGUOUS then
        aux_loop
          (fun st _ pos =>
            if (pileup_table ((pos + diff_base_pos) % 2 ^ 32)).ref = 0 ∧
                (pileup_table ((pos + diff_base_pos) % 2 ^ 32)).alt = 0 then
              record_ref_hit st neighbor pos offset
            else st)
          (D.ref_aux_table ref_hit.pos).pos_list H.AUX_TABLE_COLS 0 st
      else st
    else st

/-- Lines 648–679: a hit of the neighbour `neighbor` in the SNP dictionary,
counted only where the SNP offset of the placement is not the substituted base. -/
def neighbor_snp_hit (H : LavaH) (D : Dicts) (neighbor offset diff_base_pos : Nat)
    (st : ProbeState) : ProbeState :=
  match snp_hit_of D neighbor with
  | none => st
  | some snp_hit =>
    if snp_hit.pos ≠ H.POS_AMBIGUOUS then
      if snp_hit.ambig_flag = H.FLAG_UNAMBIGUOUS ∧
          H.SNP_INFO_POS snp_hit.snp ≠ diff_base_pos then
        record_snp_hit st neighbor snp_hit.pos offset
      else if snp_hit.ambig_flag = H.FLAG_AMBIGUOUS then
        aux_loop
          (fun st i pos =>
            if H.SNP_INFO_POS ((D.snp_aux_table snp_hit.pos).snp_list i) ≠ diff_base_pos then
              record_snp_hit st neighbor pos offset
            else st)
          (D.snp_aux_table snp_hit.pos).pos_list H.AUX_TABLE_COLS 0 st
      else st
    else st

/-- Line 596: the k-mer with base `j` at the two bits starting at bit `i`;
`~mask` is the complement in 64 bits. -/
def neighbor_of (kmer i j : Nat) : Nat :=
  (kmer &&& (2 ^ 64 - 1 - (3 <<< i))) ||| (j <<< i)

/-- Lines 588–686: the loop over the Hamming neighbours of `kmer`.  The outer
loop variable `i` takes the values `0, 2, ..., 62`, written `2 * d`. -/
def neighbor_loop (H : LavaH) (D : Dicts) (pileup_table : Nat → pileup_entry)
    (kmer offset : Nat) (st : ProbeState) : ProbeState :=
  (List.range 32).foldl
    (fun st d =>
      let i := 2 * d
      let diff_base_pos := i / 2
      let mask := 3 <<< i
      let base := (kmer &&& mask) >>> i
      (List.range 4).foldl
        (fun st j =>
          if j = base then st
          else
            neighbor_snp_hit H D (neighbor_of kmer i j) offset diff_base_pos
              (neighbor_ref_hit H D pileup_table (neighbor_of kmer i j) offset diff_base_pos st))
        st)
    st

/-- Lines 514–687, one iteration: all probes for the k-mer number `i` of the
read. -/
def probe_kmer (H : LavaH) (D : Dicts) (pileup_table : Nat → pileup_entry) (i kmer : Nat)
    (st : ProbeState) : Except ScanError ProbeState :=
  let offset := 32 * i % 2 ^ 32
  match direct_ref_hit H D kmer offset st with
  | .error e => .error e
  | .ok st1 =>
    match direct_snp_hit H D kmer offset st1 with
    | .error e => .error e
    | .ok st2 => .ok (neighbor_loop H D pileup_table kmer offset st2)

/-- Lines 514–687: the loop over `kmers[i]` for `i` from the given start. -/
def probe_kmers (H : LavaH) (D : Dicts) (pileup_table : Nat → pileup_entry) :
    Nat → List Nat → ProbeState → Except ScanError ProbeState
  | _, [], st => .ok st
  | i, kmer :: rest, st =>
    match probe_kmer H D pileup_table i kmer st with
    | .error e => .error e
    | .ok st1 => probe_kmers H D pileup_table (i + 1) rest st1

/-- Line 695. -/
def process_read_of (index_table : IndexTable) : Bool :=
  match index_table.best with
  | none => false
  | some best =>
    decide (((index_table.table best.1).entries best.2).freq > 1) && !index_table.ambiguous

/-- Line 696. -/
def target_index_of (index_table : IndexTable) : Nat :=
  match index_table.best with
  | none => 0
  | some best => ((index_table.table best.1).entries best.2).index

/-- Lines 709–745: the walk over the 32 bases of a winning k-mer.  The index
`kmer_pos + i` is a sum of 32-bit unsigned values. -/
def pileup_walk (H : LavaH) (pileup_table : Nat → pileup_entry) (kmer kmer_pos : Nat) :
    Nat → pileup_entry :=
  (List.range 32).foldl
    (fun pt i =>
      Function.update pt ((kmer_pos + i) % 2 ^ 32)
        (pileup_cover H (pt ((kmer_pos + i) % 2 ^ 32)) (kmer_get_base kmer i)))
    pileup_table

/-- Lines 702–747 (and 749–794): the walk over one array of hit contexts. -/
def walk_contexts (H : LavaH) (process_read : Bool) (target_index : Nat)
    (contexts : List kmer_context) (index_table : IndexTable)
    (pileup_table : Nat → pileup_entry) : IndexTable × (Nat → pileup_entry) :=
  contexts.foldl
    (fun acc c =>
      (index_table_clear_index acc.1 c.position,
        if process_read = true ∧ c.position = target_index then
          pileup_walk H acc.2 c.kmer c.kmer_pos
        else acc.2))
    (index_table, pileup_table)

/-- The `switch` of lines 474–480. -/
def complement_base (c : Char) : Option Char :=
  if c = 'a' ∨ c = 'A' then some 'T'
  else if c = 'c' ∨ c = 'C' then some 'G'
  else if c = 'g' ∨ c = 'G' then some 'C'
  else if c = 't' ∨ c = 'T' then some 'A'
  else none

/-- Lines 472–483: the first `len` characters of `read` replaced by their reverse
complement; `none` is the `goto nohit` of the `default` case. -/
def reverse_complement (read : List Char) (len : Nat) : Option (List Char) :=
  ((read.take len).mapM complement_base).map (fun rev => rev.reverse ++ read.drop len)

/-- Lines 486–495: the k-mers at offsets `0, 32, 64, ...` below `len`; `none` is
the `goto nohit` taken when `encode_kmer` reports a character that is no base. -/
def encode_read (read : List Char) (len : Nat) : Option (List Nat) :=
  (List.range (len / 32)).mapM (fun c => encode_kmer ((read.drop (32 * c)).take 32))

/-- One execution of the code between the label `head` and the label `nohit`,
recorded for the statement of properties: whether it ran reverse-complemented,
whether it reached the probing of the dictionaries, and the value of
`process_read` (false when probing was not reached). -/
structure PassRecord where
  revcompl : Bool
  probed : Bool
  processed : Bool
deriving DecidableEq

/-- The state between two reads, with the record of the passes made for the
last read. -/
structure ReadResult where
  read : List Char
  index_table : IndexTable
  pileup_table : Nat → pileup_entry
  passes : List PassRecord

/-- Lines 822–824: the label `nohit`. -/
def nohit (read : List Char) (index_table : IndexTable) (pileup_table : Nat → pileup_entry)
    (passes : List PassRecord) : ReadResult :=
  { read := read,
    index_table := { index_table with best := none, ambiguous := false },
    pileup_table := pileup_table,
    passes := passes }

/-- Lines 470–825: the code from the label `head` on, for a read of `len`
usable characters.  Every `goto head` costs one unit of fuel. -/
def scan_from_head (H : LavaH) (D : Dicts) (len : Nat) :
    Nat → Bool → List Char → IndexTable → (Nat → pileup_entry) → List PassRecord →
      Except ScanError ReadResult
  | 0, _, _, _, _, _ => .error .fuel
  | fuel + 1, revcompl, read, index_table, pileup_table, passes =>
    match (if revcompl = true then reverse_complement read len else some read) with
    | none =>
      .ok (nohit read index_table pileup_table
        (passes ++ [{ revcompl := revcompl, probed := false, processed := false }]))
    | some read1 =>
      match encode_read read1 len with
      | none =>
        .ok (nohit read1 index_table pileup_table
          (passes ++ [{ revcompl := revcompl, probed := false, processed := false }]))
      | some kmers =>
        match probe_kmers H D pileup_table 0 kmers
            { index_table := index_table, ref_hit_contexts := [], snp_hit_contexts := [] } with
        | .error e => .error e
        | .ok st =>
          let process_read := process_read_of st.index_table
          let target_index := target_index_of st.index_table
          let w1 := walk_contexts H process_read target_index st.ref_hit_contexts
            st.index_table pileup_table
          let w2 := walk_contexts H process_read target_index st.snp_hit_contexts w1.1 w1.2
          let passes1 := passes ++
            [{ revcompl := revcompl, probed := true, processed := process_read }]
          if process_read = false ∧ revcompl = false then
            scan_from_head H D len fuel true read1
              { w2.1 with best := none, ambiguous := false } w2.2 passes1
          else .ok (nohit read1 w2.1 w2.2 passes1)

/-- Lines 457–825: the body of the loop over the FASTQ records for one read.
`read` is the sequence line without its newline.  Two units of fuel are given
to the `goto head` loop. -/
def scan_read (H : LavaH) (D : Dicts) (read : List Char) (index_table : IndexTable)
    (pileup_table : Nat → pileup_entry) : Except ScanError ReadResult :=
  scan_from_head H D (read.length / 32 * 32) 2 false read index_table pileup_table []

/-- The voter and the hit contexts at the end of the probing of the forward
pass of a read; `none` when the forward pass does not get that far (a character
that is no base among the usable characters, or a failed assertion). -/
def forward_probe (H : LavaH) (D : Dicts) (read : List Char) (index_table : IndexTable)
    (pileup_table : Nat → pileup_entry) : Option ProbeState :=
  match encode_read read (read.length / 32 * 32) with
  | none => none
  | some kmers =>
    match probe_kmers H D pileup_table 0 kmers
        { index_table := index_table, ref_hit_contexts := [], snp_hit_contexts := [] } with
    | .ok st => some st
    | .error _ => none

/-- The pileup table after the two walks of lines 702–794 from the state `st`
reached by probing. -/
def pileup_after_walks (H : LavaH) (st : ProbeState) (pileup_table : Nat → pileup_entry) :
    Nat → pileup_entry :=
  (walk_contexts H (process_read_of st.index_table) (target_index_of st.index_table)
    st.snp_hit_contexts
    (walk_contexts H (process_read_of st.index_table) (target_index_of st.index_table)
      st.ref_hit_contexts st.index_table pileup_table).1
    (walk_contexts H (process_read_of st.index_table) (target_index_of st.index_table)
      st.ref_hit_contexts st.index_table pileup_table).2).2

/-- Whether a run of the scanner ended normally. -/
def scan_ok {α : Type} : Except ScanError α → Bool
  | .ok _ => true
  | .error _ => false

/-- The statement of the retry rule for the result `r` of scanning a read:
the forward pass is processed exactly when it probed its k-mers and the voter
then satisfies the condition of line 695, and then the pileup is the one the two
walks produce; the reverse-complement pass is run exactly when the forward pass
probed its k-mers and was not processed, and at most once; when no pass is
processed the pileup table is unchanged. -/
def retry_rule (H : LavaH) (D : Dicts) (read : List Char) (index_table : IndexTable)
    (pileup_table : Nat → pileup_entry) (r : ReadResult) : Prop :=
  (({ revcompl := false, probed := true, processed := true } : PassRecord) ∈ r.passes ↔
    ∃ st, forward_probe H D read index_table pileup_table = some st ∧
      process_read_of st.index_table = true) ∧
  (∀ st, forward_probe H D read index_table pileup_table = some st →
    process_read_of st.index_table = true →
    r.pileup_table = pileup_after_walks H st pileup_table) ∧
  ((∃ p ∈ r.passes, p.revcompl = true) ↔
    ∃ st, forward_probe H D read index_table pileup_table = some st ∧
      process_read_of st.index_table = false) ∧
  (r.passes.filter (fun p => p.revcompl)).length ≤ 1 ∧
  ((∀ p ∈ r.passes, p.processed = false) → r.pileup_table = pileup_table)

/-! ## The genotype caller (lines 932–991) -/

/-- The genotype codes `GTYPE_NONE`, `GTYPE_REF`, `GTYPE_ALT`, `GTYPE_HET` of
`lava.h`; they label the cases of one `switch` (line 847) and so are distinct. -/
inductive Genotype where
  | GTYPE_NONE
  | GTYPE_REF
  | GTYPE_ALT
  | GTYPE_HET
deriving DecidableEq

/-- The `struct call` of line 178; `D` stands for `double`. -/
structure call (D : Type) where
  genotype : Genotype
  confidence : D

/-- The floating-point side of `choose_best_genotype`, which a shallow embedding
does not compute: `F` stands for the finite values of `float` (ordered by `<`),
`D` for `double`.  The likelihood cache and the Poisson table are filled with
`pow`, `exp`, `lgamma` and the constants `ERR_RATE` and `AVG_COV` of the missing
`lava.h`; they are taken as given, and so is every arithmetic operation. -/
structure CallerArith (F D : Type) where
  /-- the table `cache[ref_cnt][alt_cnt].g0` -/
  g0 : Nat → Nat → F
  /-- the table `cache[ref_cnt][alt_cnt].g1` -/
  g1 : Nat → Nat → F
  /-- the table `cache[ref_cnt][alt_cnt].g2` -/
  g2 : Nat → Nat → F
  /-- the table `poisson[n]` -/
  poisson : Nat → D
  /-- the quotient `enc/255.0f` -/
  freq : Nat → F
  /-- the constant `1.0f` -/
  one : F
  mul : F → F → F
  sub : F → F → F
  add : F → F → F
  div : F → F → F
  /-- the product `((double)x)*y` -/
  conf : F → D → D
  /-- the constant `0.0` -/
  zero : D

/-- Lines 968–979: the three joint values `p_g0`, `p_g1`, `p_g2`. -/
def joint_values {F D : Type} (A : CallerArith F D) (ref_cnt alt_cnt ref_freq_enc
    alt_freq_enc : Nat) : F × F × F :=
  let g0 := A.g0 ref_cnt alt_cnt
  let g1 := A.g1 ref_cnt alt_cnt
  let g2 := A.g2 ref_cnt alt_cnt
  let p := A.freq ref_freq_enc
  let q := A.freq alt_freq_enc
  let p2 := A.mul p p
  let q2 := A.mul q q
  (A.mul p2 g0, A.mul (A.sub (A.sub A.one p2) q2) g1, A.mul q2 g2)

/-- Lines 964–990. -/
def choose_best_genotype {F D : Type} [LinearOrder F] (H : LavaH) (A : CallerArith F D)
    (ref_cnt alt_cnt ref_freq_enc alt_freq_enc : Nat) : call D :=
  if (ref_cnt = 0 ∧ alt_cnt = 0) ∨ (ref_cnt = H.MAX_COV ∧ alt_cnt = H.MAX_COV) then
    { genotype := Genotype.GTYPE_NONE, confidence := A.zero }
  else
    let p_g0 := (joint_values A ref_cnt alt_cnt ref_freq_enc alt_freq_enc).1
    let p_g1 := (joint_values A ref_cnt alt_cnt ref_freq_enc alt_freq_enc).2.1
    let p_g2 := (joint_values A ref_cnt alt_cnt ref_freq_enc alt_freq_enc).2.2
    let total := A.add (A.add p_g0 p_g1) p_g2
    let n := ref_cnt + alt_cnt
    if p_g0 > p_g1 ∧ p_g0 > p_g2 then
      { genotype := Genotype.GTYPE_REF, confidence := A.conf (A.div p_g0 total) (A.poisson n) }
    else if p_g1 > p_g0 ∧ p_g1 > p_g2 then
      { genotype := Genotype.GTYPE_HET, confidence := A.conf (A.div p_g1 total) (A.poisson n) }
    else
      { genotype := Genotype.GTYPE_ALT, confidence := A.conf (A.div p_g2 total) (A.poisson n) }

/-- The joint value that belongs to a genotype; `GTYPE_NONE` has none. -/
def joint_of {F : Type} (P : F × F × F) : Genotype → Option F
  | Genotype.GTYPE_NONE => none
  | Genotype.GTYPE_REF => some P.1
  | Genotype.GTYPE_HET => some P.2.1
  | Genotype.GTYPE_ALT => some P.2.2

/-- The genotype `g` is an argmax of the joint values `P`: it has a joint value,
and that value is at least each of the three. -/
def is_argmax {F : Type} [LinearOrder F] (P : F × F × F) (g : Genotype) : Prop :=
  ∃ v, joint_of P g = some v ∧ P.1 ≤ v ∧ P.2.1 ≤ v ∧ P.2.2 ≤ v

/-- The counts that `choose_best_genotype` short-circuits (line 964). -/
def short_circuited (H : LavaH) (ref_cnt alt_cnt : Nat) : Prop :=
  (ref_cnt = 0 ∧ alt_cnt = 0) ∨ (ref_cnt = H.MAX_COV ∧ alt_cnt = H.MAX_COV)

/-- An instance of the arithmetic parameter `CallerArith`: exact rational
arithmetic with error rate `err`, the formulas of section 4.8 of the
specification without rounding.  The Poisson factor plays no part in the choice
of the genotype and is left at `1`.  It serves to evaluate the caller at
concrete counts in examples of theorems that hold for every arithmetic; it is
not the `float` and `double` computation of lines 950–979, whose rounded values
differ from these rationals, and no statement about the code rests on the
values it yields. -/
def exact_arith (err : ℚ) : CallerArith ℚ ℚ :=
  { g0 := fun r a => (1 - err) ^ r * err ^ a,
    g1 := fun r a => (1 / 2) ^ (r + a),
    g2 := fun r a => err ^ r * (1 - err) ^ a,
    poisson := fun _ => 1,
    freq := fun v => v / 255,
    one := 1,
    mul := fun x y => x * y,
    sub := fun x y => x - y,
    add := fun x y => x + y,
    div := fun x y => x / y,
    conf := fun x y => x * y,
    zero := 0 }

/-! ## The output loop (lines 831–862) -/

/-- Entry of the array `chrlens` (line 192). -/
structure chrlen where
  name : String
  len : Nat

/-- Lines 841–843: the loop `for (j = 0; j < num_chrs && index > chrlens[j].len;
j++) index -= chrlens[j].len;` from the state `(j, index)`, over the entries
`chrlens[j ..]`.  The result is the final `(j, index)`. -/
def chr_locate : List chrlen → Nat → Nat → Nat × Nat
  | [], j, index => (j, index)
  | c :: rest, j, index =>
    if index > c.len then chr_locate rest (j + 1) (index - c.len) else (j, index)

/-- One line of the output file: the chromosome number `j` (its name is
`chrlens[j].name`), the offset `index` and the confidence; `pos` is the pileup
position the line stands for. -/
structure OutputLine (D : Type) where
  pos : Nat
  chr : Nat
  index : Nat
  confidence : D

/-- Lines 831–862: the lines written for the pileup positions in `positions`, in
that order. -/
def output_lines {F D : Type} [LinearOrder F] (H : LavaH) (A : CallerArith F D)
    (chrlens : List chrlen) (pileup_table : Nat → pileup_entry) :
    List Nat → List (OutputLine D)
  | [] => []
  | i :: rest =>
    let p := pileup_table i
    if p.ref = p.alt then output_lines H A chrlens pileup_table rest
    else
      let loc := chr_locate chrlens 0 i
      let c := choose_best_genotype H A p.ref_cnt p.alt_cnt p.ref_freq p.alt_freq
      match c.genotype with
      | Genotype.GTYPE_NONE => output_lines H A chrlens pileup_table rest
      | Genotype.GTYPE_REF => output_lines H A chrlens pileup_table rest
      | Genotype.GTYPE_ALT =>
        { pos := i, chr := loc.1, index := loc.2, confidence := c.confidence } ::
          output_lines H A chrlens pileup_table rest
      | Genotype.GTYPE_HET =>
        { pos := i, chr := loc.1, index := loc.2, confidence := c.confidence } ::
          output_lines H A chrlens pileup_table rest

/-- The whole output loop: `for (size_t i = 0; i < pileup_size; i++)`. -/
def genotype_output {F D : Type} [LinearOrder F] (H : LavaH) (A : CallerArith F D)
    (chrlens : List chrlen) (pileup_table : Nat → pileup_entry) (pileup_size : Nat) :
    List (OutputLine D) :=
  output_lines H A chrlens pileup_table (List.range pileup_size)

/-- The sum of the lengths of the first `j` chromosomes. -/
def chr_offset (chrlens : List chrlen) (j : Nat) : Nat :=
  ((chrlens.take j).map (fun c => c.len)).sum

/-! ## Example data -/

/-- A header in line with the specification: `MAX_COV` 64, four aux columns, the
reference base in the low three bits of `snp_info` and the offset above them. -/
def example_header : LavaH :=
  { MAX_COV := 64,
    POS_AMBIGUOUS := 0xFFFFFFFF,
    FLAG_UNAMBIGUOUS := 0,
    FLAG_AMBIGUOUS := 1,
    AUX_TABLE_COLS := 4,
    BASE_N := 4,
    SNP_INFO_REF := fun s => s % 8,
    SNP_INFO_POS := fun s => s / 8,
    sizeof_pileup_entry := 6 }

/-- A voter with no entry and no stale data. -/
def empty_index_table : IndexTable :=
  { best := none, ambiguous := false,
    table := fun _ => { count := 0, entries := fun _ => { index := 0, freq := 0 } } }

/-- Two empty dictionaries, loaded: every jumpgate cell holds the size `0`. -/
def empty_dicts : Dicts :=
  { ref_jumpgate := fun _ => 0,
    ref_dict := [],
    ref_dict_size := 0,
    ref_aux_table := fun _ => { pos_list := fun _ => 0 },
    snp_jumpgate := fun _ => 0,
    snp_dict := [],
    snp_dict_size := 0,
    snp_aux_table := fun _ => { pos_list := fun _ => 0, snp_list := fun _ => 0 } }

/-- A reference dictionary file with the k-mers `0, 1, ..., n - 1`. -/
def range_ref_file (n : Nat) : List ref_file_entry :=
  (List.range n).map (fun k => { kmer := k, pos := 1, ambig_flag := 0 })

/-- A SNP dictionary file with the k-mers `0, 1, ..., n - 1`. -/
def range_snp_file (n : Nat) : List snp_file_entry :=
  (List.range n).map
    (fun k => { kmer := k, pos := 1, snp := 0, ambig_flag := 0, ref_freq := 0, alt_freq := 0 })

/-- A SNP dictionary file with one entry: the k-mer of 32 `A`, placed at
position 40, unambiguous, with reference base `C` at offset 0 of the k-mer. -/
def growth_snp_file : List snp_file_entry :=
  [{ kmer := 0, pos := 40, snp := 1, ambig_flag := 0, ref_freq := 200, alt_freq := 55 }]

/-- A reference dictionary file with two k-mers: 32 `A` at position 100 and 32
`C` at position 132. -/
def example_ref_file : List ref_file_entry :=
  [{ kmer := 0, pos := 100, ambig_flag := 0 },
   { kmer := 0x5555555555555555, pos := 132, ambig_flag := 0 }]

/-- A SNP dictionary file with one k-mer: 32 `A` with `G` at offset 10, placed
at position 100, reference base `A`; the SNP site is position 110. -/
def example_snp_file : List snp_file_entry :=
  [{ kmer := 2 * 4 ^ 10, pos := 100, snp := 80, ambig_flag := 0, ref_freq := 200,
     alt_freq := 55 }]

/-- The two example files, loaded; the aux tables are empty. -/
def example_dicts : Dicts :=
  match load_ref_dict (fun _ => 0) example_ref_file,
      load_snp_dict example_header (fun _ => 0) (pileup_init (fun _ => pileup_zero) 132)
        example_snp_file with
  | some r, some s =>
    { ref_jumpgate := r.ref_jumpgate,
      ref_dict := r.ref_dict,
      ref_dict_size := r.ref_dict_size,
      ref_aux_table := fun _ => { pos_list := fun _ => 0 },
      snp_jumpgate := s.snp_jumpgate,
      snp_dict := s.snp_dict,
      snp_dict_size := s.snp_dict_size,
      snp_aux_table := fun _ => { pos_list := fun _ => 0, snp_list := fun _ => 0 } }
  | _, _ => empty_dicts

/-- The pileup table after the two example files are loaded. -/
def example_pileup : Nat → pileup_entry :=
  match load_snp_dict example_header (fun _ => 0) (pileup_init (fun _ => pileup_zero) 132)
      example_snp_file with
  | some s => s.pileup.pileup_table
  | none => fun _ => pileup_zero

/-- A read of 64 bases that matches the reference at position 100. -/
def example_read : List Char := List.replicate 32 'A' ++ List.replicate 32 'C'

/-- The part of the result of a read that later reads can see. -/
def ReadResult.state (r : ReadResult) : IndexTable × (Nat → pileup_entry) × List PassRecord :=
  (r.index_table, r.pileup_table, r.passes)

/-- The voter after the calls `index_table_clear_index(i)` for the `i` of `ys`,
in order (the calls of lines 704 and 751 over the hit contexts of a read). -/
def clear_indices (index_table : IndexTable) (ys : List Nat) : IndexTable :=
  ys.foldl index_table_clear_index index_table

/-- A read of 192 bases whose k-mers number 4 and 5 are the two k-mers of
`example_ref_file`: 32 `A` at offset 128 and 32 `C` at offset 160. -/
def underflow_read : List Char :=
  List.replicate 128 'T' ++ List.replicate 32 'A' ++ List.replicate 32 'C'

/-- Every slot of the voter with a non-zero count is the slot of the position
of some recorded hit context: the walks over the contexts will clear it. -/
def ProbeState.covered (st : ProbeState) : Prop :=
  ∀ s, s < INDEX_TABLE_SLOT_COUNT →
    (st.index_table.table s).count = 0 ∨
      ∃ c ∈ st.ref_hit_contexts ++ st.snp_hit_contexts,
        c.position % INDEX_TABLE_SLOT_COUNT = s

/-- Lines 448–825: the loop over the FASTQ records; `reads` are the sequence
lines of the records, in order.  The voter and the pileup table are carried
from one read to the next. -/
def scan_reads (H : LavaH) (D : Dicts) :
    List (List Char) → IndexTable → (Nat → pileup_entry) →
      Except ScanError (IndexTable × (Nat → pileup_entry))
  | [], index_table, pileup_table => .ok (index_table, pileup_table)
  | read :: rest, index_table, pileup_table =>
    match scan_read H D read index_table pileup_table with
    | .error e => .error e
    | .ok r => scan_reads H D rest r.index_table r.pileup_table

/-- The bounds of a pileup entry: where `ref` and `alt` differ both are base
codes `0..3`, and both counts are at most `MAX_COV`. -/
def pileup_entry.in_bounds (H : LavaH) (p : pileup_entry) : Prop :=
  (p.ref ≠ p.alt → p.ref < 4 ∧ p.alt < 4) ∧ p.ref_cnt ≤ H.MAX_COV ∧ p.alt_cnt ≤ H.MAX_COV

instance (H : LavaH) (p : pileup_entry) : Decidable (p.in_bounds H) := by
  unfold pileup_entry.in_bounds; infer_instance

/-- Memory that holds no zeroes: every entry reads `ref = 7`, `alt = 5`,
`ref_cnt = 200`. -/
def junk_heap : Nat → pileup_entry :=
  fun _ => { ref := 7, alt := 5, ref_freq := 0, alt_freq := 0, ref_cnt := 200, alt_cnt := 0 }

/-- Lines 272–276: the rows of the reference aux table are read from the file
into the block `ref_aux_table`; `aux0` is the content of the memory where no row
is stored. -/
def load_ref_aux_table (aux0 : Nat → aux_table) (rows : List aux_table) : Nat → aux_table :=
  fun i =>
    match rows[i]? with
    | some row => row
    | none => aux0 i

/-- Lines 359–394: the rows of the SNP aux table; the positions and the
`snp_info` bytes are stored, the k-mer and the two frequencies are dropped, and
the pileup table is not touched (the code that did so is commented out). -/
def load_snp_aux_table (aux0 : Nat → snp_aux_table) (rows : List snp_aux_table) :
    Nat → snp_aux_table :=
  fun i =>
    match rows[i]? with
    | some row => row
    | none => aux0 i

/-- What lines 224–394 leave in memory: the two dictionaries and the pileup
table. -/
structure Loaded where
  dicts : Dicts
  pileup : PileupState

/-- Lines 224–394: the reference dictionary, the pileup table of
`max_pos + 32 + 1` zeroed entries, then the SNP dictionary.  `none` is the exit
taken when a dictionary holds more than `POW_2_32` entries. -/
def load_dictionaries (H : LavaH) (heap : Nat → pileup_entry)
    (ref_jumpgate0 snp_jumpgate0 : Nat → Nat)
    (ref_aux0 : Nat → aux_table) (snp_aux0 : Nat → snp_aux_table)
    (ref_file : List ref_file_entry) (ref_aux_rows : List aux_table)
    (snp_file : List snp_file_entry) (snp_aux_rows : List snp_aux_table) : Option Loaded :=
  match load_ref_dict ref_jumpgate0 ref_file with
  | none => none
  | some r =>
    match load_snp_dict H snp_jumpgate0 (pileup_init heap r.max_pos) snp_file with
    | none => none
    | some s =>
      some
        { dicts :=
            { ref_jumpgate := r.ref_jumpgate,
              ref_dict := r.ref_dict,
              ref_dict_size := r.ref_dict_size,
              ref_aux_table := load_ref_aux_table ref_aux0 ref_aux_rows,
              snp_jumpgate := s.snp_jumpgate,
              snp_dict := s.snp_dict,
              snp_dict_size := s.snp_dict_size,
              snp_aux_table := load_snp_aux_table snp_aux0 snp_aux_rows },
          pileup := s.pileup }

/-- A reference dictionary file with two ambiguous k-mers, 32 `A` with aux row 0
and 32 `C` with aux row 1. -/
def aux_ref_file : List ref_file_entry :=
  [{ kmer := 0, pos := 0, ambig_flag := 1 },
   { kmer := 0x5555555555555555, pos := 1, ambig_flag := 1 }]

/-- The aux rows of `aux_ref_file`: 32 `A` at the positions 1000 and 2000, 32
`C` at the positions 1032 and 3000. -/
def aux_ref_rows : List aux_table :=
  [{ pos_list := fun j => if j = 0 then 1000 else if j = 1 then 2000 else 0 },
   { pos_list := fun j => if j = 0 then 1032 else if j = 1 then 3000 else 0 }]

/-- Memory in which every entry reads as a SNP site with reference base `A` and
alternate base `C`, not yet counted. -/
def site_heap : Nat → pileup_entry :=
  fun _ => { ref := 0, alt := 1, ref_freq := 0, alt_freq := 0, ref_cnt := 0, alt_cnt := 0 }

/-- The values that the loop of lines 588–596 assigns to `neighbor`, each with
the `diff_base_pos` of its iteration, in the order of the loop: for `d` from 0
to 31 (`i = 2 * d`) and `j` from 0 to 3, skipping the `j` that is the base of
`kmer` at `d`. -/
def neighbors (kmer : Nat) : List (Nat × Nat) :=
  (List.range 32).flatMap
    (fun d =>
      ((List.range 4).filter (fun j => decide (j ≠ (kmer &&& (3 <<< (2 * d))) >>> (2 * d)))).map
        (fun j => (2 * d / 2, neighbor_of kmer (2 * d) j)))

/-- The cell `cell` is the index of the first key of `kmers` whose high part is at
least `h`: it counts the keys with a smaller high part, it is the length of the
list exactly when every key has a smaller high part, and when some key has the
high part `h` the first such key sits at `cell`. -/
def first_index_of (hi_of : Nat → Nat) (kmers : List Nat) (h cell : Nat) : Prop :=
  cell ≤ kmers.length ∧
  (∀ idx k, kmers[idx]? = some k → (idx < cell ↔ hi_of k < h)) ∧
  (cell = kmers.length ↔ ∀ k ∈ kmers, hi_of k < h) ∧
  ((∃ k ∈ kmers, hi_of k = h) →
    (∃ k, kmers[cell]? = some k ∧ hi_of k = h) ∧
    ∀ idx k, kmers[idx]? = some k → hi_of k = h → cell ≤ idx)

/-- The columns of an aux row that the loops of lines 537–545 (and their copies)
visit before they `break`: the columns below `cols` that precede the first zero
of the row, in row order. -/
def aux_row_columns (pos_list : Nat → Nat) (cols : Nat) : List Nat :=
  (List.range cols).takeWhile (fun i => decide (pos_list i ≠ 0))

/-- The positions of an aux row before its first zero, in row order. -/
def aux_row_positions (pos_list : Nat → Nat) (cols : Nat) : List Nat :=
  (aux_row_columns pos_list cols).map pos_list

/-- One vote from a reference hit for each position of `ps`, in order. -/
def record_ref_hits (st : ProbeState) (kmer : Nat) (ps : List Nat) (offset : Nat) :
    ProbeState :=
  ps.foldl (fun st pos => record_ref_hit st kmer pos offset) st

/-- One vote from a SNP hit for each position of `ps`, in order. -/
def record_snp_hits (st : ProbeState) (kmer : Nat) (ps : List Nat) (offset : Nat) :
    ProbeState :=
  ps.foldl (fun st pos => record_snp_hit st kmer pos offset) st

/-- The hit context stored for a k-mer placed at `pos` that sits at `offset` in
the read. -/
def context_of (kmer offset pos : Nat) : kmer_context :=
  { kmer := kmer, position := read_pos_of pos offset, kmer_pos := pos }

/-- The C expression `pos + diff_base_pos` of lines 603 and 626, a sum of two
32-bit unsigned values. -/
def diff_loc (pos diff_base_pos : Nat) : Nat := (pos + diff_base_pos) % 2 ^ 32

/-- The guard of lines 608–609 and 627–628: the pileup entry at `loc` is blank. -/
def pileup_blank (pileup_table : Nat → pileup_entry) (loc : Nat) : Prop :=
  (pileup_table loc).ref = 0 ∧ (pileup_table loc).alt = 0

instance (pileup_table : Nat → pileup_entry) (loc : Nat) :
    Decidable (pileup_blank pileup_table loc) := by
  unfold pileup_blank; infer_instance

/-- The fields of a pileup entry that the dictionaries set are the same in `q` as
in `p`. -/
def same_site (p q : pileup_entry) : Prop :=
  q.ref = p.ref ∧ q.alt = p.alt ∧ q.ref_freq = p.ref_freq ∧ q.alt_freq = p.alt_freq

/-- The pileup index `i` is one of the 32 that the walk of lines 709–745 visits
for the hit context `c`: the C expression `kmer_pos + i` for an `i` below 32, a
sum of 32-bit unsigned values. -/
def walked_by (c : kmer_context) (i : Nat) : Prop :=
  ∃ j, j < 32 ∧ i = (c.kmer_pos + j) % 2 ^ 32

/-- The table `q` differs from the table `p` only in the counts, and only at
entries with `ref != alt` whose index satisfies `touched`. -/
def framed (p : Nat → pileup_entry) (touched : Nat → Prop) (q : Nat → pileup_entry) : Prop :=
  ∀ i, same_site (p i) (q i) ∧ (q i ≠ p i → (p i).ref ≠ (p i).alt ∧ touched i)

/-- The counts of the table `q` are at least those of the table `p` and at most
`MAX_COV`. -/
def counted_up (H : LavaH) (p q : Nat → pileup_entry) : Prop :=
  ∀ i, (p i).ref_cnt ≤ (q i).ref_cnt ∧ (p i).alt_cnt ≤ (q i).alt_cnt ∧
    (q i).ref_cnt ≤ H.MAX_COV ∧ (q i).alt_cnt ≤ H.MAX_COV

/-- A reference dictionary file with one k-mer: 32 `A` at position 100,
unambiguous. -/
def single_ref_file : List ref_file_entry :=
  [{ kmer := 0, pos := 100, ambig_flag := 0 }]

/-- A SNP dictionary file with one k-mer: 32 `A` with `G` at offset 10, ambiguous,
with aux row 0; the reference base is `A` and the SNP offset is 10. -/
def ambiguous_snp_file : List snp_file_entry :=
  [{ kmer := 2 * 4 ^ 10, pos := 0, snp := 80, ambig_flag := 1, ref_freq := 200,
     alt_freq := 55 }]

/-- The aux row of `ambiguous_snp_file`: the k-mer is the alternate form of the
reference at the positions 100 and 500, with the SNP at offset 10 in both. -/
def ambiguous_snp_rows : List snp_aux_table :=
  [{ pos_list := fun j => if j = 0 then 100 else if j = 1 then 500 else 0,
     snp_list := fun j => if j = 0 then 80 else if j = 1 then 80 else 0 }]

/-- A read of 32 bases, one k-mer: 32 `A` with `G` at offset 10. -/
def alt_read : List Char :=
  List.replicate 10 'A' ++ ['G'] ++ List.replicate 21 'A'

/-- The votes cast while probing, read off the hit contexts: every vote is cast
together with one hit context whose position is the index voted for. -/
def ProbeState.votes (st : ProbeState) : List Nat :=
  (st.ref_hit_contexts ++ st.snp_hit_contexts).map (fun c => c.position)

/-- The number of cells of the arrays `ref_hit_contexts` and `snp_hit_contexts`
(`MAX_HITS`, line 407). -/
def MAX_HITS : Nat := 2000

/-- The probing state fits the arrays of the code: at most `MAX_HITS` hit
contexts of each kind and at most `INDEX_TABLE_ENTRY_DEPTH` entries in every
slot of the voter.  The code stores at `ref_hit_contexts[n_ref_hits++]`,
`snp_hit_contexts[n_snp_hits++]` and `slot->entries[slot->count++]` without a
test (lines 528, 559, 78); the lists and maps of the model describe the code up
to these bounds and not beyond. -/
def ProbeState.within_capacity (st : ProbeState) : Prop :=
  st.ref_hit_contexts.length ≤ MAX_HITS ∧ st.snp_hit_contexts.length ≤ MAX_HITS ∧
  ∀ s, s < INDEX_TABLE_SLOT_COUNT →
    (st.index_table.table s).count ≤ INDEX_TABLE_ENTRY_DEPTH

instance (st : ProbeState) : Decidable st.within_capacity := by
  unfold ProbeState.within_capacity; infer_instance

/-- The state in which the loop of lines 514–687 stops, from the k-mer number
`i` on: the state after the last k-mer, or the state in which an `assert(0)`
stops the program.  Hit contexts and slot entries are only ever added while
probing, so this state bounds every store of the loop. -/
def probe_reach (H : LavaH) (D : Dicts) (pileup_table : Nat → pileup_entry) :
    Nat → List Nat → ProbeState → ProbeState
  | _, [], st => st
  | i, kmer :: rest, st =>
    match direct_ref_hit H D kmer (32 * i % 2 ^ 32) st with
    | .error _ => st
    | .ok st1 =>
      match direct_snp_hit H D kmer (32 * i % 2 ^ 32) st1 with
      | .error _ => st1
      | .ok st2 =>
        probe_reach H D pileup_table (i + 1) rest
          (neighbor_loop H D pileup_table kmer (32 * i % 2 ^ 32) st2)

/-- The voter after the two walks of lines 702–794 from the state `st` reached
by probing. -/
def voter_after_walks (H : LavaH) (st : ProbeState) (pileup_table : Nat → pileup_entry) :
    IndexTable :=
  (walk_contexts H (process_read_of st.index_table) (target_index_of st.index_table)
    st.snp_hit_contexts
    (walk_contexts H (process_read_of st.index_table) (target_index_of st.index_table)
      st.ref_hit_contexts st.index_table pileup_table).1
    (walk_contexts H (process_read_of st.index_table) (target_index_of st.index_table)
      st.ref_hit_contexts st.index_table pileup_table).2).1

/-- What the reverse-complement pass of a read starts from, when the scan makes
one: the forward pass probed its k-mers and was not processed, and the first
`len` characters reverse-complemented are all bases.  The result holds the
k-mers of the pass, and the voter (with `best` and `ambiguous` reset, lines
798–799) and the pileup table that the forward pass leaves. -/
def reverse_pass (H : LavaH) (D : Dicts) (read : List Char) (index_table : IndexTable)
    (pileup_table : Nat → pileup_entry) :
    Option (List Nat × IndexTable × (Nat → pileup_entry)) :=
  match forward_probe H D read index_table pileup_table with
  | none => none
  | some st =>
    if process_read_of st.index_table = false then
      match reverse_complement read (read.length / 32 * 32) with
      | none => none
      | some read1 =>
        match encode_read read1 (read.length / 32 * 32) with
        | none => none
        | some kmers =>
          some (kmers,
            { voter_after_walks H st pileup_table with best := none, ambiguous := false },
            pileup_after_walks H st pileup_table)
    else none

/-- The voter and the hit contexts at the end of the probing of the
reverse-complement pass of a read; `none` when the scan makes no such pass or
the pass stops at an assertion. -/
def reverse_probe (H : LavaH) (D : Dicts) (read : List Char) (index_table : IndexTable)
    (pileup_table : Nat → pileup_entry) : Option ProbeState :=
  match reverse_pass H D read index_table pileup_table with
  | none => none
  | some p =>
    match probe_kmers H D p.2.2 0 p.1
        { index_table := p.2.1, ref_hit_contexts := [], snp_hit_contexts := [] } with
    | .ok st => some st
    | .error _ => none

/-- Every store of the scan of a read stays inside the arrays of the code: the
state in which the probing of the forward pass stops is within capacity, and so
is the state in which the probing of the reverse-complement pass stops, when
the scan makes that pass. -/
def scan_within_capacity (H : LavaH) (D : Dicts) (read : List Char)
    (index_table : IndexTable) (pileup_table : Nat → pileup_entry) : Prop :=
  (match encode_read read (read.length / 32 * 32) with
    | none => True
    | some kmers =>
      (probe_reach H D pileup_table 0 kmers
        { index_table := index_table, ref_hit_contexts := [],
          snp_hit_contexts := [] }).within_capacity) ∧
  (match reverse_pass H D read index_table pileup_table with
    | none => True
    | some p =>
      (probe_reach H D p.2.2 0 p.1
        { index_table := p.2.1, ref_hit_contexts := [],
          snp_hit_contexts := [] }).within_capacity)

instance (H : LavaH) (D : Dicts) (read : List Char) (index_table : IndexTable)
    (pileup_table : Nat → pileup_entry) :
    Decidable (scan_within_capacity H D read index_table pileup_table) := by
  unfold scan_within_capacity
  refine @instDecidableAnd _ _ ?_ ?_
  · split <;> infer_instance
  · split <;> infer_instance

/-- The state `st` is the state at the end of the probing of a pass that the scan
of `read` makes from the voter `index_table` and the table `pileup_table`: the
forward pass, or the reverse-complement pass when the scan makes one. -/
def pass_state (H : LavaH) (D : Dicts) (read : List Char) (index_table : IndexTable)
    (pileup_table : Nat → pileup_entry) (st : ProbeState) : Prop :=
  forward_probe H D read index_table pileup_table = some st ∨
  reverse_probe H D read index_table pileup_table = some st

/-- A processed pass of the scan of `read` has a hit context at the winning index
whose walk visits the pileup index `i`. -/
def read_touches (H : LavaH) (D : Dicts) (read : List Char) (index_table : IndexTable)
    (pileup_table : Nat → pileup_entry) (i : Nat) : Prop :=
  ∃ st, pass_state H D read index_table pileup_table st ∧
    process_read_of st.index_table = true ∧
    ∃ c ∈ st.ref_hit_contexts ++ st.snp_hit_contexts,
      c.position = target_index_of st.index_table ∧ walked_by c i

/-- What the scan of a read may change in the pileup entry at index `i`, from
`pileup_table i` to `q`: the fields set by the dictionaries stay, and a change
needs `ref != alt` and a processed pass of the scan with a hit context at the
winning index whose walk visits `i`. -/
def read_effect (H : LavaH) (D : Dicts) (read : List Char) (index_table : IndexTable)
    (pileup_table : Nat → pileup_entry) (i : Nat) (q : pileup_entry) : Prop :=
  same_site (pileup_table i) q ∧
  (q ≠ pileup_table i →
    (pileup_table i).ref ≠ (pileup_table i).alt ∧
      read_touches H D read index_table pileup_table i)

/-- Memory left behind by an earlier use: every entry reads `ref_cnt = 255` and
`alt_cnt = 255`, the other fields zero. -/
def stale_heap : Nat → pileup_entry :=
  fun _ => { ref := 0, alt := 0, ref_freq := 0, alt_freq := 0, ref_cnt := 255, alt_cnt := 255 }

/-- A reference dictionary file with one k-mer: 32 `A` at position 7,
unambiguous. -/
def early_ref_file : List ref_file_entry :=
  [{ kmer := 0, pos := 7, ambig_flag := 0 }]

/-- A SNP dictionary file with one k-mer: 32 `C` at position 39, unambiguous,
with reference base `A` at offset 31 of the k-mer; the SNP site is position 70. -/
def late_snp_file : List snp_file_entry :=
  [{ kmer := 0x5555555555555555, pos := 39, snp := 248, ambig_flag := 0, ref_freq := 200,
     alt_freq := 55 }]

/-! ## Theorems -/

/-! ### Jumpgate and dictionary lookup -/

/-- In a non-decreasing list, the elements below `h` are exactly those at an index
below their number. -/
theorem sorted_lt_iff_index (l : List Nat) (hs : l.Pairwise (· ≤ ·)) (h : Nat) :
    ∀ i (hi : i < l.length), l[i] < h ↔ i < l.countP (fun x => decide (x < h)) := by
  induction l with
  | nil => intro i hi; simp at hi
  | cons a t ih =>
    intro i hi
    rw [List.pairwise_cons] at hs
    by_cases ha : a < h
    · rw [List.countP_cons_of_pos _ _ (by simpa using ha)]
      cases i with
      | zero => simp [ha]
      | succ j =>
        simp only [List.getElem_cons_succ]
        rw [ih hs.2 j (by simpa using hi)]
        omega
    · have h0 : t.countP (fun x => decide (x < h)) = 0 := by
        rw [List.countP_eq_zero]
        intro x hx
        have := hs.1 x hx
        simp; omega
      rw [List.countP_cons_of_neg _ _ (by simpa using ha), h0]
      cases i with
      | zero => simp; omega
      | succ j =>
        simp only [List.getElem_cons_succ]
        have := hs.1 _ (List.getElem_mem (l := t) (by simpa using hi : j < t.length))
        omega

theorem jumpgate_run_snoc (jg0 : Nat → Nat) (pre : List Nat) (x : Nat) :
    jumpgate_run jg0 (pre ++ [x]) = jumpgate_step (jumpgate_run jg0 pre) x := by
  simp [jumpgate_run, List.foldl_append]

theorem jumpgate_run_inv (jg0 : Nat → Nat) (his : List Nat) (hs : his.Pairwise (· ≤ ·))
    (hb : ∀ x ∈ his, x < 2 ^ 32) (hlen : his.length ≤ 2 ^ 32) :
    (jumpgate_run jg0 his).i = his.length ∧
    (jumpgate_run jg0 his).last_hi = his.getLast?.getD 0 ∧
    ∀ h, h ≤ (jumpgate_run jg0 his).last_hi →
      (jumpgate_run jg0 his).jumpgate h = his.countP (fun x => decide (x < h)) := by
  induction his using List.reverseRecOn with
  | nil =>
    refine ⟨rfl, rfl, ?_⟩
    intro h hh
    have : h = 0 := by simpa [jumpgate_run] using hh
    subst this
    simp [jumpgate_run]
  | append_singleton pre x ih =>
    rw [List.pairwise_append] at hs
    have hpre : ∀ y ∈ pre, y ≤ x := fun y hy => hs.2.2 y hy x (by simp)
    have hlen' : pre.length < 2 ^ 32 := by simp at hlen; omega
    obtain ⟨hi, hl, hj⟩ := ih hs.1 (fun y hy => hb y (by simp [hy])) (by omega)
    have hx : x < 2 ^ 32 := hb x (by simp)
    have hlast : (jumpgate_run jg0 pre).last_hi ≤ x := by
      rw [hl]
      cases hp : pre.getLast? with
      | none => simp
      | some z => simpa using hpre z (List.mem_of_getLast?_eq_some hp)
    have hall : ∀ y ∈ pre, y ≤ (jumpgate_run jg0 pre).last_hi := by
      intro y hy
      rw [hl]
      have hne : pre ≠ [] := List.ne_nil_of_mem hy
      rw [List.getLast?_eq_getLast _ hne]
      simp only [Option.getD_some]
      have := hs.1
      rcases List.mem_iff_getElem.1 hy with ⟨n, hn, rfl⟩
      rw [List.getLast_eq_getElem]
      by_cases hlt : n < pre.length - 1
      · exact List.pairwise_iff_getElem.1 hs.1 n (pre.length - 1) hn (by omega) hlt
      · have : n = pre.length - 1 := by omega
        subst this; exact le_refl _
    rw [jumpgate_run_snoc]
    unfold jumpgate_step
    by_cases hxe : x = (jumpgate_run jg0 pre).last_hi
    · simp only [hxe, ne_eq, not_true_eq_false, if_false]
      refine ⟨by simp [hi], by simp, ?_⟩
      intro h hh
      rw [hj h hh, List.countP_append]
      simp; omega
    · simp only [ne_eq, hxe, not_false_eq_true, if_true]
      refine ⟨by simp [hi], by simp, ?_⟩
      intro h hh
      rw [List.countP_append]
      have hx0 : List.countP (fun y => decide (y < h)) [x] = 0 := by simp; omega
      rw [hx0, Nat.add_zero]
      unfold jumpgate_fill
      have hm : ((jumpgate_run jg0 pre).last_hi + 1) % 2 ^ 32 = (jumpgate_run jg0 pre).last_hi + 1 :=
        Nat.mod_eq_of_lt (by omega)
      rw [hm, hi, Nat.mod_eq_of_lt hlen']
      by_cases hc : (jumpgate_run jg0 pre).last_hi + 1 ≤ h
      · rw [if_pos ⟨hc, hh⟩]
        have hcp : List.countP (fun y => decide (y < h)) pre = pre.length := by
          rw [List.countP_eq_length]
          intro y hy
          have := hall y hy
          simp; omega
        omega
      · rw [if_neg (fun hcc => hc hcc.1)]
        exact hj h (by omega)

theorem bsearch_loop_spec (key : Nat) (elem : Nat → Option Nat) (n : Nat) (f : Nat → Nat)
    (hel : ∀ i, i < n → elem i = some (f i))
    (hmono : ∀ i j, i < j → j < n → f i < f j) :
    ∀ fuel l u, u ≤ n → u - l ≤ fuel →
      ∀ r, bsearch_loop key elem fuel l u = some r ↔ (l ≤ r ∧ r < u ∧ f r = key) := by
  have hle : ∀ i j, i ≤ j → j < n → f i ≤ f j := by
    intro i j hij hj
    rcases Nat.eq_or_lt_of_le hij with h | h
    · subst h; exact le_refl _
    · exact le_of_lt (hmono i j h hj)
  intro fuel
  induction fuel with
  | zero =>
    intro l u _ hf r
    simp only [bsearch_loop]
    constructor
    · intro h; cases h
    · rintro ⟨h1, h2, _⟩; omega
  | succ fuel ih =>
    intro l u hu hf r
    simp only [bsearch_loop]
    by_cases hlu : l < u
    · rw [if_pos hlu]
      have hidx1 : l ≤ (l + u) / 2 := by omega
      have hidx2 : (l + u) / 2 < u := by omega
      rw [hel _ (by omega)]
      simp only
      by_cases h1 : key < f ((l + u) / 2)
      · rw [if_pos h1, ih l ((l + u) / 2) (by omega) (by omega) r]
        constructor
        · rintro ⟨a, b, c⟩; exact ⟨a, by omega, c⟩
        · rintro ⟨a, b, c⟩
          refine ⟨a, ?_, c⟩
          by_contra hcon
          have := hle ((l + u) / 2) r (by omega) (by omega)
          omega
      · rw [if_neg h1]
        by_cases h2 : key > f ((l + u) / 2)
        · rw [if_pos h2, ih ((l + u) / 2 + 1) u hu (by omega) r]
          constructor
          · rintro ⟨a, b, c⟩; exact ⟨by omega, b, c⟩
          · rintro ⟨a, b, c⟩
            refine ⟨?_, b, c⟩
            by_contra hcon
            have := hle r ((l + u) / 2) (by omega) (by omega)
            omega
        · rw [if_neg h2]
          have he : f ((l + u) / 2) = key := by omega
          constructor
          · intro h
            have : (l + u) / 2 = r := by simpa using h
            subst this
            exact ⟨hidx1, hidx2, he⟩
          · rintro ⟨a, b, c⟩
            have : (l + u) / 2 = r := by
              rcases Nat.lt_trichotomy ((l + u) / 2) r with h | h | h
              · have := hmono _ _ h (by omega); omega
              · exact h
              · have := hmono _ _ h (by omega); omega
            rw [this]
    · rw [if_neg hlu]
      constructor
      · intro h; cases h
      · rintro ⟨h1, h2, _⟩; omega

theorem query_ref_dict_eq (key : Nat) (jg : Nat → Nat) (d : List kmer_entry) (n : Nat) :
    query_ref_dict key jg d n
      = query_dict HI LO 0xFFFFFFFF key jg (d.map (fun e => e.kmer_lo)) n := by
  simp [query_ref_dict, query_dict, List.getElem?_map]

theorem query_snp_dict_eq (key : Nat) (jg : Nat → Nat) (d : List snp_kmer_entry) (n : Nat) :
    query_snp_dict key jg d n
      = query_dict HI24 LO40 0xFFFFFF key jg (d.map (fun e => e.kmer_lo40)) n := by
  simp [query_snp_dict, query_dict, List.getElem?_map]

/-- Closed form of the jumpgate of a sorted dictionary: up to the last high part
that occurs the cell holds the number of entries with a smaller high part, above
it the cell holds the truncated dictionary size. -/
theorem build_jumpgate_eq (jg0 : Nat → Nat) (max_hi : Nat) (his : List Nat)
    (hs : his.Pairwise (· ≤ ·)) (hb : ∀ x ∈ his, x ≤ max_hi) (hmax : max_hi < 2 ^ 32)
    (hlen : his.length ≤ 2 ^ 32) (h : Nat) (hh : h ≤ max_hi) :
    build_jumpgate jg0 max_hi his his.length h
      = if h ≤ his.getLast?.getD 0 then his.countP (fun x => decide (x < h))
        else his.length % 2 ^ 32 := by
  obtain ⟨_, hl, hj⟩ := jumpgate_run_inv jg0 his hs (fun x hx => by have := hb x hx; omega) hlen
  unfold build_jumpgate
  by_cases hc : (jumpgate_run jg0 his).last_hi = max_hi
  · rw [if_neg (by simpa using hc)]
    rw [← hl, if_pos (by omega)]
    exact hj h (by omega)
  · rw [if_pos hc]
    unfold jumpgate_fill
    rw [← hl]
    by_cases hle : h ≤ (jumpgate_run jg0 his).last_hi
    · rw [if_neg (by omega), if_pos hle]
      exact hj h hle
    · rw [if_pos ⟨by omega, hh⟩, if_neg hle]

theorem getLast_max_of_sorted (his : List Nat) (hs : his.Pairwise (· ≤ ·)) :
    ∀ y ∈ his, y ≤ his.getLast?.getD 0 := by
  intro y hy
  have hne : his ≠ [] := List.ne_nil_of_mem hy
  rw [List.getLast?_eq_getLast _ hne]
  simp only [Option.getD_some]
  rcases List.mem_iff_getElem.1 hy with ⟨n, hn, rfl⟩
  rw [List.getLast_eq_getElem]
  by_cases hlt : n < his.length - 1
  · exact List.pairwise_iff_getElem.1 hs n (his.length - 1) hn (by omega) hlt
  · have : n = his.length - 1 := by omega
    subst this; exact le_refl _

/-- For a sorted dictionary with fewer than `2 ^ 32` entries every jumpgate cell
holds the number of entries with a smaller high part. -/
theorem build_jumpgate_count (jg0 : Nat → Nat) (max_hi : Nat) (his : List Nat)
    (hs : his.Pairwise (· ≤ ·)) (hb : ∀ x ∈ his, x ≤ max_hi) (hmax : max_hi < 2 ^ 32)
    (hlen : his.length < 2 ^ 32) (h : Nat) (hh : h ≤ max_hi) :
    build_jumpgate jg0 max_hi his his.length h = his.countP (fun x => decide (x < h)) := by
  rw [build_jumpgate_eq jg0 max_hi his hs hb hmax (by omega) h hh]
  by_cases hle : h ≤ his.getLast?.getD 0
  · rw [if_pos hle]
  · rw [if_neg hle, Nat.mod_eq_of_lt hlen]
    symm
    rw [List.countP_eq_length]
    intro y hy
    have := getLast_max_of_sorted his hs y hy
    simp; omega

theorem countP_lt_mono (his : List Nat) (a b : Nat) (hab : a ≤ b) :
    his.countP (fun x => decide (x < a)) ≤ his.countP (fun x => decide (x < b)) := by
  apply List.countP_mono_left
  intro x _ hx
  simp at hx ⊢
  omega

/-- The slice of a sorted dictionary delimited by two consecutive jumpgate cells
holds exactly the entries with that high part. -/
theorem jumpgate_slice (jg0 : Nat → Nat) (max_hi : Nat) (his : List Nat)
    (hs : his.Pairwise (· ≤ ·)) (hb : ∀ x ∈ his, x ≤ max_hi) (hmax : max_hi < 2 ^ 32)
    (hlen : his.length < 2 ^ 32) (h : Nat) (hh : h ≤ max_hi) :
    build_jumpgate jg0 max_hi his his.length h
      ≤ (if h = max_hi then his.length
         else build_jumpgate jg0 max_hi his his.length (h + 1)) ∧
    (if h = max_hi then his.length
      else build_jumpgate jg0 max_hi his his.length (h + 1)) ≤ his.length ∧
    ∀ idx (hidx : idx < his.length),
      (build_jumpgate jg0 max_hi his his.length h ≤ idx ∧
        idx < (if h = max_hi then his.length
               else build_jumpgate jg0 max_hi his his.length (h + 1))) ↔ his[idx] = h := by
  have hup : (if h = max_hi then his.length
      else build_jumpgate jg0 max_hi his his.length (h + 1))
      = his.countP (fun x => decide (x < h + 1)) := by
    by_cases hm : h = max_hi
    · rw [if_pos hm]
      symm
      rw [List.countP_eq_length]
      intro y hy
      have := hb y hy
      simp; omega
    · rw [if_neg hm]
      exact build_jumpgate_count jg0 max_hi his hs hb hmax hlen (h + 1) (by omega)
  refine ⟨?_, ?_, ?_⟩
  · rw [hup, build_jumpgate_count jg0 max_hi his hs hb hmax hlen h hh]
    exact countP_lt_mono his h (h + 1) (by omega)
  · rw [hup]
    exact List.countP_le_length _
  · intro idx hidx
    rw [hup, build_jumpgate_count jg0 max_hi his hs hb hmax hlen h hh]
    have h1 := sorted_lt_iff_index his hs h idx hidx
    have h2 := sorted_lt_iff_index his hs (h + 1) idx hidx
    omega

theorem query_dict_spec {hi_of lo_of : Nat → Nat} {max_hi : Nat}
    (S : KeySplit hi_of lo_of max_hi) (jg0 : Nat → Nat) (kmers : List Nat)
    (hs : kmers.Pairwise (· < ·)) (hb : ∀ k ∈ kmers, k < 2 ^ 64)
    (hlen : kmers.length < 2 ^ 32) (key : Nat) (hkey : key < 2 ^ 64) (idx : Nat) :
    query_dict hi_of lo_of max_hi key
        (build_jumpgate jg0 max_hi (kmers.map hi_of) kmers.length)
        (kmers.map lo_of) kmers.length = some idx
      ↔ kmers[idx]? = some key := by
  have hsh : (kmers.map hi_of).Pairwise (· ≤ ·) := by
    rw [List.pairwise_map]
    refine List.Pairwise.imp_of_mem ?_ hs
    intro a b _ hbm hab
    exact S.hi_mono a b (le_of_lt hab) (hb b hbm)
  have hbh : ∀ x ∈ kmers.map hi_of, x ≤ max_hi := by
    intro x hx
    rcases List.mem_map.1 hx with ⟨k, _, rfl⟩
    exact S.hi_le k
  have hlenh : (kmers.map hi_of).length < 2 ^ 32 := by simpa using hlen
  have hsl := jumpgate_slice jg0 max_hi (kmers.map hi_of) hsh hbh S.max_lt hlenh
    (hi_of key) (S.hi_le key)
  simp only [List.length_map] at hsl
  obtain ⟨hlu0, hup_le, hsl⟩ := hsl
  unfold query_dict
  simp only []
  generalize build_jumpgate jg0 max_hi (kmers.map hi_of) kmers.length (hi_of key) = lo
    at hsl hlu0 ⊢
  generalize (if hi_of key = max_hi then kmers.length
      else build_jumpgate jg0 max_hi (kmers.map hi_of) kmers.length (hi_of key + 1)) = up
    at hsl hup_le hlu0 ⊢
  have hbucket : ∀ i (hi : i < kmers.length),
      (lo ≤ i ∧ i < up) ↔ hi_of kmers[i] = hi_of key := by
    intro i hi
    rw [hsl i hi, List.getElem_map]
  have hkeyidx : kmers[idx]? = some key → idx < kmers.length ∧ lo ≤ idx ∧ idx < up := by
    intro h
    rcases List.getElem?_eq_some.1 h with ⟨hi, he⟩
    exact ⟨hi, (hbucket idx hi).2 (by rw [he])⟩
  by_cases h1 : lo = kmers.length
  · rw [if_pos h1]
    constructor
    · intro h; cases h
    · intro h; have := hkeyidx h; omega
  rw [if_neg h1, Nat.mod_eq_of_lt (by omega : up < 2 ^ 32)]
  by_cases h2 : lo = up
  · rw [if_pos h2]
    constructor
    · intro h; cases h
    · intro h; have := hkeyidx h; omega
  rw [if_neg h2]
  have hlu : lo < up := by omega
  have hn : (up + 2 ^ 32 - lo) % 2 ^ 32 = up - lo := by omega
  rw [hn]
  unfold bsearch
  have hspec := bsearch_loop_spec (lo_of key) (fun i => (kmers.map lo_of)[lo + i]?) (up - lo)
    (fun i => lo_of (kmers.getD (lo + i) 0))
    (by
      intro i hi
      have : lo + i < kmers.length := by omega
      simp [List.getElem?_map, List.getElem?_eq_getElem this, List.getD_eq_getElem _ _ this])
    (by
      intro i j hij hj
      have hi1 : lo + i < kmers.length := by omega
      have hj1 : lo + j < kmers.length := by omega
      beta_reduce
      rw [List.getD_eq_getElem _ _ hi1, List.getD_eq_getElem _ _ hj1]
      have hlt := List.pairwise_iff_getElem.1 hs (lo + i) (lo + j) hi1 hj1 (by omega)
      have e1 := (hbucket (lo + i) hi1).1 ⟨by omega, by omega⟩
      have e2 := (hbucket (lo + j) hj1).1 ⟨by omega, by omega⟩
      exact (S.lo_lt _ _ (hb _ (List.getElem_mem _)) (hb _ (List.getElem_mem _))
        (by rw [e1, e2])).1 hlt)
    (up - lo) 0 (up - lo) (le_refl _) (by omega)
  constructor
  · intro h
    rcases Option.map_eq_some'.1 h with ⟨r, hr, rfl⟩
    rcases (hspec r).1 hr with ⟨_, hru, hre⟩
    have hi1 : lo + r < kmers.length := by omega
    beta_reduce at hre
    rw [List.getD_eq_getElem _ _ hi1] at hre
    have e1 := (hbucket (lo + r) hi1).1 ⟨by omega, by omega⟩
    rw [List.getElem?_eq_getElem hi1]
    congr 1
    have hk := hb _ (List.getElem_mem (l := kmers) hi1)
    rcases Nat.lt_trichotomy kmers[lo + r] key with hc | hc | hc
    · have := (S.lo_lt _ _ hk hkey e1).1 hc; omega
    · exact hc
    · have := (S.lo_lt _ _ hkey hk e1.symm).1 hc; omega
  · intro h
    obtain ⟨hi, h3, h4⟩ := hkeyidx h
    rcases List.getElem?_eq_some.1 h with ⟨_, he⟩
    rw [Option.map_eq_some']
    refine ⟨idx - lo, (hspec (idx - lo)).2 ⟨Nat.zero_le _, by omega, ?_⟩, by omega⟩
    have : lo + (idx - lo) = idx := by omega
    beta_reduce
    rw [this, List.getD_eq_getElem _ _ hi, he]

theorem keySplit_ref : KeySplit HI LO 0xFFFFFFFF where
  max_lt := by norm_num
  hi_le := by intro k; unfold HI; omega
  hi_mono := by intro k k1 h1 h2; unfold HI; omega
  lo_lt := by intro k k1 h1 h2; unfold HI LO; omega

theorem keySplit_snp : KeySplit HI24 LO40 0xFFFFFF where
  max_lt := by norm_num
  hi_le := by intro k; unfold HI24; omega
  hi_mono := by intro k k1 h1 h2; unfold HI24; omega
  lo_lt := by intro k k1 h1 h2; unfold HI24 LO40; omega

theorem range_ref_file_length (n : Nat) : (range_ref_file n).length = n := by
  simp [range_ref_file]

theorem range_ref_file_kmers (n : Nat) :
    (range_ref_file n).map (fun e => e.kmer) = List.range n := by
  simp [range_ref_file, Function.comp_def]

theorem range_ref_file_his (n : Nat) (hn : n ≤ 2 ^ 32) :
    (range_ref_file n).map (fun e => HI e.kmer) = List.replicate n 0 := by
  rw [List.eq_replicate_iff]
  refine ⟨by simp [range_ref_file], ?_⟩
  intro b hb
  simp only [range_ref_file, List.map_map, List.mem_map, List.mem_range,
    Function.comp] at hb
  obtain ⟨k, hk, rfl⟩ := hb
  unfold HI
  omega

/-- The jumpgate of a dictionary whose entries all have high part `0` and whose
size is a multiple of `2 ^ 32`: cells `0` and `1` both hold `0`. -/
theorem build_jumpgate_replicate_zero (jg0 : Nat → Nat) (max_hi n : Nat) (hmax : 0 < max_hi)
    (hm32 : max_hi < 2 ^ 32) (hn : n ≤ 2 ^ 32) (hn0 : n % 2 ^ 32 = 0) :
    build_jumpgate jg0 max_hi (List.replicate n 0) n 0 = 0 ∧
    build_jumpgate jg0 max_hi (List.replicate n 0) n 1 = 0 := by
  have hs : (List.replicate n 0).Pairwise (· ≤ ·) := by
    rw [List.pairwise_replicate]; right; exact le_refl _
  have hb : ∀ x ∈ List.replicate n 0, x ≤ max_hi := by
    intro x hx; rw [List.eq_of_mem_replicate hx]; omega
  have hlen : (List.replicate n 0).length = n := List.length_replicate _ _
  have hlast : (List.replicate n 0).getLast?.getD 0 = 0 := by
    cases h : (List.replicate n 0).getLast? with
    | none => rfl
    | some z =>
      have := List.eq_of_mem_replicate (List.mem_of_getLast?_eq_some h)
      rw [this]; rfl
  have e0 := build_jumpgate_eq jg0 max_hi _ hs hb hm32 (by rw [hlen]; exact hn) 0 (by omega)
  have e1 := build_jumpgate_eq jg0 max_hi _ hs hb hm32 (by rw [hlen]; exact hn) 1 (by omega)
  rw [hlen, hlast] at e0 e1
  constructor
  · rw [e0, if_pos (le_refl _), List.countP_eq_zero]
    intro x _
    simp
  · rw [e1, if_neg (by omega), hn0]

/-- C1, failing input. A reference dictionary file of exactly `2 ^ 32` entries
with the k-mers `0, 1, ..., 2 ^ 32 - 1` is sorted without duplicates, passes the
size check of the loader and contains the key `5`; the jumpgate cells above the
last high half receive the dictionary size truncated to 32 bits, which is `0`,
and `query_ref_dict` returns `NULL` for the key. -/
theorem query_ref_dict_full_dictionary :
    ((range_ref_file POW_2_32).map (fun e => e.kmer)).Pairwise (· < ·) ∧
    (∀ e ∈ range_ref_file POW_2_32, e.kmer < 2 ^ 64) ∧
    (∃ e ∈ range_ref_file POW_2_32, e.kmer = 5) ∧
    ∀ jumpgate0, ∃ d, load_ref_dict jumpgate0 (range_ref_file POW_2_32) = some d ∧
      query_ref_dict 5 d.ref_jumpgate d.ref_dict d.ref_dict_size = none := by
  have hP : POW_2_32 = 2 ^ 32 := rfl
  refine ⟨?_, ?_, ?_, ?_⟩
  · rw [range_ref_file_kmers]
    exact List.pairwise_lt_range _
  · intro e he
    simp only [range_ref_file, List.mem_map, List.mem_range] at he
    obtain ⟨k, hk, rfl⟩ := he
    show k < 2 ^ 64
    omega
  · refine ⟨{ kmer := 5, pos := 1, ambig_flag := 0 }, ?_, rfl⟩
    simp only [range_ref_file, List.mem_map, List.mem_range]
    exact ⟨5, by rw [hP]; norm_num, rfl⟩
  · intro jg0
    refine ⟨_, by
      unfold load_ref_dict
      rw [if_neg (by rw [range_ref_file_length]; exact lt_irrefl _)], ?_⟩
    obtain ⟨h0, h1⟩ := build_jumpgate_replicate_zero jg0 0xFFFFFFFF POW_2_32 (by norm_num)
      (by norm_num) (le_of_eq hP) (by rw [hP]; rfl)
    have hhi : HI 5 = 0 := by unfold HI; norm_num
    dsimp only
    rw [range_ref_file_his _ (le_of_eq hP), range_ref_file_length]
    unfold query_ref_dict
    have c1 : ¬ ((0 : Nat) = POW_2_32) := by rw [hP]; norm_num
    have c2 : ¬ ((0 : Nat) = 4294967295) := by norm_num
    simp only [hhi, h0, c1, c2, if_false, Nat.zero_add, h1, Nat.zero_mod, if_true]

/-- The index that a lookup returns lies in the jumpgate bucket of the key's high
part. -/
theorem query_dict_bucket {hi_of lo_of : Nat → Nat} {max_hi : Nat}
    (S : KeySplit hi_of lo_of max_hi) (jg0 : Nat → Nat) (kmers : List Nat)
    (hs : kmers.Pairwise (· < ·)) (hb : ∀ k ∈ kmers, k < 2 ^ 64)
    (hlen : kmers.length < 2 ^ 32) (key : Nat) (idx : Nat)
    (hk : kmers[idx]? = some key) :
    build_jumpgate jg0 max_hi (kmers.map hi_of) kmers.length (hi_of key) ≤ idx ∧
    idx < (if hi_of key = max_hi then kmers.length
      else build_jumpgate jg0 max_hi (kmers.map hi_of) kmers.length (hi_of key + 1)) := by
  have hsh : (kmers.map hi_of).Pairwise (· ≤ ·) := by
    rw [List.pairwise_map]
    refine List.Pairwise.imp_of_mem ?_ hs
    intro a b _ hbm hab
    exact S.hi_mono a b (le_of_lt hab) (hb b hbm)
  have hbh : ∀ x ∈ kmers.map hi_of, x ≤ max_hi := by
    intro x hx
    rcases List.mem_map.1 hx with ⟨k, _, rfl⟩
    exact S.hi_le k
  have hsl := (jumpgate_slice jg0 max_hi (kmers.map hi_of) hsh hbh S.max_lt
    (by simpa using hlen) (hi_of key) (S.hi_le key)).2.2
  simp only [List.length_map] at hsl
  rcases List.getElem?_eq_some.1 hk with ⟨hi, he⟩
  exact (hsl idx hi).2 (by simp [he])

/-- Lookup in a loaded reference dictionary with fewer than `2 ^ 32` entries: the
query returns index `idx` exactly when entry `idx` of the file carries the key,
and then the entry found holds the key's low half and lies in the bucket of the
key's high half. -/
theorem query_ref_dict_correct (jumpgate0 : Nat → Nat) (file : List ref_file_entry)
    (hs : (file.map (fun e => e.kmer)).Pairwise (· < ·))
    (hb : ∀ e ∈ file, e.kmer < 2 ^ 64) (hlen : file.length < 2 ^ 32)
    (key : Nat) (hkey : key < 2 ^ 64) :
    ∃ d, load_ref_dict jumpgate0 file = some d ∧
      (∀ idx, query_ref_dict key d.ref_jumpgate d.ref_dict d.ref_dict_size = some idx
        ↔ (file.map (fun e => e.kmer))[idx]? = some key) ∧
      (∀ idx, query_ref_dict key d.ref_jumpgate d.ref_dict d.ref_dict_size = some idx →
        (d.ref_dict[idx]?).map (fun e => e.kmer_lo) = some (LO key) ∧
        d.ref_jumpgate (HI key) ≤ idx ∧
        idx < (if HI key = 0xFFFFFFFF then d.ref_dict_size
               else d.ref_jumpgate (HI key + 1))) := by
  have hb1 : ∀ k ∈ file.map (fun e => e.kmer), k < 2 ^ 64 := by
    intro k hk
    rcases List.mem_map.1 hk with ⟨e, he, rfl⟩
    exact hb e he
  have hspec := query_dict_spec keySplit_ref jumpgate0 (file.map (fun e => e.kmer)) hs hb1
    (by simpa using hlen) key hkey
  have hbuck := query_dict_bucket keySplit_ref jumpgate0 (file.map (fun e => e.kmer)) hs hb1
    (by simpa using hlen) key
  simp only [List.map_map, List.length_map, Function.comp_def] at hspec hbuck
  refine ⟨_, by unfold load_ref_dict; rw [if_neg (by unfold POW_2_32; omega)], ?_, ?_⟩
  · intro idx
    dsimp only
    rw [query_ref_dict_eq]
    simp only [List.map_map, Function.comp_def]
    exact hspec idx
  · intro idx hq
    dsimp only at hq ⊢
    rw [query_ref_dict_eq] at hq
    simp only [List.map_map, Function.comp_def] at hq
    have hk := (hspec idx).1 hq
    refine ⟨?_, hbuck idx hk⟩
    rw [List.getElem?_map] at hk ⊢
    cases hf : file[idx]? with
    | none => rw [hf] at hk; cases hk
    | some e =>
      rw [hf] at hk
      simp only [Option.map_some', Option.some.injEq] at hk ⊢
      rw [hk]

/-- Lookup in a loaded SNP dictionary with fewer than `2 ^ 32` entries, with the
24/40-bit split. -/
theorem query_snp_dict_correct (H : LavaH) (jumpgate0 : Nat → Nat) (pileup : PileupState)
    (file : List snp_file_entry)
    (hs : (file.map (fun e => e.kmer)).Pairwise (· < ·))
    (hb : ∀ e ∈ file, e.kmer < 2 ^ 64) (hlen : file.length < 2 ^ 32)
    (key : Nat) (hkey : key < 2 ^ 64) :
    ∃ d, load_snp_dict H jumpgate0 pileup file = some d ∧
      (∀ idx, query_snp_dict key d.snp_jumpgate d.snp_dict d.snp_dict_size = some idx
        ↔ (file.map (fun e => e.kmer))[idx]? = some key) ∧
      (∀ idx, query_snp_dict key d.snp_jumpgate d.snp_dict d.snp_dict_size = some idx →
        (d.snp_dict[idx]?).map (fun e => e.kmer_lo40) = some (LO40 key) ∧
        d.snp_jumpgate (HI24 key) ≤ idx ∧
        idx < (if HI24 key = 0xFFFFFF then d.snp_dict_size
               else d.snp_jumpgate (HI24 key + 1))) := by
  have hb1 : ∀ k ∈ file.map (fun e => e.kmer), k < 2 ^ 64 := by
    intro k hk
    rcases List.mem_map.1 hk with ⟨e, he, rfl⟩
    exact hb e he
  have hspec := query_dict_spec keySplit_snp jumpgate0 (file.map (fun e => e.kmer)) hs hb1
    (by simpa using hlen) key hkey
  have hbuck := query_dict_bucket keySplit_snp jumpgate0 (file.map (fun e => e.kmer)) hs hb1
    (by simpa using hlen) key
  simp only [List.map_map, List.length_map, Function.comp_def] at hspec hbuck
  refine ⟨_, by unfold load_snp_dict; rw [if_neg (by unfold POW_2_32; omega)], ?_, ?_⟩
  · intro idx
    dsimp only
    rw [query_snp_dict_eq]
    simp only [List.map_map, Function.comp_def]
    exact hspec idx
  · intro idx hq
    dsimp only at hq ⊢
    rw [query_snp_dict_eq] at hq
    simp only [List.map_map, Function.comp_def] at hq
    have hk := (hspec idx).1 hq
    refine ⟨?_, hbuck idx hk⟩
    rw [List.getElem?_map] at hk ⊢
    cases hf : file[idx]? with
    | none => rw [hf] at hk; cases hk
    | some e =>
      rw [hf] at hk
      simp only [Option.map_some', Option.some.injEq] at hk ⊢
      rw [hk]

theorem range_snp_file_length (n : Nat) : (range_snp_file n).length = n := by
  simp [range_snp_file]

theorem range_snp_file_kmers (n : Nat) :
    (range_snp_file n).map (fun e => e.kmer) = List.range n := by
  simp [range_snp_file, Function.comp_def]

theorem range_snp_file_his (n : Nat) (hn : n ≤ 2 ^ 32) :
    (range_snp_file n).map (fun e => HI24 e.kmer) = List.replicate n 0 := by
  rw [List.eq_replicate_iff]
  refine ⟨by simp [range_snp_file], ?_⟩
  intro b hb
  simp only [range_snp_file, List.map_map, List.mem_map, List.mem_range,
    Function.comp] at hb
  obtain ⟨k, hk, rfl⟩ := hb
  unfold HI24
  omega

/-- The SNP lookup on a sorted dictionary of exactly `2 ^ 32` entries: the key `5`
is in the file and the query returns `NULL`. -/
theorem query_snp_dict_full_dictionary (H : LavaH) (pileup : PileupState) :
    ((range_snp_file POW_2_32).map (fun e => e.kmer)).Pairwise (· < ·) ∧
    (∀ e ∈ range_snp_file POW_2_32, e.kmer < 2 ^ 64) ∧
    (∃ e ∈ range_snp_file POW_2_32, e.kmer = 5) ∧
    ∀ jumpgate0, ∃ d, load_snp_dict H jumpgate0 pileup (range_snp_file POW_2_32) = some d ∧
      query_snp_dict 5 d.snp_jumpgate d.snp_dict d.snp_dict_size = none := by
  have hP : POW_2_32 = 2 ^ 32 := rfl
  refine ⟨?_, ?_, ?_, ?_⟩
  · rw [range_snp_file_kmers]
    exact List.pairwise_lt_range _
  · intro e he
    simp only [range_snp_file, List.mem_map, List.mem_range] at he
    obtain ⟨k, hk, rfl⟩ := he
    show k < 2 ^ 64
    omega
  · refine ⟨{ kmer := 5, pos := 1, snp := 0, ambig_flag := 0, ref_freq := 0, alt_freq := 0 },
      ?_, rfl⟩
    simp only [range_snp_file, List.mem_map, List.mem_range]
    exact ⟨5, by rw [hP]; norm_num, rfl⟩
  · intro jg0
    refine ⟨_, by
      unfold load_snp_dict
      rw [if_neg (by rw [range_snp_file_length]; exact lt_irrefl _)], ?_⟩
    obtain ⟨h0, h1⟩ := build_jumpgate_replicate_zero jg0 0xFFFFFF POW_2_32 (by norm_num)
      (by norm_num) (le_of_eq hP) (by rw [hP]; rfl)
    have hhi : HI24 5 = 0 := by unfold HI24; norm_num
    dsimp only
    rw [range_snp_file_his _ (le_of_eq hP), range_snp_file_length]
    unfold query_snp_dict
    have c1 : ¬ ((0 : Nat) = POW_2_32) := by rw [hP]; norm_num
    have c2 : ¬ ((0 : Nat) = 16777215) := by norm_num
    simp only [hhi, h0, c1, c2, if_false, Nat.zero_add, h1, Nat.zero_mod, if_true]

/-- C3, failing input. The jumpgate of a sorted reference dictionary of exactly
`2 ^ 32` entries, all with high half `0`: the cells `0` and `1` both hold `0`, so the slice they delimit
is empty, although entry `0` has high half `0`; and cell `1` does not hold the
dictionary size. -/
theorem ref_jumpgate_full_dictionary :
    ((range_ref_file POW_2_32).map (fun e => e.kmer)).Pairwise (· ≤ ·) ∧
    ∀ jumpgate0, ∃ d, load_ref_dict jumpgate0 (range_ref_file POW_2_32) = some d ∧
      d.ref_jumpgate 0 = 0 ∧ d.ref_jumpgate 1 = 0 ∧ d.ref_dict_size = 2 ^ 32 ∧
      (∃ e, (range_ref_file POW_2_32)[0]? = some e ∧ HI e.kmer = 0) ∧
      ¬ ((d.ref_jumpgate 0 ≤ 0 ∧ 0 < d.ref_jumpgate 1) ↔
          ∃ e, (range_ref_file POW_2_32)[0]? = some e ∧ HI e.kmer = 0) := by
  have hP : POW_2_32 = 2 ^ 32 := rfl
  have hentry : ∃ e, (range_ref_file POW_2_32)[0]? = some e ∧ HI e.kmer = 0 := by
    refine ⟨{ kmer := 0, pos := 1, ambig_flag := 0 }, ?_, by unfold HI; norm_num⟩
    unfold range_ref_file
    rw [List.getElem?_map, List.getElem?_range (by rw [hP]; norm_num)]
    rfl
  constructor
  · rw [range_ref_file_kmers]
    exact (List.pairwise_lt_range _).imp (fun h => le_of_lt h)
  · intro jg0
    refine ⟨_, by
      unfold load_ref_dict
      rw [if_neg (by rw [range_ref_file_length]; exact lt_irrefl _)], ?_⟩
    obtain ⟨h0, h1⟩ := build_jumpgate_replicate_zero jg0 0xFFFFFFFF POW_2_32 (by norm_num)
      (by norm_num) (le_of_eq hP) (by rw [hP]; rfl)
    dsimp only
    rw [range_ref_file_his _ (le_of_eq hP), range_ref_file_length]
    refine ⟨h0, h1, hP, hentry, ?_⟩
    rw [h0, h1]
    intro hiff
    have := hiff.2 hentry
    omega

/-- The jumpgate invariant for a sorted list of keys and fewer than `2 ^ 32`
entries, for either key split. -/
theorem jumpgate_invariant {hi_of lo_of : Nat → Nat} {max_hi : Nat}
    (S : KeySplit hi_of lo_of max_hi) (jg0 : Nat → Nat) (kmers : List Nat)
    (hs : kmers.Pairwise (· ≤ ·)) (hb : ∀ k ∈ kmers, k < 2 ^ 64)
    (hlen : kmers.length < 2 ^ 32) (h : Nat) (hh : h ≤ max_hi) :
    (h < max_hi → build_jumpgate jg0 max_hi (kmers.map hi_of) kmers.length h
        ≤ build_jumpgate jg0 max_hi (kmers.map hi_of) kmers.length (h + 1)) ∧
    ∀ idx k, kmers[idx]? = some k →
      ((build_jumpgate jg0 max_hi (kmers.map hi_of) kmers.length h ≤ idx ∧
        idx < (if h = max_hi then kmers.length
               else build_jumpgate jg0 max_hi (kmers.map hi_of) kmers.length (h + 1)))
        ↔ hi_of k = h) := by
  have hsh : (kmers.map hi_of).Pairwise (· ≤ ·) := by
    rw [List.pairwise_map]
    refine List.Pairwise.imp_of_mem ?_ hs
    intro a b _ hbm hab
    exact S.hi_mono a b hab (hb b hbm)
  have hbh : ∀ x ∈ kmers.map hi_of, x ≤ max_hi := by
    intro x hx
    rcases List.mem_map.1 hx with ⟨k, _, rfl⟩
    exact S.hi_le k
  have hsl := jumpgate_slice jg0 max_hi (kmers.map hi_of) hsh hbh S.max_lt
    (by simpa using hlen) h hh
  simp only [List.length_map] at hsl
  obtain ⟨h1, _, h3⟩ := hsl
  constructor
  · intro hlt
    rw [if_neg (by omega)] at h1
    exact h1
  · intro idx k hk
    rcases List.getElem?_eq_some.1 hk with ⟨hi, he⟩
    rw [h3 idx hi]
    simp [he]

/-- The jumpgate invariant for a loaded reference dictionary with fewer than
`2 ^ 32` entries. -/
theorem ref_jumpgate_invariant (jumpgate0 : Nat → Nat) (file : List ref_file_entry)
    (hs : (file.map (fun e => e.kmer)).Pairwise (· ≤ ·))
    (hb : ∀ e ∈ file, e.kmer < 2 ^ 64) (hlen : file.length < 2 ^ 32) :
    ∃ d, load_ref_dict jumpgate0 file = some d ∧ d.ref_dict_size = file.length ∧
      ∀ h, h ≤ 0xFFFFFFFF →
        (h < 0xFFFFFFFF → d.ref_jumpgate h ≤ d.ref_jumpgate (h + 1)) ∧
        ∀ idx e, file[idx]? = some e →
          ((d.ref_jumpgate h ≤ idx ∧
            idx < (if h = 0xFFFFFFFF then d.ref_dict_size else d.ref_jumpgate (h + 1)))
            ↔ HI e.kmer = h) := by
  have hb1 : ∀ k ∈ file.map (fun e => e.kmer), k < 2 ^ 64 := by
    intro k hk
    rcases List.mem_map.1 hk with ⟨e, he, rfl⟩
    exact hb e he
  refine ⟨_, by unfold load_ref_dict; rw [if_neg (by unfold POW_2_32; omega)], rfl, ?_⟩
  intro h hh
  have hinv := jumpgate_invariant keySplit_ref jumpgate0 (file.map (fun e => e.kmer)) hs hb1
    (by simpa using hlen) h hh
  simp only [List.map_map, List.length_map, Function.comp_def] at hinv
  refine ⟨hinv.1, ?_⟩
  intro idx e he
  exact hinv.2 idx e.kmer (by rw [List.getElem?_map, he]; rfl)

/-- The jumpgate invariant for a loaded SNP dictionary with fewer than `2 ^ 32`
entries. -/
theorem snp_jumpgate_invariant (H : LavaH) (jumpgate0 : Nat → Nat) (pileup : PileupState)
    (file : List snp_file_entry)
    (hs : (file.map (fun e => e.kmer)).Pairwise (· ≤ ·))
    (hb : ∀ e ∈ file, e.kmer < 2 ^ 64) (hlen : file.length < 2 ^ 32) :
    ∃ d, load_snp_dict H jumpgate0 pileup file = some d ∧ d.snp_dict_size = file.length ∧
      ∀ h, h ≤ 0xFFFFFF →
        (h < 0xFFFFFF → d.snp_jumpgate h ≤ d.snp_jumpgate (h + 1)) ∧
        ∀ idx e, file[idx]? = some e →
          ((d.snp_jumpgate h ≤ idx ∧
            idx < (if h = 0xFFFFFF then d.snp_dict_size else d.snp_jumpgate (h + 1)))
            ↔ HI24 e.kmer = h) := by
  have hb1 : ∀ k ∈ file.map (fun e => e.kmer), k < 2 ^ 64 := by
    intro k hk
    rcases List.mem_map.1 hk with ⟨e, he, rfl⟩
    exact hb e he
  refine ⟨_, by unfold load_snp_dict; rw [if_neg (by unfold POW_2_32; omega)], rfl, ?_⟩
  intro h hh
  have hinv := jumpgate_invariant keySplit_snp jumpgate0 (file.map (fun e => e.kmer)) hs hb1
    (by simpa using hlen) h hh
  simp only [List.map_map, List.length_map, Function.comp_def] at hinv
  refine ⟨hinv.1, ?_⟩
  intro idx e he
  exact hinv.2 idx e.kmer (by rw [List.getElem?_map, he]; rfl)

/-! ### The index-voting table -/

theorem slot_find_some {slot : IndexTableSlot} {x i : Nat} (h : slot_find slot x = some i) :
    i < slot.count ∧ (slot.entries i).index = x := by
  unfold slot_find at h
  have h1 := List.mem_of_find?_eq_some h
  have h2 := List.find?_some h
  exact ⟨List.mem_range.1 h1, by simpa using h2⟩

theorem slot_find_none {slot : IndexTableSlot} {x : Nat} (h : slot_find slot x = none) :
    ∀ i, i < slot.count → (slot.entries i).index ≠ x := by
  unfold slot_find at h
  rw [List.find?_eq_none] at h
  intro i hi
  simpa using h i (List.mem_range.2 hi)

theorem index_table_add_table (t : IndexTable) (x : Nat) :
    (index_table_add t x).table = add_table t x := by
  unfold index_table_add
  simp only
  split
  · rfl
  · split_ifs <;> rfl

theorem add_effect (t : IndexTable) (xs : List Nat) (x : Nat) (hV : Voter t xs)
    (hx : xs.count x ≤ 254) : AddEffect t xs x := by
  have hs : x % INDEX_TABLE_SLOT_COUNT < INDEX_TABLE_SLOT_COUNT :=
    Nat.mod_lt _ (by unfold INDEX_TABLE_SLOT_COUNT; omega)
  cases hf : slot_find (t.table (x % INDEX_TABLE_SLOT_COUNT)) x with
  | some i =>
    obtain ⟨hi, hix⟩ := slot_find_some hf
    have hlive : t.live (x % INDEX_TABLE_SLOT_COUNT, i) := ⟨hs, hi⟩
    have hxm : x ∈ xs := by
      have := hV.mem _ hlive
      simpa [IndexTable.entry, hix] using this
    have hfr : ((t.table (x % INDEX_TABLE_SLOT_COUNT)).entries i).freq = xs.count x := by
      have := hV.freq_eq _ hlive
      simpa [IndexTable.entry, hix] using this
    have htgt : add_target t x = (x % INDEX_TABLE_SLOT_COUNT, i) := by
      simp [add_target, slot_add, hf]
    have htab : add_table t x = Function.update t.table (x % INDEX_TABLE_SLOT_COUNT)
        { t.table (x % INDEX_TABLE_SLOT_COUNT) with
          entries := Function.update (t.table (x % INDEX_TABLE_SLOT_COUNT)).entries i
            { index := ((t.table (x % INDEX_TABLE_SLOT_COUNT)).entries i).index,
              freq := (((t.table (x % INDEX_TABLE_SLOT_COUNT)).entries i).freq + 1) % 256 } } := by
      simp [add_table, slot_add, hf]
    refine ⟨by rw [htgt], ?_, ?_, ?_, ?_, ?_, ?_, ?_⟩ <;> (try rw [htgt]) <;> (try rw [htab])
    · rintro ⟨e1, e2⟩
      simp only [IndexTable.live]
      by_cases he : e1 = x % INDEX_TABLE_SLOT_COUNT
      · subst he
        simp only [Function.update_same, Prod.mk.injEq, true_and]
        constructor
        · intro h; exact Or.inl h
        · rintro (h | h)
          · exact h
          · exact ⟨hs, by rw [h]; exact hi⟩
      · simp only [Function.update_noteq he, Prod.mk.injEq, he, false_and, or_false]
    · rintro ⟨e1, e2⟩ hne
      simp only [IndexTable.entry]
      by_cases he : e1 = x % INDEX_TABLE_SLOT_COUNT
      · subst he
        have : e2 ≠ i := fun h => hne (by rw [h])
        simp only [Function.update_same, Function.update_noteq this]
      · simp only [Function.update_noteq he]
    · simp only [Function.update_same, hix]
    · simp only [Function.update_same, hfr]
      omega
    · simp only [hxm, iff_true]; exact hlive
    · intro _; simpa [IndexTable.entry] using hix
    · intro s _
      by_cases he : s = x % INDEX_TABLE_SLOT_COUNT
      · subst he; simp [hxm]
      · simp [Function.update_noteq he, he]
  | none =>
    have hno := slot_find_none hf
    have hxm : x ∉ xs := by
      intro hmem
      obtain ⟨e, hl, he⟩ := hV.stored x hmem
      have h1 := hV.slot_of e hl
      rw [he] at h1
      have := hno e.2 (by rw [h1]; exact hl.2)
      apply this
      rw [h1]
      exact he
    have hc0 : xs.count x = 0 := List.count_eq_zero.2 hxm
    have htgt : add_target t x
        = (x % INDEX_TABLE_SLOT_COUNT, (t.table (x % INDEX_TABLE_SLOT_COUNT)).count) := by
      simp [add_target, slot_add, hf]
    have htab : add_table t x = Function.update t.table (x % INDEX_TABLE_SLOT_COUNT)
        { count := (t.table (x % INDEX_TABLE_SLOT_COUNT)).count + 1,
          entries := Function.update (t.table (x % INDEX_TABLE_SLOT_COUNT)).entries
            (t.table (x % INDEX_TABLE_SLOT_COUNT)).count { index := x, freq := 1 } } := by
      simp [add_table, slot_add, hf]
    refine ⟨by rw [htgt], ?_, ?_, ?_, ?_, ?_, ?_, ?_⟩ <;> (try rw [htgt]) <;> (try rw [htab])
    · rintro ⟨e1, e2⟩
      simp only [IndexTable.live]
      by_cases he : e1 = x % INDEX_TABLE_SLOT_COUNT
      · subst he
        simp only [Function.update_same, Prod.mk.injEq, true_and]
        constructor
        · rintro ⟨h1, h2⟩
          by_cases h3 : e2 = (t.table (x % INDEX_TABLE_SLOT_COUNT)).count
          · exact Or.inr h3
          · exact Or.inl ⟨h1, by omega⟩
        · rintro (h | h)
          · exact ⟨h.1, by omega⟩
          · exact ⟨hs, by omega⟩
      · simp only [Function.update_noteq he, Prod.mk.injEq, he, false_and, or_false]
    · rintro ⟨e1, e2⟩ hne
      simp only [IndexTable.entry]
      by_cases he : e1 = x % INDEX_TABLE_SLOT_COUNT
      · subst he
        have : e2 ≠ (t.table (x % INDEX_TABLE_SLOT_COUNT)).count := fun h => hne (by rw [h])
        simp only [Function.update_same, Function.update_noteq this]
      · simp only [Function.update_noteq he]
    · simp only [Function.update_same]
    · simp only [Function.update_same, hc0]
    · simp only [hxm, iff_false, IndexTable.live, lt_self_iff_false, and_false, not_false_eq_true]
    · intro h; exact absurd h.2 (lt_irrefl _)
    · intro s _
      by_cases he : s = x % INDEX_TABLE_SLOT_COUNT
      · subst he; simp [hxm]
      · simp [Function.update_noteq he, he]

theorem index_table_add_best_none (t : IndexTable) (x : Nat) (h : t.best = none) :
    (index_table_add t x).best = some (add_target t x) ∧
    (index_table_add t x).ambiguous = false := by
  simp [index_table_add, h]

theorem index_table_add_best_some (t : IndexTable) (x : Nat) (b : Nat × Nat)
    (h : t.best = some b) :
    (add_target t x = b →
      (index_table_add t x).best = some b ∧ (index_table_add t x).ambiguous = false) ∧
    (add_target t x ≠ b →
      ((add_table t x (add_target t x).1).entries (add_target t x).2).freq
        = ((add_table t x b.1).entries b.2).freq →
      (index_table_add t x).best = some b ∧ (index_table_add t x).ambiguous = true) ∧
    (add_target t x ≠ b →
      ((add_table t x (add_target t x).1).entries (add_target t x).2).freq
        > ((add_table t x b.1).entries b.2).freq →
      (index_table_add t x).best = some (add_target t x) ∧
      (index_table_add t x).ambiguous = false) ∧
    (add_target t x ≠ b →
      ((add_table t x (add_target t x).1).entries (add_target t x).2).freq
        < ((add_table t x b.1).entries b.2).freq →
      (index_table_add t x).best = some b ∧
      (index_table_add t x).ambiguous = t.ambiguous) := by
  refine ⟨?_, ?_, ?_, ?_⟩
  · intro h1
    simp [index_table_add, h, h1]
  · intro h1 h2
    simp [index_table_add, h, h1, h2]
  · intro h1 h2
    have h3 := Nat.ne_of_gt h2
    simp [index_table_add, h, h1, h3, h2]
  · intro h1 h2
    have h3 := Nat.ne_of_lt h2
    have h4 : ¬ ((add_table t x (add_target t x).1).entries (add_target t x).2).freq
        > ((add_table t x b.1).entries b.2).freq := by omega
    simp only [gt_iff_lt] at h4
    simp [index_table_add, h, h1, h3, h4]

theorem filter_slot_card_append (xs : List Nat) (x s : Nat) :
    ((xs ++ [x]).toFinset.filter (fun y => y % INDEX_TABLE_SLOT_COUNT = s)).card
      = (xs.toFinset.filter (fun y => y % INDEX_TABLE_SLOT_COUNT = s)).card
        + (if s = x % INDEX_TABLE_SLOT_COUNT ∧ x ∉ xs then 1 else 0) := by
  have h1 : (xs ++ [x]).toFinset = insert x xs.toFinset := by
    ext y; simp [or_comm]
  rw [h1, Finset.filter_insert]
  by_cases hs : x % INDEX_TABLE_SLOT_COUNT = s
  · rw [if_pos hs]
    by_cases hm : x ∈ xs
    · rw [Finset.insert_eq_of_mem (by simp [hm, hs])]
      simp [hm]
    · rw [Finset.card_insert_of_not_mem (by simp [hm])]
      simp [hm, hs.symm]
  · rw [if_neg hs]
    have : ¬ (s = x % INDEX_TABLE_SLOT_COUNT) := fun h => hs h.symm
    simp [this]

/-- One call of `index_table_add` keeps the voter invariant, as long as the count
of the index does not wrap. -/
theorem voter_step (t : IndexTable) (xs : List Nat) (x : Nat) (hV : Voter t xs)
    (hx : xs.count x ≤ 254) : Voter (index_table_add t x) (xs ++ [x]) := by
  have E := add_effect t xs x hV hx
  have hlive : ∀ e, (index_table_add t x).live e ↔ (t.live e ∨ e = add_target t x) := by
    intro e
    unfold IndexTable.live
    rw [index_table_add_table]
    exact E.live_iff e
  have hother : ∀ e, e ≠ add_target t x → (index_table_add t x).entry e = t.entry e := by
    intro e he
    unfold IndexTable.entry
    rw [index_table_add_table]
    exact E.other e he
  have htidx : ((index_table_add t x).entry (add_target t x)).index = x := by
    unfold IndexTable.entry
    rw [index_table_add_table]
    exact E.tgt_index
  have htfreq : ((index_table_add t x).entry (add_target t x)).freq = xs.count x + 1 := by
    unfold IndexTable.entry
    rw [index_table_add_table]
    exact E.tgt_freq
  have hfresh : ∀ e, t.live e → e ≠ add_target t x → (t.entry e).index ≠ x := by
    intro e hl hne hidx
    have hxm : x ∈ xs := by rw [← hidx]; exact hV.mem e hl
    have htl := E.tgt_live.2 hxm
    exact hne (hV.inj e _ hl htl (by rw [hidx, E.tgt_old htl]))
  have hlive_tgt : (index_table_add t x).live (add_target t x) := (hlive _).2 (Or.inr rfl)
  refine ⟨?_, ?_, ?_, ?_, ?_, ?_, ?_, ?_⟩
  · intro e hl
    by_cases he : e = add_target t x
    · rw [he, htidx, E.tgt_slot]
    · rw [hother e he]
      exact hV.slot_of e (((hlive e).1 hl).resolve_right he)
  · intro e hl
    by_cases he : e = add_target t x
    · rw [he, htfreq, htidx]
      simp
    · rw [hother e he]
      have hl0 := ((hlive e).1 hl).resolve_right he
      rw [hV.freq_eq e hl0, List.count_append]
      have := hfresh e hl0 he
      simp [this]
  · intro e hl
    by_cases he : e = add_target t x
    · rw [he, htidx]; simp
    · rw [hother e he]
      have hl0 := ((hlive e).1 hl).resolve_right he
      exact List.mem_append_left _ (hV.mem e hl0)
  · intro e e1 hl hl1 hidx
    by_cases he : e = add_target t x
    · by_cases he1 : e1 = add_target t x
      · rw [he, he1]
      · exfalso
        rw [he, htidx, hother e1 he1] at hidx
        exact hfresh e1 (((hlive e1).1 hl1).resolve_right he1) he1 hidx.symm
    · by_cases he1 : e1 = add_target t x
      · exfalso
        rw [he1, htidx, hother e he] at hidx
        exact hfresh e (((hlive e).1 hl).resolve_right he) he hidx
      · rw [hother e he, hother e1 he1] at hidx
        exact hV.inj e e1 (((hlive e).1 hl).resolve_right he)
          (((hlive e1).1 hl1).resolve_right he1) hidx
  · intro y hy
    rcases List.mem_append.1 hy with hy | hy
    · obtain ⟨e, hl, hidx⟩ := hV.stored y hy
      refine ⟨e, (hlive e).2 (Or.inl hl), ?_⟩
      by_cases he : e = add_target t x
      · rw [he, htidx]
        rw [he] at hl hidx
        rw [← hidx, E.tgt_old hl]
      · rw [hother e he, hidx]
    · have : y = x := by simpa using hy
      subst this
      exact ⟨_, hlive_tgt, htidx⟩
  · intro s hs
    rw [index_table_add_table, E.count s hs, hV.count_eq s hs, filter_slot_card_append]
  · intro h
    exact absurd h (by simp)
  · intro _
    by_cases hxs : xs = []
    · -- the first vote
      have hb := hV.best_none hxs
      have hnl : ∀ e, ¬ t.live e := by
        intro e hl
        have := hV.mem e hl
        rw [hxs] at this
        exact absurd this (by simp)
      obtain ⟨h1, h2⟩ := index_table_add_best_none t x hb
      refine ⟨_, h1, hlive_tgt, ?_, ?_⟩
      · intro e hl
        rcases (hlive e).1 hl with h | h
        · exact absurd h (hnl e)
        · rw [h]
      · rw [h2]
        constructor
        · intro h; cases h
        · rintro ⟨e, hl, hne, _⟩
          rcases (hlive e).1 hl with h | h
          · exact absurd h (hnl e)
          · exact absurd h hne
    · obtain ⟨b, hb, hbl, hmax, hamb⟩ := hV.best_some hxs
      obtain ⟨c1, c2, c3, c4⟩ := index_table_add_best_some t x b hb
      have hF : ∀ e, ((add_table t x e.1).entries e.2).freq
          = ((index_table_add t x).entry e).freq := by
        intro e; unfold IndexTable.entry; rw [index_table_add_table]
      rw [hF, hF] at c2 c3 c4
      by_cases htb : add_target t x = b
      · obtain ⟨h1, h2⟩ := c1 htb
        have hbfreq : ((index_table_add t x).entry b).freq = (t.entry b).freq + 1 := by
          rw [← htb, htfreq]
          rw [← htb] at hbl
          have := hV.freq_eq _ hbl
          rw [E.tgt_old hbl] at this
          omega
        refine ⟨b, h1, (hlive b).2 (Or.inl hbl), ?_, ?_⟩
        · intro e hl
          by_cases he : e = b
          · rw [he]
          · have he' : e ≠ add_target t x := by rw [htb]; exact he
            rw [hother e he', hbfreq]
            have := hmax e (((hlive e).1 hl).resolve_right he')
            omega
        · rw [h2]
          constructor
          · intro h; cases h
          · rintro ⟨e, hl, hne, hfe⟩
            have he' : e ≠ add_target t x := by rw [htb]; exact hne
            rw [hother e he', hbfreq] at hfe
            have := hmax e (((hlive e).1 hl).resolve_right he')
            omega
      · have hbne : b ≠ add_target t x := fun h => htb h.symm
        have hbF : ((index_table_add t x).entry b).freq = (t.entry b).freq := by
          rw [hother b hbne]
        rcases Nat.lt_trichotomy ((index_table_add t x).entry (add_target t x)).freq
            ((index_table_add t x).entry b).freq with hlt | heq | hgt
        · obtain ⟨h1, h2⟩ := c4 htb hlt
          refine ⟨b, h1, (hlive b).2 (Or.inl hbl), ?_, ?_⟩
          · intro e hl
            by_cases he : e = add_target t x
            · rw [he]; omega
            · rw [hother e he, hbF]
              exact hmax e (((hlive e).1 hl).resolve_right he)
          · rw [h2, hamb]
            constructor
            · rintro ⟨e, hl, hne, hfe⟩
              have he : e ≠ add_target t x := by
                intro he
                rw [he] at hl hfe
                have h5 := hV.freq_eq _ hl
                rw [E.tgt_old hl] at h5
                rw [htfreq, hbF] at hlt
                omega
              exact ⟨e, (hlive e).2 (Or.inl hl), hne, by rw [hother e he, hbF, hfe]⟩
            · rintro ⟨e, hl, hne, hfe⟩
              have he : e ≠ add_target t x := by
                intro he
                rw [he] at hfe
                omega
              refine ⟨e, ((hlive e).1 hl).resolve_right he, hne, ?_⟩
              rw [hother e he, hbF] at hfe
              exact hfe
        · obtain ⟨h1, h2⟩ := c2 htb heq
          refine ⟨b, h1, (hlive b).2 (Or.inl hbl), ?_, ?_⟩
          · intro e hl
            by_cases he : e = add_target t x
            · rw [he, heq]
            · rw [hother e he, hbF]
              exact hmax e (((hlive e).1 hl).resolve_right he)
          · rw [h2]
            simp only [true_iff]
            exact ⟨_, hlive_tgt, htb, heq⟩
        · obtain ⟨h1, h2⟩ := c3 htb hgt
          refine ⟨_, h1, hlive_tgt, ?_, ?_⟩
          · intro e hl
            by_cases he : e = add_target t x
            · rw [he]
            · rw [hother e he]
              have := hmax e (((hlive e).1 hl).resolve_right he)
              rw [hbF] at hgt
              omega
          · rw [h2]
            constructor
            · intro h; cases h
            · rintro ⟨e, hl, hne, hfe⟩
              rw [hother e hne] at hfe
              have := hmax e (((hlive e).1 hl).resolve_right hne)
              rw [hbF] at hgt
              omega

theorem clear_index_fold (l : List Nat) :
    ∀ t : IndexTable,
      (l.foldl index_table_clear_index t).best = t.best ∧
      (l.foldl index_table_clear_index t).ambiguous = t.ambiguous ∧
      ∀ s, ((t.table s).count = 0 ∨ ∃ i ∈ l, i % INDEX_TABLE_SLOT_COUNT = s) →
        ((l.foldl index_table_clear_index t).table s).count = 0 := by
  induction l with
  | nil =>
    intro t
    refine ⟨rfl, rfl, ?_⟩
    intro s h
    rcases h with h | ⟨i, hi, _⟩
    · exact h
    · cases hi
  | cons a l ih =>
    intro t
    obtain ⟨h1, h2, h3⟩ := ih (index_table_clear_index t a)
    simp only [List.foldl_cons]
    refine ⟨by rw [h1]; rfl, by rw [h2]; rfl, ?_⟩
    intro s h
    apply h3
    by_cases hs : a % INDEX_TABLE_SLOT_COUNT = s
    · left
      subst hs
      simp [index_table_clear_index]
    · rcases h with h | ⟨i, hi, his⟩
      · left
        simp only [index_table_clear_index, Function.update_noteq (Ne.symm hs)]
        exact h
      · rcases List.mem_cons.1 hi with h | h
        · subst h; exact absurd his hs
        · right; exact ⟨i, h, his⟩

theorem index_table_clear_spec (t0 : IndexTable) :
    (index_table_clear t0).best = none ∧ (index_table_clear t0).ambiguous = false ∧
    ∀ s, s < INDEX_TABLE_SLOT_COUNT → ((index_table_clear t0).table s).count = 0 := by
  obtain ⟨h1, h2, h3⟩ := clear_index_fold (List.range INDEX_TABLE_SLOT_COUNT)
    { t0 with best := none, ambiguous := false }
  unfold index_table_clear
  refine ⟨by rw [h1], by rw [h2], ?_⟩
  intro s hs
  exact h3 s (Or.inr ⟨s, List.mem_range.2 hs, Nat.mod_eq_of_lt hs⟩)

/-- A cleared voter represents the empty sequence of votes. -/
theorem voter_clear (t0 : IndexTable) : Voter (index_table_clear t0) [] := by
  obtain ⟨h1, _, h3⟩ := index_table_clear_spec t0
  have hnl : ∀ e, ¬ (index_table_clear t0).live e := by
    intro e hl
    have := h3 e.1 hl.1
    have := hl.2
    omega
  refine ⟨?_, ?_, ?_, ?_, ?_, ?_, ?_, ?_⟩
  · intro e hl; exact absurd hl (hnl e)
  · intro e hl; exact absurd hl (hnl e)
  · intro e hl; exact absurd hl (hnl e)
  · intro e _ hl; exact absurd hl (hnl e)
  · intro x hx; cases hx
  · intro s hs; rw [h3 s hs]; simp
  · intro _; exact h1
  · intro h; exact absurd rfl h

theorem voter_add_all (xs : List Nat) :
    ∀ (t : IndexTable) (pre : List Nat), Voter t pre → (∀ x, (pre ++ xs).count x ≤ 255) →
      Voter (add_all t xs) (pre ++ xs) := by
  induction xs with
  | nil => intro t pre hV _; simpa [add_all] using hV
  | cons y ys ih =>
    intro t pre hV hc
    have hy : pre.count y ≤ 254 := by
      have := hc y
      simp only [List.count_append, List.count_cons_self] at this
      omega
    have := ih (index_table_add t y) (pre ++ [y]) (voter_step t pre y hV hy)
      (by simpa using hc)
    simpa [add_all] using this

theorem within_capacity_take (xs : List Nat) (n : Nat) (h : within_capacity xs) :
    within_capacity (xs.take n) := by
  constructor
  · intro s
    refine le_trans (Finset.card_le_card ?_) (h.1 s)
    intro y hy
    simp only [Finset.mem_filter, List.mem_toFinset] at hy ⊢
    exact ⟨List.mem_of_mem_take hy.1, hy.2⟩
  · intro x
    exact le_trans ((List.take_sublist n xs).count_le x) (h.2 x)

theorem within_capacity_of_short (xs : List Nat) (h : xs.length ≤ 255) : within_capacity xs := by
  constructor
  · intro s
    calc (xs.toFinset.filter (fun x => x % INDEX_TABLE_SLOT_COUNT = s)).card
        ≤ xs.toFinset.card := Finset.card_filter_le _ _
      _ ≤ xs.length := List.toFinset_card_le xs
      _ ≤ INDEX_TABLE_ENTRY_DEPTH := by unfold INDEX_TABLE_ENTRY_DEPTH; omega
  · intro x
    exact le_trans (List.count_le_length x xs) h

/-- C2. After each call of a sequence of `index_table_add` calls on a cleared
voter that stays within capacity, every slot holds at most 500 entries, `best`
points to a live entry whose `freq` is the largest of all stored entries, and
`ambiguous` is set exactly when two entries with distinct indices have that
largest `freq`. -/
theorem index_table_add_tracks_maximum (t0 : IndexTable) (xs : List Nat)
    (hcap : within_capacity xs) (n : Nat) (hn : 0 < n) (hlen : n ≤ xs.length) :
    (add_all (index_table_clear t0) (xs.take n)).tracks_maximum := by
  have hc := within_capacity_take xs n hcap
  have hV := voter_add_all (xs.take n) (index_table_clear t0) [] (voter_clear t0)
    (by simpa using hc.2)
  simp only [List.nil_append] at hV
  generalize add_all (index_table_clear t0) (xs.take n) = t at hV ⊢
  have hne : xs.take n ≠ [] := by
    intro h
    have := congrArg List.length h
    rw [List.length_take, List.length_nil] at this
    omega
  refine ⟨?_, ?_⟩
  · intro s hs
    rw [hV.count_eq s hs]
    exact hc.1 s
  · obtain ⟨b, hb, hbl, hmax, hamb⟩ := hV.best_some hne
    refine ⟨b, hb, hbl, hmax, ?_⟩
    rw [hamb]
    constructor
    · rintro ⟨e, hl, hne, hfe⟩
      refine ⟨b, e, hbl, hl, ?_, rfl, hfe⟩
      intro hidx
      exact hne (hV.inj e b hl hbl hidx.symm)
    · rintro ⟨e1, e2, hl1, hl2, hidx, hf1, hf2⟩
      by_cases h1 : e1 = b
      · refine ⟨e2, hl2, ?_, hf2⟩
        intro h2
        apply hidx
        rw [h1, h2]
      · exact ⟨e1, hl1, h1, hf1⟩

theorem index_table_add_tracks_maximum_witness :
    within_capacity [5, 1014, 5] ∧ 0 < 3 ∧ 3 ≤ [5, 1014, 5].length ∧
    (add_all (index_table_clear empty_index_table) ([5, 1014, 5].take 3)).tracks_maximum :=
  ⟨within_capacity_of_short _ (by decide), by decide, by decide,
    index_table_add_tracks_maximum empty_index_table [5, 1014, 5]
      (within_capacity_of_short _ (by decide)) 3 (by decide) (by decide)⟩

/-! ### The pileup update -/

/-- C4. For a pileup entry whose counts are at most `MAX_COV` (with `MAX_COV`
within the range of the 8-bit counters), the update the code applies for one
covered base, which tests `!= MAX_COV`, is the specified update, which tests
`< MAX_COV`; the counts stay at most `MAX_COV` and never decrease, so they
saturate and do not wrap. -/
theorem pileup_cover_saturates (H : LavaH) (p : pileup_entry) (b : Nat)
    (hcov : H.MAX_COV ≤ 255) (href : p.ref_cnt ≤ H.MAX_COV) (halt : p.alt_cnt ≤ H.MAX_COV) :
    pileup_cover H p b = pileup_cover_spec H.MAX_COV p b ∧
    (pileup_cover H p b).ref_cnt ≤ H.MAX_COV ∧ (pileup_cover H p b).alt_cnt ≤ H.MAX_COV ∧
    p.ref_cnt ≤ (pileup_cover H p b).ref_cnt ∧ p.alt_cnt ≤ (pileup_cover H p b).alt_cnt := by
  have hspec : pileup_cover H p b = pileup_cover_spec H.MAX_COV p b := by
    unfold pileup_cover pileup_cover_spec
    by_cases h0 : p.ref = p.alt
    · simp [h0]
    · rw [if_pos h0, if_neg h0]
      by_cases h1 : b = p.ref
      · rw [if_pos h1, if_pos h1]
        by_cases h2 : p.ref_cnt = H.MAX_COV
        · rw [if_neg (by simpa using h2), if_neg (by omega)]
        · rw [if_pos h2, if_pos (by omega), Nat.mod_eq_of_lt (by omega)]
      · rw [if_neg h1, if_neg h1]
        by_cases h3 : b = p.alt
        · rw [if_pos h3, if_pos h3]
          by_cases h2 : p.alt_cnt = H.MAX_COV
          · rw [if_neg (by simpa using h2), if_neg (by omega)]
          · rw [if_pos h2, if_pos (by omega), Nat.mod_eq_of_lt (by omega)]
        · rw [if_neg h3, if_neg h3]
  refine ⟨hspec, ?_⟩
  rw [hspec]
  unfold pileup_cover_spec
  split_ifs <;> simp <;> omega

theorem pileup_cover_saturates_witness :
    example_header.MAX_COV ≤ 255 ∧
    (⟨0, 2, 10, 20, 64, 3⟩ : pileup_entry).ref_cnt ≤ example_header.MAX_COV ∧
    (⟨0, 2, 10, 20, 64, 3⟩ : pileup_entry).alt_cnt ≤ example_header.MAX_COV ∧
    (pileup_cover example_header ⟨0, 2, 10, 20, 64, 3⟩ 0
        = pileup_cover_spec example_header.MAX_COV ⟨0, 2, 10, 20, 64, 3⟩ 0 ∧
      (pileup_cover example_header ⟨0, 2, 10, 20, 64, 3⟩ 0).ref_cnt ≤ example_header.MAX_COV ∧
      (pileup_cover example_header ⟨0, 2, 10, 20, 64, 3⟩ 0).alt_cnt ≤ example_header.MAX_COV ∧
      (⟨0, 2, 10, 20, 64, 3⟩ : pileup_entry).ref_cnt
        ≤ (pileup_cover example_header ⟨0, 2, 10, 20, 64, 3⟩ 0).ref_cnt ∧
      (⟨0, 2, 10, 20, 64, 3⟩ : pileup_entry).alt_cnt
        ≤ (pileup_cover example_header ⟨0, 2, 10, 20, 64, 3⟩ 0).alt_cnt) :=
  ⟨by decide, by decide, by decide,
    pileup_cover_saturates example_header ⟨0, 2, 10, 20, 64, 3⟩ 0 (by decide) (by decide)
      (by decide)⟩

/-! ### The output loop -/

theorem chr_offset_zero (chrlens : List chrlen) : chr_offset chrlens 0 = 0 := by
  simp [chr_offset]

theorem chr_offset_cons_succ (c : chrlen) (rest : List chrlen) (j : Nat) :
    chr_offset (c :: rest) (j + 1) = c.len + chr_offset rest j := by
  simp [chr_offset]

theorem chr_offset_succ (chrlens : List chrlen) :
    ∀ j c, chrlens[j]? = some c → chr_offset chrlens (j + 1) = chr_offset chrlens j + c.len := by
  induction chrlens with
  | nil => intro j c h; simp at h
  | cons a rest ih =>
    intro j c h
    cases j with
    | zero =>
      simp only [List.getElem?_cons_zero, Option.some.injEq] at h
      subst h
      simp [chr_offset]
    | succ j =>
      simp only [List.getElem?_cons_succ] at h
      rw [chr_offset_cons_succ, chr_offset_cons_succ, ih j c h]
      omega

theorem chr_offset_mono (chrlens : List chrlen) :
    ∀ j k, j ≤ k → chr_offset chrlens j ≤ chr_offset chrlens k := by
  induction chrlens with
  | nil => intro j k _; simp [chr_offset]
  | cons a rest ih =>
    intro j k hjk
    cases j with
    | zero => rw [chr_offset_zero]; exact Nat.zero_le _
    | succ j =>
      cases k with
      | zero => omega
      | succ k =>
        rw [chr_offset_cons_succ, chr_offset_cons_succ]
        have := ih j k (by omega)
        omega

/-- The loop of lines 841–843 started at chromosome `j`: it stops at a chromosome
that contains the position. -/
theorem chr_locate_spec (chrlens : List chrlen) :
    ∀ j index, 1 ≤ index → index ≤ chr_offset chrlens chrlens.length →
      ∃ k c, chrlens[k]? = some c ∧ (chr_locate chrlens j index).1 = j + k ∧
        1 ≤ (chr_locate chrlens j index).2 ∧ (chr_locate chrlens j index).2 ≤ c.len ∧
        chr_offset chrlens k + (chr_locate chrlens j index).2 = index := by
  induction chrlens with
  | nil =>
    intro j index h1 h2
    simp [chr_offset] at h2
    omega
  | cons a rest ih =>
    intro j index h1 h2
    simp only [List.length_cons, chr_offset_cons_succ] at h2
    unfold chr_locate
    by_cases hgt : index > a.len
    · rw [if_pos hgt]
      obtain ⟨k, c, hk, e1, e2, e3, e4⟩ := ih (j + 1) (index - a.len) (by omega) (by omega)
      refine ⟨k + 1, c, by simpa using hk, by rw [e1]; omega, e2, e3, ?_⟩
      rw [chr_offset_cons_succ]
      omega
    · rw [if_neg hgt]
      exact ⟨0, a, by simp, rfl, h1, by simpa using hgt, by rw [chr_offset_zero]; simp⟩

/-- C9. For an absolute position `i` between 1 and the sum of all chromosome
lengths, the output loop's position mapping yields a chromosome index `j` below
the number of chromosomes and an offset between 1 and the length of chromosome
`j`, with the lengths of the chromosomes before `j` plus the offset equal to `i`. -/
theorem chr_locate_correct (chrlens : List chrlen) (i : Nat) (h1 : 1 ≤ i)
    (h2 : i ≤ chr_offset chrlens chrlens.length) :
    (chr_locate chrlens 0 i).1 < chrlens.length ∧
    1 ≤ (chr_locate chrlens 0 i).2 ∧
    (∃ c, chrlens[(chr_locate chrlens 0 i).1]? = some c ∧ (chr_locate chrlens 0 i).2 ≤ c.len) ∧
    chr_offset chrlens (chr_locate chrlens 0 i).1 + (chr_locate chrlens 0 i).2 = i := by
  obtain ⟨k, c, hk, e1, e2, e3, e4⟩ := chr_locate_spec chrlens 0 i h1 h2
  rw [Nat.zero_add] at e1
  rw [e1]
  refine ⟨?_, e2, ⟨c, hk, e3⟩, e4⟩
  exact (List.getElem?_eq_some.1 hk).1

theorem chr_locate_correct_witness :
    1 ≤ 150 ∧
    150 ≤ chr_offset [⟨"chr1", 100⟩, ⟨"chr2", 100⟩] ([⟨"chr1", 100⟩, ⟨"chr2", 100⟩] : List chrlen).length ∧
    chr_locate [⟨"chr1", 100⟩, ⟨"chr2", 100⟩] 0 150 = (1, 50) ∧
    ((chr_locate [⟨"chr1", 100⟩, ⟨"chr2", 100⟩] 0 150).1
        < ([⟨"chr1", 100⟩, ⟨"chr2", 100⟩] : List chrlen).length ∧
      1 ≤ (chr_locate [⟨"chr1", 100⟩, ⟨"chr2", 100⟩] 0 150).2 ∧
      (∃ c, ([⟨"chr1", 100⟩, ⟨"chr2", 100⟩] : List chrlen)[
            (chr_locate [⟨"chr1", 100⟩, ⟨"chr2", 100⟩] 0 150).1]? = some c ∧
          (chr_locate [⟨"chr1", 100⟩, ⟨"chr2", 100⟩] 0 150).2 ≤ c.len) ∧
      chr_offset [⟨"chr1", 100⟩, ⟨"chr2", 100⟩]
          (chr_locate [⟨"chr1", 100⟩, ⟨"chr2", 100⟩] 0 150).1
        + (chr_locate [⟨"chr1", 100⟩, ⟨"chr2", 100⟩] 0 150).2 = 150) :=
  ⟨by decide, by decide, by decide,
    chr_locate_correct [⟨"chr1", 100⟩, ⟨"chr2", 100⟩] 150 (by decide) (by decide)⟩

theorem output_lines_pos {F D : Type} [LinearOrder F] (H : LavaH) (A : CallerArith F D)
    (chrlens : List chrlen) (pileup_table : Nat → pileup_entry) (positions : List Nat) :
    ((output_lines H A chrlens pileup_table positions).map (fun l => l.pos)).Sublist positions ∧
    ∀ l ∈ output_lines H A chrlens pileup_table positions,
      (l.chr, l.index) = chr_locate chrlens 0 l.pos := by
  induction positions with
  | nil => simp [output_lines]
  | cons i rest ih =>
    unfold output_lines
    simp only
    split_ifs with h0
    · exact ⟨ih.1.cons _, ih.2⟩
    · split
      · exact ⟨ih.1.cons _, ih.2⟩
      · exact ⟨ih.1.cons _, ih.2⟩
      · refine ⟨by simpa using ih.1.cons₂ i, ?_⟩
        intro l hl
        rcases List.mem_cons.1 hl with h | h
        · subst h; rfl
        · exact ih.2 l h
      · refine ⟨by simpa using ih.1.cons₂ i, ?_⟩
        intro l hl
        rcases List.mem_cons.1 hl with h | h
        · subst h; rfl
        · exact ih.2 l h

/-- C10. The result lines come in strictly increasing pileup position, each with
the chromosome and offset that the position mapping computes; and for positions
`i < i1` between 1 and the sum of the chromosome lengths the pair (chromosome
index, offset) of `i` is smaller than that of `i1` in the lexicographic order. -/
theorem output_order {F D : Type} [LinearOrder F] (H : LavaH) (A : CallerArith F D)
    (chrlens : List chrlen) (pileup_table : Nat → pileup_entry) (pileup_size : Nat) :
    ((genotype_output H A chrlens pileup_table pileup_size).map (fun l => l.pos)).Pairwise
      (· < ·) ∧
    (∀ l ∈ genotype_output H A chrlens pileup_table pileup_size,
      (l.chr, l.index) = chr_locate chrlens 0 l.pos) ∧
    ∀ i i1, 1 ≤ i → i < i1 → i1 ≤ chr_offset chrlens chrlens.length →
      (chr_locate chrlens 0 i).1 < (chr_locate chrlens 0 i1).1 ∨
      ((chr_locate chrlens 0 i).1 = (chr_locate chrlens 0 i1).1 ∧
        (chr_locate chrlens 0 i).2 < (chr_locate chrlens 0 i1).2) := by
  obtain ⟨hsub, hloc⟩ := output_lines_pos H A chrlens pileup_table (List.range pileup_size)
  refine ⟨(List.pairwise_lt_range pileup_size).sublist hsub, hloc, ?_⟩
  intro i i1 h1 hlt h2
  obtain ⟨k, c, hc, ek, a2, a3, a4⟩ := chr_locate_spec chrlens 0 i h1 (by omega)
  obtain ⟨k1, c1, hc1, ek1, b2, b3, b4⟩ := chr_locate_spec chrlens 0 i1 (by omega) h2
  rw [Nat.zero_add] at ek ek1
  rw [← ek] at hc a4
  rw [← ek1] at hc1 b4
  rcases Nat.lt_trichotomy (chr_locate chrlens 0 i).1 (chr_locate chrlens 0 i1).1 with h | h | h
  · exact Or.inl h
  · right
    refine ⟨h, ?_⟩
    rw [h] at a4
    omega
  · exfalso
    have hm := chr_offset_mono chrlens ((chr_locate chrlens 0 i1).1 + 1) (chr_locate chrlens 0 i).1
      (by omega)
    rw [chr_offset_succ chrlens _ c1 hc1] at hm
    omega

theorem output_order_witness :
    1 ≤ 100 ∧ 100 < 101 ∧
    101 ≤ chr_offset [⟨"chr1", 100⟩, ⟨"chr2", 100⟩]
      ([⟨"chr1", 100⟩, ⟨"chr2", 100⟩] : List chrlen).length ∧
    ((chr_locate [⟨"chr1", 100⟩, ⟨"chr2", 100⟩] 0 100).1
        < (chr_locate [⟨"chr1", 100⟩, ⟨"chr2", 100⟩] 0 101).1 ∨
      ((chr_locate [⟨"chr1", 100⟩, ⟨"chr2", 100⟩] 0 100).1
          = (chr_locate [⟨"chr1", 100⟩, ⟨"chr2", 100⟩] 0 101).1 ∧
        (chr_locate [⟨"chr1", 100⟩, ⟨"chr2", 100⟩] 0 100).2
          < (chr_locate [⟨"chr1", 100⟩, ⟨"chr2", 100⟩] 0 101).2)) :=
  ⟨by decide, by decide, by decide,
    (output_order example_header (exact_arith (1 / 50)) [⟨"chr1", 100⟩, ⟨"chr2", 100⟩]
      (fun _ => pileup_zero) 0).2.2 100 101 (by decide) (by decide) (by decide)⟩

/-! ### The genotype caller -/

/-- C7. The caller returns `GTYPE_NONE`, with confidence 0, exactly for the count
pairs `(0, 0)` and `(MAX_COV, MAX_COV)`; for every other pair it returns one of
`GTYPE_REF`, `GTYPE_HET`, `GTYPE_ALT`. -/
theorem choose_best_genotype_none_iff {F D : Type} [LinearOrder F] (H : LavaH)
    (A : CallerArith F D) (ref_cnt alt_cnt ref_freq_enc alt_freq_enc : Nat) :
    ((choose_best_genotype H A ref_cnt alt_cnt ref_freq_enc alt_freq_enc).genotype
        = Genotype.GTYPE_NONE ↔
      (ref_cnt = 0 ∧ alt_cnt = 0) ∨ (ref_cnt = H.MAX_COV ∧ alt_cnt = H.MAX_COV)) ∧
    ((ref_cnt = 0 ∧ alt_cnt = 0) ∨ (ref_cnt = H.MAX_COV ∧ alt_cnt = H.MAX_COV) →
      (choose_best_genotype H A ref_cnt alt_cnt ref_freq_enc alt_freq_enc).confidence
        = A.zero) ∧
    (¬ ((ref_cnt = 0 ∧ alt_cnt = 0) ∨ (ref_cnt = H.MAX_COV ∧ alt_cnt = H.MAX_COV)) →
      (choose_best_genotype H A ref_cnt alt_cnt ref_freq_enc alt_freq_enc).genotype
          = Genotype.GTYPE_REF ∨
      (choose_best_genotype H A ref_cnt alt_cnt ref_freq_enc alt_freq_enc).genotype
          = Genotype.GTYPE_HET ∨
      (choose_best_genotype H A ref_cnt alt_cnt ref_freq_enc alt_freq_enc).genotype
          = Genotype.GTYPE_ALT) := by
  by_cases hs : (ref_cnt = 0 ∧ alt_cnt = 0) ∨ (ref_cnt = H.MAX_COV ∧ alt_cnt = H.MAX_COV)
  · unfold choose_best_genotype
    rw [if_pos hs]
    exact ⟨⟨fun _ => hs, fun _ => rfl⟩, fun _ => rfl, fun h => absurd hs h⟩
  · unfold choose_best_genotype
    rw [if_neg hs]
    simp only
    split_ifs
    · exact ⟨⟨fun h => (by cases h), fun h => absurd h hs⟩, fun h => absurd h hs,
        fun _ => Or.inl rfl⟩
    · exact ⟨⟨fun h => (by cases h), fun h => absurd h hs⟩, fun h => absurd h hs,
        fun _ => Or.inr (Or.inl rfl)⟩
    · exact ⟨⟨fun h => (by cases h), fun h => absurd h hs⟩, fun h => absurd h hs,
        fun _ => Or.inr (Or.inr rfl)⟩

/-- The branch that `choose_best_genotype` takes outside the short circuit, in
terms of the joint values. -/
theorem choose_best_genotype_branch {F D : Type} [LinearOrder F] (H : LavaH)
    (A : CallerArith F D) (ref_cnt alt_cnt ref_freq_enc alt_freq_enc : Nat)
    (hs : ¬ short_circuited H ref_cnt alt_cnt) :
    (choose_best_genotype H A ref_cnt alt_cnt ref_freq_enc alt_freq_enc).genotype
      = if (joint_values A ref_cnt alt_cnt ref_freq_enc alt_freq_enc).1
            > (joint_values A ref_cnt alt_cnt ref_freq_enc alt_freq_enc).2.1 ∧
          (joint_values A ref_cnt alt_cnt ref_freq_enc alt_freq_enc).1
            > (joint_values A ref_cnt alt_cnt ref_freq_enc alt_freq_enc).2.2
        then Genotype.GTYPE_REF
        else if (joint_values A ref_cnt alt_cnt ref_freq_enc alt_freq_enc).2.1
            > (joint_values A ref_cnt alt_cnt ref_freq_enc alt_freq_enc).1 ∧
          (joint_values A ref_cnt alt_cnt ref_freq_enc alt_freq_enc).2.1
            > (joint_values A ref_cnt alt_cnt ref_freq_enc alt_freq_enc).2.2
        then Genotype.GTYPE_HET
        else Genotype.GTYPE_ALT := by
  unfold short_circuited at hs
  unfold choose_best_genotype
  rw [if_neg hs]
  simp only
  split_ifs <;> rfl

/-- The strict tests of lines 984–990 and the largest joint value, for every
arithmetic whose values are linearly ordered: outside the short circuit the
emitted genotype is an argmax of the three joint values unless `p_g0` and `p_g1`
are equal and larger than `p_g2`; in that case `GTYPE_ALT` is emitted.  Whether
the floating-point values of the code ever meet in such a tie is a matter of
their rounding, on which this development is silent. -/
theorem choose_best_genotype_argmax_unless_tie {F D : Type} [LinearOrder F] (H : LavaH)
    (A : CallerArith F D) (ref_cnt alt_cnt ref_freq_enc alt_freq_enc : Nat)
    (hs : ¬ short_circuited H ref_cnt alt_cnt) :
    (¬ ((joint_values A ref_cnt alt_cnt ref_freq_enc alt_freq_enc).1
          = (joint_values A ref_cnt alt_cnt ref_freq_enc alt_freq_enc).2.1 ∧
        (joint_values A ref_cnt alt_cnt ref_freq_enc alt_freq_enc).2.2
          < (joint_values A ref_cnt alt_cnt ref_freq_enc alt_freq_enc).1) →
      is_argmax (joint_values A ref_cnt alt_cnt ref_freq_enc alt_freq_enc)
        (choose_best_genotype H A ref_cnt alt_cnt ref_freq_enc alt_freq_enc).genotype) ∧
    ((joint_values A ref_cnt alt_cnt ref_freq_enc alt_freq_enc).1
          = (joint_values A ref_cnt alt_cnt ref_freq_enc alt_freq_enc).2.1 ∧
        (joint_values A ref_cnt alt_cnt ref_freq_enc alt_freq_enc).2.2
          < (joint_values A ref_cnt alt_cnt ref_freq_enc alt_freq_enc).1 →
      (choose_best_genotype H A ref_cnt alt_cnt ref_freq_enc alt_freq_enc).genotype
        = Genotype.GTYPE_ALT) := by
  rw [choose_best_genotype_branch H A ref_cnt alt_cnt ref_freq_enc alt_freq_enc hs]
  generalize joint_values A ref_cnt alt_cnt ref_freq_enc alt_freq_enc = P
  obtain ⟨p0, p1, p2⟩ := P
  simp only [gt_iff_lt]
  constructor
  · intro htie
    by_cases c1 : p1 < p0 ∧ p2 < p0
    · rw [if_pos c1]
      exact ⟨p0, rfl, le_refl _, le_of_lt c1.1, le_of_lt c1.2⟩
    · rw [if_neg c1]
      by_cases c2 : p0 < p1 ∧ p2 < p1
      · rw [if_pos c2]
        exact ⟨p1, rfl, le_of_lt c2.1, le_refl _, le_of_lt c2.2⟩
      · rw [if_neg c2]
        refine ⟨p2, rfl, ?_, ?_, le_refl _⟩
        · by_contra h0
          have h0' : p2 < p0 := lt_of_not_le h0
          have h1 : p0 ≤ p1 := by
            by_contra h
            exact c1 ⟨lt_of_not_le h, h0'⟩
          rcases lt_or_eq_of_le h1 with h | h
          · exact c2 ⟨h, lt_trans h0' h⟩
          · exact htie ⟨h, h0'⟩
        · by_contra h0
          have h0' : p2 < p1 := lt_of_not_le h0
          have h1 : p1 ≤ p0 := by
            by_contra h
            exact c2 ⟨lt_of_not_le h, h0'⟩
          rcases lt_or_eq_of_le h1 with h | h
          · exact c1 ⟨h, lt_trans h0' h⟩
          · exact htie ⟨h.symm, by rw [← h]; exact h0'⟩
  · rintro ⟨he, hlt⟩
    rw [if_neg (by rintro ⟨h, _⟩; rw [he] at h; exact lt_irrefl _ h),
      if_neg (by rintro ⟨h, _⟩; rw [he] at h; exact lt_irrefl _ h)]

theorem choose_best_genotype_argmax_unless_tie_witness :
    ¬ short_circuited example_header 3 1 ∧
    ((¬ ((joint_values (exact_arith (1 / 50)) 3 1 250 5).1
          = (joint_values (exact_arith (1 / 50)) 3 1 250 5).2.1 ∧
        (joint_values (exact_arith (1 / 50)) 3 1 250 5).2.2
          < (joint_values (exact_arith (1 / 50)) 3 1 250 5).1) →
      is_argmax (joint_values (exact_arith (1 / 50)) 3 1 250 5)
        (choose_best_genotype example_header (exact_arith (1 / 50)) 3 1 250 5).genotype) ∧
    ((joint_values (exact_arith (1 / 50)) 3 1 250 5).1
          = (joint_values (exact_arith (1 / 50)) 3 1 250 5).2.1 ∧
        (joint_values (exact_arith (1 / 50)) 3 1 250 5).2.2
          < (joint_values (exact_arith (1 / 50)) 3 1 250 5).1 →
      (choose_best_genotype example_header (exact_arith (1 / 50)) 3 1 250 5).genotype
        = Genotype.GTYPE_ALT)) :=
  ⟨by unfold short_circuited; decide,
    choose_best_genotype_argmax_unless_tie example_header (exact_arith (1 / 50)) 3 1 250 5
      (by unfold short_circuited; decide)⟩

/-! ### The pileup table after loading -/

/-- C5, failing input. The reference dictionary has its largest position at 7, so
the pileup table is allocated with 40 zeroed entries; the SNP entry of
`growth_snp_file` lies at position 40 and makes the table grow.  After loading,
`pileup_size` holds the byte size 41 * 6 while the block holds 41 entries, the
counts of entry 40 are whatever the memory `heap` held there (nothing zeroes
them), and entry 100, which is below `pileup_size` and behind the end of the
block, is memory that was never part of the table. -/
theorem snp_pileup_growth_not_zeroed (jumpgate0 : Nat → Nat) (heap : Nat → pileup_entry) :
    (load_ref_dict jumpgate0 [{ kmer := 0, pos := 7, ambig_flag := 0 }]).map
        (fun d => d.max_pos) = some 7 ∧
    (load_snp_dict example_header jumpgate0 (pileup_init heap 7) growth_snp_file).map
        (fun d => (d.pileup.pileup_size, d.pileup.allocated, d.pileup.pileup_table 40))
      = some (41 * 6, 41,
          { ref := 1, alt := 0, ref_freq := 200, alt_freq := 55,
            ref_cnt := (heap 40).ref_cnt, alt_cnt := (heap 40).alt_cnt }) ∧
    (load_snp_dict example_header jumpgate0 (pileup_init heap 7) growth_snp_file).map
        (fun d => d.pileup.pileup_table 39) = some pileup_zero ∧
    (load_snp_dict example_header jumpgate0 (pileup_init heap 7) growth_snp_file).map
        (fun d => d.pileup.pileup_table 100) = some (heap 100) := by
  refine ⟨rfl, rfl, rfl, rfl⟩

theorem snp_pileup_step_fit (H : LavaH) (st : PileupState) (e : snp_file_entry)
    (hfit : snp_qualifies H e → snp_pos_of H e < st.pileup_size) :
    (snp_pileup_step H st e).pileup_size = st.pileup_size ∧
    (snp_pileup_step H st e).allocated = st.allocated ∧
    ∀ s, (snp_pileup_step H st e).pileup_table s
      = if snp_qualifies H e ∧ snp_pos_of H e = s then snp_write H e (st.pileup_table s)
        else st.pileup_table s := by
  unfold snp_pileup_step
  dsimp only
  by_cases hq : snp_qualifies H e
  · have hq' := hq
    unfold snp_qualifies at hq'
    have hlt := hfit hq
    unfold snp_pos_of at hlt
    rw [if_pos hq', if_neg (by omega)]
    refine ⟨rfl, rfl, ?_⟩
    intro s
    by_cases hs : snp_pos_of H e = s
    · rw [if_pos ⟨hq, hs⟩]
      unfold snp_pos_of at hs
      dsimp only
      rw [← hs, Function.update_same]
      rfl
    · rw [if_neg (fun h => hs h.2)]
      unfold snp_pos_of at hs
      dsimp only
      rw [Function.update_noteq (Ne.symm hs)]
  · have hq' := hq
    unfold snp_qualifies at hq'
    rw [if_neg hq']
    refine ⟨rfl, rfl, ?_⟩
    intro s
    rw [if_neg (fun h => hq h.1)]

theorem snp_write_write (H : LavaH) (e e1 : snp_file_entry) (p : pileup_entry) :
    snp_write H e1 (snp_write H e p) = snp_write H e1 p := rfl

/-- Loading a SNP dictionary whose SNP positions all fit the pileup table as
allocated: the table keeps its size, and every entry holds the fields of the
last qualifying file entry for its position on top of its previous content. -/
theorem snp_pileup_fold_fit (H : LavaH) (file : List snp_file_entry) :
    ∀ st : PileupState,
      (∀ e ∈ file, snp_qualifies H e → snp_pos_of H e < st.pileup_size) →
      (file.foldl (snp_pileup_step H) st).pileup_size = st.pileup_size ∧
      (file.foldl (snp_pileup_step H) st).allocated = st.allocated ∧
      ∀ s, (file.foldl (snp_pileup_step H) st).pileup_table s
        = snp_expected H file s (st.pileup_table s) := by
  induction file with
  | nil =>
    intro st _
    exact ⟨rfl, rfl, fun s => rfl⟩
  | cons e rest ih =>
    intro st hfit
    obtain ⟨h1, h2, h3⟩ := snp_pileup_step_fit H st e (hfit e (by simp))
    obtain ⟨g1, g2, g3⟩ := ih (snp_pileup_step H st e) (by
      intro e1 he1 hq
      rw [h1]
      exact hfit e1 (by simp [he1]) hq)
    simp only [List.foldl_cons]
    refine ⟨by rw [g1, h1], by rw [g2, h2], ?_⟩
    intro s
    rw [g3 s, h3 s]
    unfold snp_expected
    rw [List.reverse_cons, List.find?_append]
    cases hf : rest.reverse.find? (fun e => decide (snp_qualifies H e ∧ snp_pos_of H e = s)) with
    | some e1 =>
      simp only [Option.or]
      split_ifs
      · rw [snp_write_write]
      · rfl
    | none =>
      simp only [Option.or, List.find?_cons, List.find?_nil]
      by_cases hc : snp_qualifies H e ∧ snp_pos_of H e = s
      · simp [hc]
      · simp [hc]

/-- The pileup table after a SNP dictionary is loaded that does not make the
table grow: a position with a qualifying entry holds the reference base, the
base of the k-mer at the SNP offset and the two frequencies of the last such
entry, with both counts 0; every other position is all zero. -/
theorem snp_pileup_without_growth (H : LavaH) (jumpgate0 : Nat → Nat)
    (heap : Nat → pileup_entry) (max_pos : Nat) (file : List snp_file_entry)
    (hlen : file.length ≤ 2 ^ 32)
    (hfit : ∀ e ∈ file, snp_qualifies H e → snp_pos_of H e < max_pos + 32 + 1) :
    ∃ d, load_snp_dict H jumpgate0 (pileup_init heap max_pos) file = some d ∧
      d.pileup.pileup_size = max_pos + 32 + 1 ∧
      ∀ s, s < max_pos + 32 + 1 →
        d.pileup.pileup_table s = snp_expected H file s pileup_zero := by
  refine ⟨_, by unfold load_snp_dict; rw [if_neg (by unfold POW_2_32; omega)], ?_⟩
  obtain ⟨h1, _, h3⟩ := snp_pileup_fold_fit H file (pileup_init heap max_pos) hfit
  refine ⟨h1, ?_⟩
  intro s hs
  dsimp only
  rw [h3 s]
  simp only [pileup_init, if_pos hs]

/-! ### The read scanner -/

theorem walk_contexts_not_processed (H : LavaH) (target_index : Nat)
    (contexts : List kmer_context) :
    ∀ (index_table : IndexTable) (pileup_table : Nat → pileup_entry),
      (walk_contexts H false target_index contexts index_table pileup_table).2 = pileup_table := by
  induction contexts with
  | nil => intro it pt; rfl
  | cons c rest ih =>
    intro it pt
    unfold walk_contexts
    simp only [List.foldl_cons, Bool.false_eq_true, false_and, if_false]
    exact ih (index_table_clear_index it c.position) pt

/-- The code from `head` on, entered for the reverse-complement pass: it makes
exactly one pass and leaves the pileup table alone unless that pass is
processed. -/
theorem scan_from_head_reverse (H : LavaH) (D : Dicts) (len fuel : Nat) (read : List Char)
    (index_table : IndexTable) (pileup_table : Nat → pileup_entry) (passes : List PassRecord)
    (r : ReadResult)
    (h : scan_from_head H D len (fuel + 1) true read index_table pileup_table passes = .ok r) :
    ∃ p1, r.passes = passes ++ [p1] ∧ p1.revcompl = true ∧
      (p1.processed = false → r.pileup_table = pileup_table) := by
  unfold scan_from_head at h
  simp only [if_true] at h
  cases hrc : reverse_complement read len with
  | none =>
    rw [hrc] at h
    simp only [Except.ok.injEq] at h
    subst h
    exact ⟨_, rfl, rfl, fun _ => rfl⟩
  | some read1 =>
    rw [hrc] at h
    simp only at h
    cases hen : encode_read read1 len with
    | none =>
      rw [hen] at h
      simp only [Except.ok.injEq] at h
      subst h
      exact ⟨_, rfl, rfl, fun _ => rfl⟩
    | some kmers =>
      rw [hen] at h
      simp only at h
      cases hp : probe_kmers H D pileup_table 0 kmers
          { index_table := index_table, ref_hit_contexts := [], snp_hit_contexts := [] } with
      | error e => rw [hp] at h; cases h
      | ok st =>
        rw [hp] at h
        simp only [Bool.true_eq_false, and_false, if_false, Except.ok.injEq] at h
        subst h
        refine ⟨_, rfl, rfl, ?_⟩
        intro hpr
        simp only at hpr
        simp only [nohit, hpr, walk_contexts_not_processed]

/-- The passes of one read and their effect on the pileup table, by the outcome
of the forward pass. -/
theorem scan_read_cases (H : LavaH) (D : Dicts) (read : List Char) (index_table : IndexTable)
    (pileup_table : Nat → pileup_entry) (r : ReadResult)
    (h : scan_read H D read index_table pileup_table = .ok r) :
    (forward_probe H D read index_table pileup_table = none ∧
      r.passes = [{ revcompl := false, probed := false, processed := false }] ∧
      r.pileup_table = pileup_table) ∨
    (∃ st, forward_probe H D read index_table pileup_table = some st ∧
      process_read_of st.index_table = true ∧
      r.passes = [{ revcompl := false, probed := true, processed := true }] ∧
      r.pileup_table = pileup_after_walks H st pileup_table) ∨
    (∃ st p1, forward_probe H D read index_table pileup_table = some st ∧
      process_read_of st.index_table = false ∧
      r.passes = [{ revcompl := false, probed := true, processed := false }, p1] ∧
      p1.revcompl = true ∧
      (p1.processed = false → r.pileup_table = pileup_table)) := by
  unfold scan_read at h
  unfold scan_from_head at h
  simp only [Bool.false_eq_true, if_false] at h
  unfold forward_probe
  cases hen : encode_read read (read.length / 32 * 32) with
  | none =>
    rw [hen] at h
    simp only [Except.ok.injEq] at h
    subst h
    exact Or.inl ⟨rfl, rfl, rfl⟩
  | some kmers =>
    rw [hen] at h
    simp only at h ⊢
    cases hp : probe_kmers H D pileup_table 0 kmers
        { index_table := index_table, ref_hit_contexts := [], snp_hit_contexts := [] } with
    | error e => rw [hp] at h; cases h
    | ok st =>
      rw [hp] at h
      simp only [and_true, List.nil_append] at h ⊢
      cases hpr : process_read_of st.index_table with
      | true =>
        rw [hpr] at h
        simp only [Bool.true_eq_false, if_false, Except.ok.injEq] at h
        subst h
        right; left
        refine ⟨st, rfl, hpr, rfl, ?_⟩
        simp only [nohit, pileup_after_walks, hpr]
      | false =>
        rw [hpr] at h
        simp only [if_true] at h
        obtain ⟨p1, hp1, hrev, hpile⟩ := scan_from_head_reverse H D _ 0 _ _ _ _ r h
        right; right
        refine ⟨st, p1, rfl, hpr, by simpa using hp1, hrev, ?_⟩
        intro hproc
        rw [hpile hproc]
        simp only [walk_contexts_not_processed]

/-- C6, as amended. For a read whose hits stay within the capacity of the hit
context arrays and of the voter slots and that the scanner handles to its end:
the pileup is updated from the forward pass exactly when the forward pass probed
its k-mers and left the voter with a best entry of `freq > 1` and `ambiguous`
unset; the reverse-complement pass is run exactly when the forward pass probed
its k-mers and was not processed, and at most once; and when no pass is processed
the pileup table is unchanged. -/
theorem scan_read_retry_rule (H : LavaH) (D : Dicts) (read : List Char)
    (index_table : IndexTable) (pileup_table : Nat → pileup_entry) (r : ReadResult)
    (_hcap : scan_within_capacity H D read index_table pileup_table)
    (h : scan_read H D read index_table pileup_table = .ok r) :
    retry_rule H D read index_table pileup_table r := by
  unfold retry_rule
  rcases scan_read_cases H D read index_table pileup_table r h with
    ⟨hf, hp, hpt⟩ | ⟨st, hf, hpr, hp, hpt⟩ | ⟨st, p1, hf, hpr, hp, hrev, hpt⟩
  · rw [hf, hp]
    refine ⟨?_, ?_, ?_, ?_, ?_⟩
    · constructor
      · intro hm; simp at hm
      · rintro ⟨st, hst, _⟩; cases hst
    · intro st hst; cases hst
    · constructor
      · rintro ⟨p, hm, hrv⟩
        simp only [List.mem_singleton] at hm
        subst hm
        cases hrv
      · rintro ⟨st, hst, _⟩; cases hst
    · simp
    · intro _; exact hpt
  · rw [hf, hp]
    refine ⟨?_, ?_, ?_, ?_, ?_⟩
    · constructor
      · intro _; exact ⟨st, rfl, hpr⟩
      · intro _; simp
    · intro st1 hst _
      simp only [Option.some.injEq] at hst
      subst hst
      exact hpt
    · constructor
      · rintro ⟨p, hm, hrv⟩
        simp only [List.mem_singleton] at hm
        subst hm
        cases hrv
      · rintro ⟨st1, hst, hpr1⟩
        simp only [Option.some.injEq] at hst
        subst hst
        rw [hpr] at hpr1
        cases hpr1
    · simp
    · intro hall
      have := hall _ (List.mem_singleton.2 rfl)
      cases this
  · rw [hf, hp]
    refine ⟨?_, ?_, ?_, ?_, ?_⟩
    · constructor
      · intro hm
        rcases List.mem_cons.1 hm with hm | hm
        · cases hm
        · rw [List.mem_singleton] at hm
          rw [← hm] at hrev
          cases hrev
      · rintro ⟨st1, hst, hpr1⟩
        simp only [Option.some.injEq] at hst
        subst hst
        rw [hpr] at hpr1
        cases hpr1
    · intro st1 hst hpr1
      simp only [Option.some.injEq] at hst
      subst hst
      rw [hpr] at hpr1
      cases hpr1
    · constructor
      · intro _; exact ⟨st, rfl, hpr⟩
      · intro _; exact ⟨p1, by simp, hrev⟩
    · simp [List.filter, hrev]
    · intro hall
      exact hpt (hall p1 (by simp))

theorem direct_ref_hit_error (H : LavaH) (D : Dicts) (kmer offset : Nat) (st : ProbeState)
    (e : ScanError) (h : direct_ref_hit H D kmer offset st = .error e) :
    e = ScanError.assertion := by
  unfold direct_ref_hit at h
  split at h
  · cases h
  · split_ifs at h
    all_goals cases h
    rfl

theorem direct_snp_hit_error (H : LavaH) (D : Dicts) (kmer offset : Nat) (st : ProbeState)
    (e : ScanError) (h : direct_snp_hit H D kmer offset st = .error e) :
    e = ScanError.assertion := by
  unfold direct_snp_hit at h
  split at h
  · cases h
  · split_ifs at h
    all_goals cases h
    rfl

theorem probe_kmer_error (H : LavaH) (D : Dicts) (pileup_table : Nat → pileup_entry)
    (i kmer : Nat) (st : ProbeState) (e : ScanError)
    (h : probe_kmer H D pileup_table i kmer st = .error e) : e = ScanError.assertion := by
  unfold probe_kmer at h
  simp only at h
  split at h
  · next e1 h1 =>
    simp only [Except.error.injEq] at h
    subst h
    exact direct_ref_hit_error H D _ _ _ _ h1
  · split at h
    · next e2 h2 =>
      simp only [Except.error.injEq] at h
      subst h
      exact direct_snp_hit_error H D _ _ _ _ h2
    · cases h

theorem probe_kmers_error (H : LavaH) (D : Dicts) (pileup_table : Nat → pileup_entry)
    (kmers : List Nat) :
    ∀ (i : Nat) (st : ProbeState) (e : ScanError),
      probe_kmers H D pileup_table i kmers st = .error e → e = ScanError.assertion := by
  induction kmers with
  | nil => intro i st e h; cases h
  | cons k rest ih =>
    intro i st e h
    unfold probe_kmers at h
    split at h
    · next e1 h1 =>
      simp only [Except.error.injEq] at h
      subst h
      exact probe_kmer_error H D _ _ _ _ _ h1
    · exact ih _ _ _ h

/-- The `goto head` loop never runs out of the two units of fuel: a read is
either handled to its end or stopped by the assertion. -/
theorem scan_read_fuel_suffices (H : LavaH) (D : Dicts) (read : List Char)
    (index_table : IndexTable) (pileup_table : Nat → pileup_entry) :
    scan_read H D read index_table pileup_table ≠ .error .fuel := by
  intro h
  unfold scan_read at h
  unfold scan_from_head at h
  simp only [Bool.false_eq_true, if_false] at h
  split at h
  · cases h
  · split at h
    · next e he =>
      simp only [Except.error.injEq] at h
      subst h
      have := probe_kmers_error H D _ _ _ _ _ he
      cases this
    · split_ifs at h
      · unfold scan_from_head at h
        simp only [if_true] at h
        split at h
        · cases h
        · split at h
          · cases h
          · split at h
            · next e he =>
              simp only [Except.error.injEq] at h
              subst h
              have := probe_kmers_error H D _ _ _ _ _ he
              cases this
            · simp at h

/-- C6, counterexample. A read of 32 characters `N`: the forward pass is not
processed (it is dropped before any k-mer is probed), and the reverse-complement
pass is not run. -/
theorem scan_read_no_retry_after_abort :
    ∃ r, scan_read example_header empty_dicts (List.replicate 32 'N') empty_index_table
        (fun _ => pileup_zero) = .ok r ∧
      ¬ ((∃ p ∈ r.passes, p.revcompl = true) ↔
          ¬ ∃ p ∈ r.passes, p.revcompl = false ∧ p.processed = true) := by
  refine ⟨nohit (List.replicate 32 'N') empty_index_table (fun _ => pileup_zero)
    [{ revcompl := false, probed := false, processed := false }], by rfl, ?_⟩
  simp [nohit]

theorem scan_read_retry_rule_witness :
    scan_within_capacity example_header example_dicts example_read empty_index_table
      example_pileup ∧
    ∃ r, scan_read example_header example_dicts example_read empty_index_table
        example_pileup = .ok r ∧
      retry_rule example_header example_dicts example_read empty_index_table
        example_pileup r := by
  have hcap : scan_within_capacity example_header example_dicts example_read
      empty_index_table example_pileup := by decide!
  refine ⟨hcap, ?_⟩
  cases h : scan_read example_header example_dicts example_read empty_index_table
      example_pileup with
  | error e =>
    have hok : scan_ok (scan_read example_header example_dicts example_read
        empty_index_table example_pileup) = true := by decide!
    rw [h] at hok
    cases hok
  | ok r =>
    exact ⟨r, rfl, scan_read_retry_rule example_header example_dicts example_read
      empty_index_table example_pileup r hcap h⟩

/-- The example read is placed on its forward pass and counted at the SNP site. -/
theorem example_read_processed :
    (match scan_read example_header example_dicts example_read empty_index_table
        example_pileup with
      | .ok r => some (r.passes, r.pileup_table 110)
      | .error _ => none)
      = some ([{ revcompl := false, probed := true, processed := true }],
          { ref := 0, alt := 2, ref_freq := 200, alt_freq := 55, ref_cnt := 1, alt_cnt := 0 }) := by
  decide!

/-- The reverse complement of the example read is placed on the retry. -/
theorem example_read_reverse_processed :
    (match scan_read example_header example_dicts
        (List.replicate 32 'G' ++ List.replicate 32 'T') empty_index_table example_pileup with
      | .ok r => some (r.passes, r.pileup_table 110)
      | .error _ => none)
      = some ([{ revcompl := false, probed := true, processed := false },
               { revcompl := true, probed := true, processed := true }],
          { ref := 0, alt := 2, ref_freq := 200, alt_freq := 55, ref_cnt := 1, alt_cnt := 0 }) := by
  decide!

/-! ### Reads without usable k-mers -/

theorem mapM_option_cons {α β : Type} (f : α → Option β) (a : α) (l : List α) :
    (a :: l).mapM f = (f a).bind (fun b => (l.mapM f).map (fun bs => b :: bs)) := by
  rw [List.mapM_cons]
  cases f a with
  | none => rfl
  | some b =>
    cases l.mapM f with
    | none => rfl
    | some bs => rfl

theorem mapM_option_none {α β : Type} (f : α → Option β) (l : List α) :
    l.mapM f = none ↔ ∃ a ∈ l, f a = none := by
  induction l with
  | nil =>
    have : ([] : List α).mapM f = some [] := rfl
    rw [this]
    simp
  | cons a l ih =>
    rw [mapM_option_cons]
    cases h : f a with
    | none => simp [h]
    | some b =>
      simp only [Option.some_bind, Option.map_eq_none', ih, List.mem_cons, exists_eq_or_imp, h]
      simp

theorem mapM_option_congr {α β : Type} (f g : α → Option β) (l : List α)
    (h : ∀ a ∈ l, f a = g a) : l.mapM f = l.mapM g := by
  induction l with
  | nil => rfl
  | cons a l ih =>
    rw [mapM_option_cons, mapM_option_cons, h a (by simp), ih (fun x hx => h x (by simp [hx]))]

theorem mapM_option_length {α β : Type} (f : α → Option β) (l : List α) (bs : List β)
    (h : l.mapM f = some bs) : bs.length = l.length := by
  induction l generalizing bs with
  | nil =>
    have : ([] : List α).mapM f = some [] := rfl
    rw [this] at h
    cases h; rfl
  | cons a l ih =>
    rw [mapM_option_cons] at h
    cases hf : f a with
    | none => rw [hf] at h; cases h
    | some b =>
      rw [hf] at h
      simp only [Option.some_bind] at h
      cases hl : l.mapM f with
      | none => rw [hl] at h; cases h
      | some bs1 =>
        rw [hl] at h
        simp only [Option.map_some', Option.some.injEq] at h
        subst h
        simp [ih bs1 hl]

theorem encode_read_zero (read : List Char) : encode_read read 0 = some [] := rfl

theorem reverse_complement_zero (read : List Char) : reverse_complement read 0 = some read := by
  unfold reverse_complement
  rw [List.take_zero]
  rfl

theorem walk_contexts_nil (H : LavaH) (process_read : Bool) (target_index : Nat)
    (index_table : IndexTable) (pileup_table : Nat → pileup_entry) :
    walk_contexts H process_read target_index [] index_table pileup_table
      = (index_table, pileup_table) := rfl

/-- The code from `head` on for a read without a usable character: no k-mer is
encoded, the voter's slots and the pileup table stay as they are, and a retry
is made when this is the forward pass and the voter does not already hold a
winner. -/
theorem scan_from_head_zero (H : LavaH) (D : Dicts) (fuel : Nat) (revcompl : Bool)
    (read : List Char) (index_table : IndexTable) (pileup_table : Nat → pileup_entry)
    (passes : List PassRecord) :
    scan_from_head H D 0 (fuel + 1) revcompl read index_table pileup_table passes
      = if process_read_of index_table = false ∧ revcompl = false then
          scan_from_head H D 0 fuel true read
            { index_table with best := none, ambiguous := false } pileup_table
            (passes ++ [{ revcompl := revcompl, probed := true,
                          processed := process_read_of index_table }])
        else .ok (nohit read index_table pileup_table
          (passes ++ [{ revcompl := revcompl, probed := true,
                        processed := process_read_of index_table }])) := by
  rw [scan_from_head]
  have h1 : (if revcompl = true then reverse_complement read 0 else some read) = some read := by
    split_ifs
    · exact reverse_complement_zero read
    · rfl
  rw [h1]
  simp only [encode_read_zero, probe_kmers, walk_contexts_nil]

/-- C11. A read with fewer than 32 bases encodes zero k-mers on the forward pass
and on the reverse-complement pass, casts no vote (no hit context is recorded
and no slot of the voter changes) and leaves every pileup entry unchanged; from
a voter without a winner both passes are made. -/
theorem short_read_no_effect (H : LavaH) (D : Dicts) (read : List Char)
    (index_table : IndexTable) (pileup_table : Nat → pileup_entry)
    (hlen : read.length < 32) :
    encode_read read (read.length / 32 * 32) = some [] ∧
    (reverse_complement read (read.length / 32 * 32)).bind
        (fun rc => encode_read rc (read.length / 32 * 32)) = some [] ∧
    forward_probe H D read index_table pileup_table
      = some { index_table := index_table, ref_hit_contexts := [], snp_hit_contexts := [] } ∧
    ∃ r, scan_read H D read index_table pileup_table = .ok r ∧
      r.pileup_table = pileup_table ∧ r.index_table.table = index_table.table ∧
      (index_table.best = none →
        r.passes = [{ revcompl := false, probed := true, processed := false },
                    { revcompl := true, probed := true, processed := false }]) := by
  have hz : read.length / 32 * 32 = 0 := by omega
  rw [hz]
  refine ⟨encode_read_zero read, ?_, ?_, ?_⟩
  · rw [reverse_complement_zero]
    exact encode_read_zero read
  · unfold forward_probe
    rw [hz, encode_read_zero]
    rfl
  · unfold scan_read
    rw [hz, scan_from_head_zero]
    by_cases hp : process_read_of index_table = false
    · rw [if_pos ⟨hp, rfl⟩, scan_from_head_zero]
      have hp2 : process_read_of { index_table with best := none, ambiguous := false } = false :=
        rfl
      rw [if_neg (by simp)]
      refine ⟨_, rfl, rfl, rfl, ?_⟩
      intro _
      simp [nohit, hp, hp2]
    · rw [if_neg (fun h => hp h.1)]
      refine ⟨_, rfl, rfl, rfl, ?_⟩
      intro hb
      exfalso
      apply hp
      simp [process_read_of, hb]

theorem short_read_no_effect_witness :
    ("ACGTN".toList).length < 32 ∧
    (encode_read "ACGTN".toList ("ACGTN".toList.length / 32 * 32) = some [] ∧
    (reverse_complement "ACGTN".toList ("ACGTN".toList.length / 32 * 32)).bind
        (fun rc => encode_read rc ("ACGTN".toList.length / 32 * 32)) = some [] ∧
    forward_probe example_header example_dicts "ACGTN".toList empty_index_table example_pileup
      = some { index_table := empty_index_table, ref_hit_contexts := [],
               snp_hit_contexts := [] } ∧
    ∃ r, scan_read example_header example_dicts "ACGTN".toList empty_index_table
        example_pileup = .ok r ∧
      r.pileup_table = example_pileup ∧ r.index_table.table = empty_index_table.table ∧
      (empty_index_table.best = none →
        r.passes = [{ revcompl := false, probed := true, processed := false },
                    { revcompl := true, probed := true, processed := false }])) :=
  ⟨by decide, short_read_no_effect example_header example_dicts "ACGTN".toList
    empty_index_table example_pileup (by decide)⟩

theorem encode_kmer_none (w : List Char) (h : ∃ c ∈ w, encode_base c = none) :
    encode_kmer w = none := by
  induction w with
  | nil => obtain ⟨c, hc, _⟩ := h; cases hc
  | cons a rest ih =>
    obtain ⟨c, hc, hn⟩ := h
    unfold encode_kmer
    rcases List.mem_cons.1 hc with h1 | h1
    · subst h1
      rw [hn]
    · rw [ih ⟨c, h1, hn⟩]
      cases encode_base a <;> rfl

/-- A character that is no base among the first `len` characters of a read,
`len` a multiple of 32, makes the encoding of the read fail. -/
theorem encode_read_none (read : List Char) (m : Nat)
    (h : ∃ c ∈ read.take (m * 32), encode_base c = none) :
    encode_read read (m * 32) = none := by
  obtain ⟨c, hc, hn⟩ := h
  obtain ⟨i, hi, hci⟩ := List.mem_iff_getElem.1 hc
  rw [List.length_take] at hi
  unfold encode_read
  rw [mapM_option_none]
  have hm : m * 32 / 32 = m := by omega
  refine ⟨i / 32, List.mem_range.2 (by omega), ?_⟩
  apply encode_kmer_none
  refine ⟨c, ?_, hn⟩
  rw [List.mem_iff_getElem]
  refine ⟨i % 32, ?_, ?_⟩
  · rw [List.length_take, List.length_drop]
    omega
  · rw [List.getElem_take, List.getElem_drop]
    rw [List.getElem_take] at hci
    rw [← hci]
    congr 1
    omega

/-- C13. A read with a character outside `{A,C,G,T,a,c,g,t}` among its first
`len` characters is dropped on the forward pass before any k-mer is probed: no
vote is cast (the voter's slots are unchanged), no reverse-complement pass is
made, every pileup entry is unchanged, and the scan goes on to the next read. -/
theorem read_with_bad_character_skipped (H : LavaH) (D : Dicts) (read : List Char)
    (index_table : IndexTable) (pileup_table : Nat → pileup_entry)
    (hbad : ∃ c ∈ read.take (read.length / 32 * 32), encode_base c = none) :
    forward_probe H D read index_table pileup_table = none ∧
    ∃ r, scan_read H D read index_table pileup_table = .ok r ∧
      r.passes = [{ revcompl := false, probed := false, processed := false }] ∧
      r.index_table.table = index_table.table ∧
      r.index_table.best = none ∧ r.index_table.ambiguous = false ∧
      r.pileup_table = pileup_table := by
  have hen := encode_read_none read (read.length / 32) hbad
  constructor
  · unfold forward_probe
    rw [hen]
  · unfold scan_read
    rw [scan_from_head]
    simp only [Bool.false_eq_true, if_false, hen]
    exact ⟨_, rfl, rfl, rfl, rfl, rfl, rfl⟩

theorem read_with_bad_character_skipped_witness :
    (∃ c ∈ (List.replicate 40 'A' ++ ['N'] ++ List.replicate 30 'C').take
        ((List.replicate 40 'A' ++ ['N'] ++ List.replicate 30 'C').length / 32 * 32),
      encode_base c = none) ∧
    (forward_probe example_header example_dicts
        (List.replicate 40 'A' ++ ['N'] ++ List.replicate 30 'C') empty_index_table
        example_pileup = none ∧
    ∃ r, scan_read example_header example_dicts
        (List.replicate 40 'A' ++ ['N'] ++ List.replicate 30 'C') empty_index_table
        example_pileup = .ok r ∧
      r.passes = [{ revcompl := false, probed := false, processed := false }] ∧
      r.index_table.table = empty_index_table.table ∧
      r.index_table.best = none ∧ r.index_table.ambiguous = false ∧
      r.pileup_table = example_pileup) :=
  ⟨⟨'N', by decide, by decide⟩,
    read_with_bad_character_skipped example_header example_dicts
      (List.replicate 40 'A' ++ ['N'] ++ List.replicate 30 'C') empty_index_table
      example_pileup ⟨'N', by decide, by decide⟩⟩

/-! ### The unused suffix of a read -/

theorem window_take (read : List Char) (len c : Nat) (h : 32 * c + 32 ≤ len) :
    (read.drop (32 * c)).take 32 = ((read.take len).drop (32 * c)).take 32 := by
  rw [List.drop_take, List.take_take]
  congr 1
  omega

/-- The encoding of a read depends only on its first `len` characters. -/
theorem encode_read_of_take (read1 read2 : List Char) (len : Nat)
    (h : read1.take len = read2.take len) :
    encode_read read1 len = encode_read read2 len := by
  unfold encode_read
  apply mapM_option_congr
  intro c hc
  have hc1 := List.mem_range.1 hc
  have hle : 32 * c + 32 ≤ len := by omega
  rw [window_take read1 len c hle, window_take read2 len c hle, h]

/-- The reverse complements of two reads that agree on their first `len`
characters agree on their first `len` characters. -/
theorem reverse_complement_of_take (read1 read2 : List Char) (len : Nat)
    (h : read1.take len = read2.take len) (h1 : len ≤ read1.length) :
    (reverse_complement read1 len = none ∧ reverse_complement read2 len = none) ∨
    ∃ r1 r2, reverse_complement read1 len = some r1 ∧ reverse_complement read2 len = some r2 ∧
      r1.take len = r2.take len ∧ len ≤ r1.length ∧ len ≤ r2.length := by
  unfold reverse_complement
  rw [← h]
  cases hm : (read1.take len).mapM complement_base with
  | none => left; exact ⟨rfl, rfl⟩
  | some rev =>
    right
    have hl := mapM_option_length _ _ _ hm
    rw [List.length_take] at hl
    have hl1 : rev.reverse.length = len := by rw [List.length_reverse]; omega
    refine ⟨_, _, rfl, rfl, ?_, ?_, ?_⟩
    · rw [List.take_append_of_le_length (by omega), List.take_append_of_le_length (by omega)]
    · rw [List.length_append]; omega
    · rw [List.length_append]; omega

theorem scan_from_head_of_take (H : LavaH) (D : Dicts) (len : Nat) :
    ∀ (fuel : Nat) (revcompl : Bool) (read1 read2 : List Char) (index_table : IndexTable)
      (pileup_table : Nat → pileup_entry) (passes : List PassRecord),
      read1.take len = read2.take len → len ≤ read1.length → len ≤ read2.length →
      (scan_from_head H D len fuel revcompl read1 index_table pileup_table passes).map
          ReadResult.state =
        (scan_from_head H D len fuel revcompl read2 index_table pileup_table passes).map
          ReadResult.state := by
  intro fuel
  induction fuel with
  | zero => intros; rfl
  | succ fuel ih =>
    intro revcompl read1 read2 index_table pileup_table passes h h1 h2
    rw [scan_from_head, scan_from_head]
    cases revcompl with
    | false =>
      simp only [Bool.false_eq_true, if_false]
      rw [encode_read_of_take read1 read2 len h]
      cases encode_read read2 len with
      | none => rfl
      | some kmers =>
        dsimp only
        cases probe_kmers H D pileup_table 0 kmers
            { index_table := index_table, ref_hit_contexts := [], snp_hit_contexts := [] } with
        | error e => rfl
        | ok st =>
          dsimp only
          split
          · exact ih _ _ _ _ _ _ h h1 h2
          · rfl
    | true =>
      simp only [if_true]
      rcases reverse_complement_of_take read1 read2 len h h1 with ⟨e1, e2⟩ |
        ⟨r1, r2, e1, e2, hr, hr1, hr2⟩
      · rw [e1, e2]; rfl
      · rw [e1, e2]
        dsimp only
        rw [encode_read_of_take r1 r2 len hr]
        cases encode_read r2 len with
        | none => rfl
        | some kmers =>
          dsimp only
          cases probe_kmers H D pileup_table 0 kmers
              { index_table := index_table, ref_hit_contexts := [], snp_hit_contexts := [] } with
          | error e => rfl
          | ok st =>
            dsimp only
            split
            · exact ih _ _ _ _ _ _ hr hr1 hr2
            · rfl

/-! ### The capacity of the arrays -/

/-- A probing that ends normally stops in its final state. -/
theorem probe_reach_eq (H : LavaH) (D : Dicts) (pileup_table : Nat → pileup_entry)
    (kmers : List Nat) :
    ∀ (i : Nat) (st st1 : ProbeState),
      probe_kmers H D pileup_table i kmers st = .ok st1 →
      probe_reach H D pileup_table i kmers st = st1 := by
  induction kmers with
  | nil => intro i st st1 h; cases h; rfl
  | cons k rest ih =>
    intro i st st1 h
    unfold probe_kmers at h
    unfold probe_reach
    split at h
    · cases h
    · next sa ha =>
      unfold probe_kmer at ha
      simp only at ha
      split at ha
      · cases ha
      · next sb hb =>
        split at ha
        · cases ha
        · next sc hc =>
          cases ha
          try rw [hb]
          try dsimp only
          try rw [hc]
          exact ih _ _ _ h

theorem forward_probe_of_take (H : LavaH) (D : Dicts) (read1 read2 : List Char) (m : Nat)
    (index_table : IndexTable) (pileup_table : Nat → pileup_entry)
    (hm1 : read1.length / 32 = m) (hm2 : read2.length / 32 = m)
    (hagree : read1.take (32 * m) = read2.take (32 * m)) :
    forward_probe H D read1 index_table pileup_table
      = forward_probe H D read2 index_table pileup_table := by
  unfold forward_probe
  rw [hm1, hm2, Nat.mul_comm m 32, encode_read_of_take read1 read2 (32 * m) hagree]

theorem reverse_pass_of_take (H : LavaH) (D : Dicts) (read1 read2 : List Char) (m : Nat)
    (index_table : IndexTable) (pileup_table : Nat → pileup_entry)
    (hm1 : read1.length / 32 = m) (hm2 : read2.length / 32 = m)
    (hagree : read1.take (32 * m) = read2.take (32 * m)) :
    reverse_pass H D read1 index_table pileup_table
      = reverse_pass H D read2 index_table pileup_table := by
  unfold reverse_pass
  rw [forward_probe_of_take H D read1 read2 m index_table pileup_table hm1 hm2 hagree,
    hm1, hm2, Nat.mul_comm m 32]
  rcases reverse_complement_of_take read1 read2 (32 * m) hagree (by omega) with ⟨e1, e2⟩ |
    ⟨r1, r2, e1, e2, hr, _, _⟩
  · rw [e1, e2]
  · rw [e1, e2]
    dsimp only
    rw [encode_read_of_take r1 r2 (32 * m) hr]

/-- Two reads that agree on their whole 32-base windows stay within the capacity
of the arrays together. -/
theorem scan_within_capacity_of_take (H : LavaH) (D : Dicts) (read1 read2 : List Char)
    (m : Nat) (index_table : IndexTable) (pileup_table : Nat → pileup_entry)
    (hm1 : read1.length / 32 = m) (hm2 : read2.length / 32 = m)
    (hagree : read1.take (32 * m) = read2.take (32 * m))
    (hcap : scan_within_capacity H D read1 index_table pileup_table) :
    scan_within_capacity H D read2 index_table pileup_table := by
  unfold scan_within_capacity at hcap ⊢
  rw [reverse_pass_of_take H D read1 read2 m index_table pileup_table hm1 hm2 hagree,
    hm1, Nat.mul_comm m 32, encode_read_of_take read1 read2 (32 * m) hagree] at hcap
  rw [hm2, Nat.mul_comm m 32]
  exact hcap

/-- C12. Two reads with the same number `m` of whole 32-base windows that agree
on their first `32 * m` bases are scanned alike, from every voter state and
every pileup table, when the hits of one of them stay within the capacity of
the hit context arrays and of the voter slots: then so do the hits of the other,
and the scans end alike, with the same voter, the same pileup table and the same
passes.  The bases from `32 * m` on have no influence. -/
theorem scan_read_ignores_suffix (H : LavaH) (D : Dicts) (read1 read2 : List Char) (m : Nat)
    (index_table : IndexTable) (pileup_table : Nat → pileup_entry)
    (hm1 : read1.length / 32 = m) (hm2 : read2.length / 32 = m)
    (hagree : read1.take (32 * m) = read2.take (32 * m))
    (hcap : scan_within_capacity H D read1 index_table pileup_table) :
    scan_within_capacity H D read2 index_table pileup_table ∧
    (scan_read H D read1 index_table pileup_table).map ReadResult.state =
      (scan_read H D read2 index_table pileup_table).map ReadResult.state := by
  refine ⟨scan_within_capacity_of_take H D read1 read2 m index_table pileup_table hm1 hm2
    hagree hcap, ?_⟩
  unfold scan_read
  rw [hm1, hm2]
  have e : m * 32 = 32 * m := Nat.mul_comm _ _
  rw [e]
  exact scan_from_head_of_take H D (32 * m) 2 false read1 read2 index_table pileup_table []
    hagree (by omega) (by omega)

theorem scan_read_ignores_suffix_witness :
    (example_read ++ "ACGTN".toList).length / 32 = 2 ∧
    (example_read ++ "TTTTTTTTTTTTTTTTTTTTTT".toList).length / 32 = 2 ∧
    (example_read ++ "ACGTN".toList).take (32 * 2) =
      (example_read ++ "TTTTTTTTTTTTTTTTTTTTTT".toList).take (32 * 2) ∧
    scan_within_capacity example_header example_dicts (example_read ++ "ACGTN".toList)
      empty_index_table example_pileup ∧
    scan_within_capacity example_header example_dicts
      (example_read ++ "TTTTTTTTTTTTTTTTTTTTTT".toList) empty_index_table example_pileup ∧
    (scan_read example_header example_dicts (example_read ++ "ACGTN".toList)
        empty_index_table example_pileup).map ReadResult.state =
      (scan_read example_header example_dicts
        (example_read ++ "TTTTTTTTTTTTTTTTTTTTTT".toList)
        empty_index_table example_pileup).map ReadResult.state :=
  ⟨by decide, by decide, by decide, by decide!,
    scan_read_ignores_suffix example_header example_dicts _ _ 2 empty_index_table
      example_pileup (by decide) (by decide) (by decide) (by decide!)⟩

/-! ### Clearing the voter index by index -/

theorem add_all_untouched (xs : List Nat) (s : Nat) :
    ∀ t : IndexTable, (∀ x ∈ xs, x % INDEX_TABLE_SLOT_COUNT ≠ s) →
      (add_all t xs).table s = t.table s := by
  induction xs with
  | nil => intro t _; rfl
  | cons x xs ih =>
    intro t h
    unfold add_all
    rw [List.foldl_cons]
    have := ih (index_table_add t x) (fun y hy => h y (List.mem_cons_of_mem _ hy))
    unfold add_all at this
    rw [this, index_table_add_table]
    unfold add_table
    exact Function.update_noteq (Ne.symm (h x (List.mem_cons_self _ _))) _ _

theorem index_table_add_best_ne_none (t : IndexTable) (x : Nat) :
    (index_table_add t x).best ≠ none := by
  unfold index_table_add
  simp only
  split
  · simp
  · split_ifs <;> simp

theorem add_all_best_ne_none (xs : List Nat) (t : IndexTable) (h : xs ≠ []) :
    (add_all t xs).best ≠ none := by
  induction xs using List.reverseRecOn with
  | nil => exact absurd rfl h
  | append_singleton xs x _ =>
    unfold add_all
    rw [List.foldl_append]
    exact index_table_add_best_ne_none _ x

/-- C15, the state the claim promises is not reached: after `index_table_add(5)`
and `index_table_add(6)` on an empty voter, `index_table_clear_index(5)` and
`index_table_clear_index(6)` leave `best` pointing at the entry for 5 and
`ambiguous` set. -/
theorem clear_index_keeps_best :
    (clear_indices (add_all empty_index_table [5, 6]) [5, 6]).best = some (5, 0) ∧
    (clear_indices (add_all empty_index_table [5, 6]) [5, 6]).ambiguous = true ∧
    (index_table_clear empty_index_table).best = none ∧
    (index_table_clear empty_index_table).ambiguous = false := by
  refine ⟨by decide, by decide, ?_, ?_⟩
  · exact (index_table_clear_spec _).1
  · exact (index_table_clear_spec _).2.1

/-- A voter with no live entry and no best entry represents the empty sequence
of votes. -/
theorem voter_of_empty (t : IndexTable)
    (hc : ∀ s, s < INDEX_TABLE_SLOT_COUNT → (t.table s).count = 0) (hb : t.best = none) :
    Voter t [] := by
  have hnl : ∀ e, ¬ t.live e := by
    intro e hl
    have := hc e.1 hl.1
    have := hl.2
    omega
  refine ⟨fun e hl => absurd hl (hnl e), fun e hl => absurd hl (hnl e),
    fun e hl => absurd hl (hnl e), fun e _ hl => absurd hl (hnl e), ?_, ?_, fun _ => hb,
    fun h => absurd rfl h⟩
  · intro x hx; cases hx
  · intro s hs
    rw [hc s hs]
    simp

/-- The slots after a sequence of adds do not depend on `best` and `ambiguous`. -/
theorem add_all_table_congr (xs : List Nat) :
    ∀ t t1 : IndexTable, t.table = t1.table → (add_all t xs).table = (add_all t1 xs).table := by
  induction xs with
  | nil => intro t t1 h; exact h
  | cons x xs ih =>
    intro t t1 h
    have hx : (index_table_add t x).table = (index_table_add t1 x).table := by
      have h1 : ∀ u : IndexTable, (index_table_add u x).table = add_table u x := by
        intro u
        unfold index_table_add
        dsimp only
        split
        · rfl
        · split_ifs <;> rfl
      rw [h1, h1]
      unfold add_table
      rw [h]
    exact ih _ _ hx

/-- Within the capacity of the voter no slot count passes the depth of the slot
arrays, at any point of a sequence of adds that starts from slots with count 0. -/
theorem add_all_counts_in_bounds (t : IndexTable) (xs : List Nat)
    (hempty : ∀ s, s < INDEX_TABLE_SLOT_COUNT → (t.table s).count = 0)
    (hcap : within_capacity xs) (n s : Nat) (hs : s < INDEX_TABLE_SLOT_COUNT) :
    ((add_all t (xs.take n)).table s).count ≤ INDEX_TABLE_ENTRY_DEPTH := by
  have hV : Voter ({ t with best := none, ambiguous := false } : IndexTable) [] :=
    voter_of_empty _ hempty rfl
  have hc := within_capacity_take xs n hcap
  have hV2 := voter_add_all (xs.take n) _ [] hV (by simpa using hc.2)
  rw [add_all_table_congr (xs.take n) t { t with best := none, ambiguous := false } rfl]
  rw [hV2.count_eq s hs]
  simpa using hc.1 s

/-- C15, amended.  After any sequence `xs` of `index_table_add` calls that stays
within the capacity of the voter (no slot receives more than
`INDEX_TABLE_ENTRY_DEPTH` distinct indices, no index more than 255 votes), applied
to a voter whose slot counts are all 0: no slot count passes
`INDEX_TABLE_ENTRY_DEPTH` at any point of the sequence, and calling
`index_table_clear_index` for every added index (in any order, any number of
times) sets every slot count to 0 again and leaves `best` and `ambiguous` as the
adds left them: `best` is not null when anything was added.  The empty state is
reached once `best` and `ambiguous` are reset as well. -/
theorem clear_indices_after_adds (t : IndexTable) (xs ys : List Nat)
    (hempty : ∀ s, s < INDEX_TABLE_SLOT_COUNT → (t.table s).count = 0)
    (hcap : within_capacity xs)
    (hys : ∀ x ∈ xs, x ∈ ys) :
    (∀ n s, s < INDEX_TABLE_SLOT_COUNT →
      ((add_all t (xs.take n)).table s).count ≤ INDEX_TABLE_ENTRY_DEPTH) ∧
    (∀ s, s < INDEX_TABLE_SLOT_COUNT →
      ((clear_indices (add_all t xs) ys).table s).count = 0) ∧
    (clear_indices (add_all t xs) ys).best = (add_all t xs).best ∧
    (clear_indices (add_all t xs) ys).ambiguous = (add_all t xs).ambiguous ∧
    (xs ≠ [] → (clear_indices (add_all t xs) ys).best ≠ none) ∧
    (∀ s, s < INDEX_TABLE_SLOT_COUNT →
      (({ clear_indices (add_all t xs) ys with best := none, ambiguous := false } :
        IndexTable).table s).count = 0) := by
  obtain ⟨h1, h2, h3⟩ := clear_index_fold ys (add_all t xs)
  have hc : ∀ s, s < INDEX_TABLE_SLOT_COUNT →
      ((clear_indices (add_all t xs) ys).table s).count = 0 := by
    intro s hs
    apply h3
    by_cases h : ∃ x ∈ xs, x % INDEX_TABLE_SLOT_COUNT = s
    · obtain ⟨x, hx, hxs⟩ := h
      exact Or.inr ⟨x, hys x hx, hxs⟩
    · left
      rw [add_all_untouched xs s t (fun x hx hxs => h ⟨x, hx, hxs⟩)]
      exact hempty s hs
  refine ⟨fun n s hs => add_all_counts_in_bounds t xs hempty hcap n s hs, hc, h1, h2, ?_, hc⟩
  intro hne
  unfold clear_indices
  rw [h1]
  exact add_all_best_ne_none xs t hne

theorem clear_indices_after_adds_witness :
    (∀ s, s < INDEX_TABLE_SLOT_COUNT → (empty_index_table.table s).count = 0) ∧
    within_capacity [5, 6, 5] ∧
    (∀ x ∈ [5, 6, 5], x ∈ [6, 5]) ∧
    ((∀ n s, s < INDEX_TABLE_SLOT_COUNT →
      ((add_all empty_index_table (([5, 6, 5] : List Nat).take n)).table s).count
        ≤ INDEX_TABLE_ENTRY_DEPTH) ∧
    (∀ s, s < INDEX_TABLE_SLOT_COUNT →
      ((clear_indices (add_all empty_index_table [5, 6, 5]) [6, 5]).table s).count = 0) ∧
    (clear_indices (add_all empty_index_table [5, 6, 5]) [6, 5]).best
      = (add_all empty_index_table [5, 6, 5]).best ∧
    (clear_indices (add_all empty_index_table [5, 6, 5]) [6, 5]).ambiguous
      = (add_all empty_index_table [5, 6, 5]).ambiguous ∧
    (([5, 6, 5] : List Nat) ≠ [] →
      (clear_indices (add_all empty_index_table [5, 6, 5]) [6, 5]).best ≠ none) ∧
    (∀ s, s < INDEX_TABLE_SLOT_COUNT →
      (({ clear_indices (add_all empty_index_table [5, 6, 5]) [6, 5] with
          best := none, ambiguous := false } : IndexTable).table s).count = 0)) :=
  ⟨fun _ _ => rfl, within_capacity_of_short _ (by decide), by decide,
    clear_indices_after_adds empty_index_table [5, 6, 5] [6, 5] (fun _ _ => rfl)
      (within_capacity_of_short _ (by decide)) (by decide)⟩

/-! ### What a jumpgate cell holds -/

/-- For a sorted dictionary with fewer than `2 ^ 32` entries the jumpgate cell of
`h` is the index of the first entry whose high part is at least `h`, and the size
when there is none. -/
theorem build_jumpgate_first (jg0 : Nat → Nat) (max_hi : Nat) (his : List Nat)
    (hs : his.Pairwise (· ≤ ·)) (hb : ∀ x ∈ his, x ≤ max_hi) (hmax : max_hi < 2 ^ 32)
    (hlen : his.length < 2 ^ 32) (h : Nat) (hh : h ≤ max_hi) :
    build_jumpgate jg0 max_hi his his.length h ≤ his.length ∧
    (∀ idx x, his[idx]? = some x →
      (idx < build_jumpgate jg0 max_hi his his.length h ↔ x < h)) ∧
    (build_jumpgate jg0 max_hi his his.length h = his.length ↔ ∀ x ∈ his, x < h) ∧
    (h ∈ his → his[build_jumpgate jg0 max_hi his his.length h]? = some h) := by
  rw [build_jumpgate_count jg0 max_hi his hs hb hmax hlen h hh]
  have hiff := sorted_lt_iff_index his hs h
  refine ⟨List.countP_le_length _, ?_, ?_, ?_⟩
  · intro idx x hx
    rcases List.getElem?_eq_some.1 hx with ⟨hi, he⟩
    rw [← hiff idx hi, he]
  · rw [List.countP_eq_length]
    simp
  · intro hmem
    obtain ⟨i, hi, hie⟩ := List.mem_iff_getElem.1 hmem
    have hci : his.countP (fun x => decide (x < h)) ≤ i := by
      by_contra hc
      have := (hiff i hi).2 (by omega)
      omega
    have hc : his.countP (fun x => decide (x < h)) < his.length := by omega
    rw [List.getElem?_eq_getElem hc]
    congr 1
    have h1 : ¬ his[his.countP (fun x => decide (x < h))] < h := by
      intro hlt
      have := (hiff _ hc).1 hlt
      omega
    have h2 : his[his.countP (fun x => decide (x < h))] ≤ his[i] := by
      rcases Nat.lt_or_ge (his.countP (fun x => decide (x < h))) i with hlt | hge
      · exact List.pairwise_iff_getElem.1 hs _ _ hc hi hlt
      · have e : his.countP (fun x => decide (x < h)) = i := by omega
        simp only [e]
        exact le_refl _
    omega

/-- C18, a cell that is neither a first index nor the size: in the sorted
reference dictionary with the keys `5` and `3 * 2 ^ 32 + 1` no entry has high
half 1, the size is 2, and the loader leaves `ref_jumpgate[1] = 1`. -/
theorem ref_jumpgate_absent_high_half :
    ∃ d, load_ref_dict (fun _ => 0)
        [{ kmer := 5, pos := 10, ambig_flag := 0 },
         { kmer := 3 * 2 ^ 32 + 1, pos := 20, ambig_flag := 0 }] = some d ∧
      (∀ e ∈ ([{ kmer := 5, pos := 10, ambig_flag := 0 },
         { kmer := 3 * 2 ^ 32 + 1, pos := 20, ambig_flag := 0 }] : List ref_file_entry),
        HI e.kmer ≠ 1) ∧
      d.ref_dict_size = 2 ∧ d.ref_jumpgate 1 = 1 := by
  refine ⟨_, by unfold load_ref_dict; rw [if_neg (by unfold POW_2_32; decide)], by decide,
    rfl, ?_⟩
  dsimp only
  have := build_jumpgate_count (fun _ => 0) 0xFFFFFFFF [0, 3] (by decide) (by decide)
    (by decide) (by decide) 1 (by decide)
  have e : (([{ kmer := 5, pos := 10, ambig_flag := 0 },
         { kmer := 3 * 2 ^ 32 + 1, pos := 20, ambig_flag := 0 }] : List ref_file_entry).map
         (fun e => HI e.kmer)) = [0, 3] := by decide
  rw [e]
  exact this

theorem jumpgate_first {hi_of lo_of : Nat → Nat} {max_hi : Nat}
    (S : KeySplit hi_of lo_of max_hi) (jg0 : Nat → Nat) (kmers : List Nat)
    (hs : kmers.Pairwise (· ≤ ·)) (hb : ∀ k ∈ kmers, k < 2 ^ 64)
    (hlen : kmers.length < 2 ^ 32) (h : Nat) (hh : h ≤ max_hi) :
    first_index_of hi_of kmers h
      (build_jumpgate jg0 max_hi (kmers.map hi_of) kmers.length h) := by
  have hsh : (kmers.map hi_of).Pairwise (· ≤ ·) := by
    rw [List.pairwise_map]
    refine List.Pairwise.imp_of_mem ?_ hs
    intro a b _ hbm hab
    exact S.hi_mono a b hab (hb b hbm)
  have hbh : ∀ x ∈ kmers.map hi_of, x ≤ max_hi := by
    intro x hx
    rcases List.mem_map.1 hx with ⟨k, _, rfl⟩
    exact S.hi_le k
  obtain ⟨h1, h2, h3, h4⟩ := build_jumpgate_first jg0 max_hi (kmers.map hi_of) hsh hbh
    S.max_lt (by simpa using hlen) h hh
  simp only [List.length_map] at h1 h2 h3 h4
  have h2a : ∀ idx k, kmers[idx]? = some k →
      (idx < build_jumpgate jg0 max_hi (kmers.map hi_of) kmers.length h ↔ hi_of k < h) := by
    intro idx k hk
    exact h2 idx (hi_of k) (by rw [List.getElem?_map, hk]; rfl)
  refine ⟨h1, h2a, ?_, ?_⟩
  · rw [h3]
    simp
  · rintro ⟨k, hk, hkh⟩
    have hm : h ∈ kmers.map hi_of := List.mem_map.2 ⟨k, hk, hkh⟩
    have := h4 hm
    rw [List.getElem?_map] at this
    constructor
    · cases hf : kmers[build_jumpgate jg0 max_hi (kmers.map hi_of) kmers.length h]? with
      | none => rw [hf] at this; cases this
      | some k1 =>
        rw [hf] at this
        exact ⟨k1, rfl, by simpa using this⟩
    · intro idx k1 hk1 hh1
      by_contra hc
      have := (h2a idx k1 hk1).1 (by omega)
      omega

/-- C18, amended.  For every sorted dictionary with fewer than `2 ^ 32` entries
and every high-part value `h`, after loading the jumpgate cell of `h` is the
number of entries whose high part is below `h`, the index of the first entry
whose high part is at least `h`.  It is the index of the first entry with high
part `h` when there is one, and it is the dictionary size exactly when no entry
has a high part of `h` or more.  This holds for the reference dictionary (high
32 bits) and for the SNP dictionary (high 24 bits). -/
theorem jumpgate_first_index (H : LavaH) (ref_jumpgate0 snp_jumpgate0 : Nat → Nat)
    (pileup : PileupState) (ref_file : List ref_file_entry) (snp_file : List snp_file_entry)
    (hs_ref : (ref_file.map (fun e => e.kmer)).Pairwise (· ≤ ·))
    (hb_ref : ∀ e ∈ ref_file, e.kmer < 2 ^ 64) (hlen_ref : ref_file.length < 2 ^ 32)
    (hs_snp : (snp_file.map (fun e => e.kmer)).Pairwise (· ≤ ·))
    (hb_snp : ∀ e ∈ snp_file, e.kmer < 2 ^ 64) (hlen_snp : snp_file.length < 2 ^ 32) :
    (∃ d, load_ref_dict ref_jumpgate0 ref_file = some d ∧
      d.ref_dict_size = ref_file.length ∧
      ∀ h, h ≤ 0xFFFFFFFF →
        first_index_of HI (ref_file.map (fun e => e.kmer)) h (d.ref_jumpgate h)) ∧
    (∃ d, load_snp_dict H snp_jumpgate0 pileup snp_file = some d ∧
      d.snp_dict_size = snp_file.length ∧
      ∀ h, h ≤ 0xFFFFFF →
        first_index_of HI24 (snp_file.map (fun e => e.kmer)) h (d.snp_jumpgate h)) := by
  constructor
  · refine ⟨_, by unfold load_ref_dict; rw [if_neg (by unfold POW_2_32; omega)], rfl, ?_⟩
    intro h hh
    have := jumpgate_first keySplit_ref ref_jumpgate0 (ref_file.map (fun e => e.kmer)) hs_ref
      (by
        intro k hk
        rcases List.mem_map.1 hk with ⟨e, he, rfl⟩
        exact hb_ref e he)
      (by simpa using hlen_ref) h hh
    simpa only [List.map_map, List.length_map, Function.comp_def] using this
  · refine ⟨_, by unfold load_snp_dict; rw [if_neg (by unfold POW_2_32; omega)], rfl, ?_⟩
    intro h hh
    have := jumpgate_first keySplit_snp snp_jumpgate0 (snp_file.map (fun e => e.kmer)) hs_snp
      (by
        intro k hk
        rcases List.mem_map.1 hk with ⟨e, he, rfl⟩
        exact hb_snp e he)
      (by simpa using hlen_snp) h hh
    simpa only [List.map_map, List.length_map, Function.comp_def] using this

theorem jumpgate_first_index_witness :
    ((example_ref_file.map (fun e => e.kmer)).Pairwise (· ≤ ·) ∧
      (∀ e ∈ example_ref_file, e.kmer < 2 ^ 64) ∧ example_ref_file.length < 2 ^ 32 ∧
      (example_snp_file.map (fun e => e.kmer)).Pairwise (· ≤ ·) ∧
      (∀ e ∈ example_snp_file, e.kmer < 2 ^ 64) ∧ example_snp_file.length < 2 ^ 32) ∧
    (∃ d, load_ref_dict (fun _ => 0) example_ref_file = some d ∧
      d.ref_dict_size = example_ref_file.length ∧
      ∀ h, h ≤ 0xFFFFFFFF →
        first_index_of HI (example_ref_file.map (fun e => e.kmer)) h (d.ref_jumpgate h)) ∧
    (∃ d, load_snp_dict example_header (fun _ => 0) (pileup_init (fun _ => pileup_zero) 132)
        example_snp_file = some d ∧
      d.snp_dict_size = example_snp_file.length ∧
      ∀ h, h ≤ 0xFFFFFF →
        first_index_of HI24 (example_snp_file.map (fun e => e.kmer)) h (d.snp_jumpgate h)) :=
  ⟨⟨by decide, by decide, by decide, by decide, by decide, by decide⟩,
    jumpgate_first_index example_header (fun _ => 0) (fun _ => 0)
      (pileup_init (fun _ => pileup_zero) 132) example_ref_file example_snp_file
      (by decide) (by decide) (by decide) (by decide) (by decide) (by decide)⟩

/-! ### Positions smaller than the offset of the k-mer -/

theorem read_pos_of_wrap (pos offset : Nat) (h : pos < offset) (ho : offset < 2 ^ 32) :
    read_pos_of pos offset = pos + 2 ^ 32 - offset := by
  unfold read_pos_of
  rw [Nat.mod_eq_of_lt ho, Nat.mod_eq_of_lt (by omega)]

/-- C19, a placement that is not discarded: in the example dictionaries the
k-mers of 32 `A` and of 32 `C` sit at the positions 100 and 132; in
`underflow_read` they sit at the offsets 128 and 160.  Both hits are recorded
with the position `2 ^ 32 - 28`, the voter's best entry is that index with two
votes, and the read is processed on its forward pass: the pileup entry of the
SNP site 110 is counted. -/
theorem underflow_placement_recorded :
    (match forward_probe example_header example_dicts underflow_read empty_index_table
        example_pileup with
      | some st => some (st.ref_hit_contexts, st.snp_hit_contexts,
          st.index_table.best.map
            (fun b => ((st.index_table.entry b).index, (st.index_table.entry b).freq)))
      | none => none)
      = some ([{ kmer := 0, position := 2 ^ 32 - 28, kmer_pos := 100 },
               { kmer := 0x5555555555555555, position := 2 ^ 32 - 28, kmer_pos := 132 }],
              [], some (2 ^ 32 - 28, 2)) ∧
    (match scan_read example_header example_dicts underflow_read empty_index_table
        example_pileup with
      | .ok r => some (r.passes, r.pileup_table 110)
      | .error _ => none)
      = some ([{ revcompl := false, probed := true, processed := true }],
          { ref := 0, alt := 2, ref_freq := 200, alt_freq := 55, ref_cnt := 1, alt_cnt := 0 }) := by
  constructor
  · decide!
  · decide!

/-- C19, amended.  The scanner has no test of `pos` against the offset `off` of
the k-mer.  For a position `pos < off`, every hit the scanner counts is recorded
with the wrapped value `pos + 2 ^ 32 - off` of the 32-bit subtraction: the
context `{kmer, pos + 2 ^ 32 - off, pos}` is appended and a vote for
`pos + 2 ^ 32 - off` is cast, so that `best` is not null afterwards.  This holds
for the statements shared by all hits (`record_ref_hit`, `record_snp_hit`) and
so for direct and neighbour hits, in either dictionary, unambiguous or taken
from the first column of an aux row. -/
theorem underflow_hit_is_recorded (H : LavaH) (D : Dicts) (pileup_table : Nat → pileup_entry)
    (st : ProbeState) (kmer pos offset diff_base_pos : Nat)
    (hlt : pos < offset) (hoff : offset < 2 ^ 32) :
    (record_ref_hit st kmer pos offset =
      { st with
        ref_hit_contexts := st.ref_hit_contexts ++
          [{ kmer := kmer, position := pos + 2 ^ 32 - offset, kmer_pos := pos }],
        index_table := index_table_add st.index_table (pos + 2 ^ 32 - offset) }) ∧
    (record_snp_hit st kmer pos offset =
      { st with
        snp_hit_contexts := st.snp_hit_contexts ++
          [{ kmer := kmer, position := pos + 2 ^ 32 - offset, kmer_pos := pos }],
        index_table := index_table_add st.index_table (pos + 2 ^ 32 - offset) }) ∧
    (record_ref_hit st kmer pos offset).index_table.best ≠ none ∧
    (record_snp_hit st kmer pos offset).index_table.best ≠ none ∧
    (∀ ref_hit : kmer_entry, ref_hit_of D kmer = some ref_hit → ref_hit.pos = pos →
      pos ≠ H.POS_AMBIGUOUS → ref_hit.ambig_flag = H.FLAG_UNAMBIGUOUS →
      direct_ref_hit H D kmer offset st = .ok (record_ref_hit st kmer pos offset) ∧
      ((pileup_table ((pos + diff_base_pos) % 2 ^ 32)).ref = 0 →
        (pileup_table ((pos + diff_base_pos) % 2 ^ 32)).alt = 0 →
        neighbor_ref_hit H D pileup_table kmer offset diff_base_pos st
          = record_ref_hit st kmer pos offset)) ∧
    (∀ snp_hit : snp_kmer_entry, snp_hit_of D kmer = some snp_hit → snp_hit.pos = pos →
      pos ≠ H.POS_AMBIGUOUS → snp_hit.ambig_flag = H.FLAG_UNAMBIGUOUS →
      direct_snp_hit H D kmer offset st = .ok (record_snp_hit st kmer pos offset) ∧
      (H.SNP_INFO_POS snp_hit.snp ≠ diff_base_pos →
        neighbor_snp_hit H D kmer offset diff_base_pos st
          = record_snp_hit st kmer pos offset)) ∧
    (∀ (ref_hit : kmer_entry) (cols : Nat), ref_hit_of D kmer = some ref_hit →
      ref_hit.pos ≠ H.POS_AMBIGUOUS → ref_hit.ambig_flag ≠ H.FLAG_UNAMBIGUOUS →
      ref_hit.ambig_flag = H.FLAG_AMBIGUOUS → H.AUX_TABLE_COLS = cols + 1 →
      (D.ref_aux_table ref_hit.pos).pos_list 0 = pos → pos ≠ 0 →
      direct_ref_hit H D kmer offset st =
        .ok (aux_loop (fun st _ pos => record_ref_hit st kmer pos offset)
          (D.ref_aux_table ref_hit.pos).pos_list cols 1
          (record_ref_hit st kmer pos offset))) ∧
    (∀ (snp_hit : snp_kmer_entry) (cols : Nat), snp_hit_of D kmer = some snp_hit →
      snp_hit.pos ≠ H.POS_AMBIGUOUS → snp_hit.ambig_flag ≠ H.FLAG_UNAMBIGUOUS →
      snp_hit.ambig_flag = H.FLAG_AMBIGUOUS → H.AUX_TABLE_COLS = cols + 1 →
      (D.snp_aux_table snp_hit.pos).pos_list 0 = pos → pos ≠ 0 →
      direct_snp_hit H D kmer offset st =
        .ok (aux_loop (fun st _ pos => record_snp_hit st kmer pos offset)
          (D.snp_aux_table snp_hit.pos).pos_list cols 1
          (record_snp_hit st kmer pos offset))) := by
  have hw := read_pos_of_wrap pos offset hlt hoff
  refine ⟨?_, ?_, ?_, ?_, ?_, ?_, ?_, ?_⟩
  · unfold record_ref_hit; rw [hw]
  · unfold record_snp_hit; rw [hw]
  · exact index_table_add_best_ne_none _ _
  · exact index_table_add_best_ne_none _ _
  · intro ref_hit hq hp hna hfl
    subst hp
    constructor
    · unfold direct_ref_hit
      rw [hq]
      simp only [ne_eq, hna, not_false_eq_true, if_true, hfl]
    · intro hr ha
      unfold neighbor_ref_hit
      rw [hq]
      simp only [ne_eq, hna, not_false_eq_true, if_true, hfl, true_and, hr, ha, and_self]
  · intro snp_hit hq hp hna hfl
    subst hp
    constructor
    · unfold direct_snp_hit
      rw [hq]
      simp only [ne_eq, hna, not_false_eq_true, if_true, hfl]
    · intro hd
      unfold neighbor_snp_hit
      rw [hq]
      simp only [ne_eq, hna, not_false_eq_true, if_true, hfl, true_and, hd]
  · intro ref_hit cols hq hna hnu hfl hc h0 hp0
    unfold direct_ref_hit
    rw [hq]
    simp only [ne_eq, hna, not_false_eq_true, if_true]
    rw [if_neg hnu, if_pos hfl, hc, aux_loop, if_neg (by rw [h0]; exact hp0), h0]
  · intro snp_hit cols hq hna hnu hfl hc h0 hp0
    unfold direct_snp_hit
    rw [hq]
    simp only [ne_eq, hna, not_false_eq_true, if_true]
    rw [if_neg hnu, if_pos hfl, hc, aux_loop, if_neg (by rw [h0]; exact hp0), h0]

theorem underflow_hit_is_recorded_witness :
    (100 < 128 ∧ 128 < 2 ^ 32) ∧
    record_ref_hit
        { index_table := empty_index_table, ref_hit_contexts := [], snp_hit_contexts := [] }
        0 100 128
      = { index_table := index_table_add empty_index_table (100 + 2 ^ 32 - 128),
          ref_hit_contexts := [{ kmer := 0, position := 100 + 2 ^ 32 - 128, kmer_pos := 100 }],
          snp_hit_contexts := [] } ∧
    (record_ref_hit
        { index_table := empty_index_table, ref_hit_contexts := [], snp_hit_contexts := [] }
        0 100 128).index_table.best ≠ none :=
  ⟨⟨by decide, by decide⟩,
    (underflow_hit_is_recorded example_header example_dicts example_pileup
        { index_table := empty_index_table, ref_hit_contexts := [], snp_hit_contexts := [] }
        0 100 128 0 (by decide) (by decide)).1,
    (underflow_hit_is_recorded example_header example_dicts example_pileup
        { index_table := empty_index_table, ref_hit_contexts := [], snp_hit_contexts := [] }
        0 100 128 0 (by decide) (by decide)).2.2.1⟩

/-! ### The voter between two reads -/

theorem foldl_preserves {α β : Type} (P : α → Prop) (f : α → β → α)
    (h : ∀ a x, P a → P (f a x)) (l : List β) : ∀ a, P a → P (l.foldl f a) := by
  induction l with
  | nil => intro a ha; exact ha
  | cons x l ih => intro a ha; exact ih _ (h a x ha)

theorem record_ref_hit_covered (st : ProbeState) (kmer pos offset : Nat)
    (h : st.covered) : (record_ref_hit st kmer pos offset).covered := by
  intro s hs
  by_cases he : read_pos_of pos offset % INDEX_TABLE_SLOT_COUNT = s
  · right
    refine ⟨{ kmer := kmer, position := read_pos_of pos offset, kmer_pos := pos }, ?_, he⟩
    simp [record_ref_hit]
  · rcases h s hs with h0 | ⟨c, hc, hcs⟩
    · left
      simp only [record_ref_hit]
      rw [index_table_add_table]
      unfold add_table
      rw [Function.update_noteq (Ne.symm he)]
      exact h0
    · right
      refine ⟨c, ?_, hcs⟩
      simp only [record_ref_hit]
      rcases List.mem_append.1 hc with h1 | h1
      · simp [h1]
      · simp [h1]

theorem record_snp_hit_covered (st : ProbeState) (kmer pos offset : Nat)
    (h : st.covered) : (record_snp_hit st kmer pos offset).covered := by
  intro s hs
  by_cases he : read_pos_of pos offset % INDEX_TABLE_SLOT_COUNT = s
  · right
    refine ⟨{ kmer := kmer, position := read_pos_of pos offset, kmer_pos := pos }, ?_, he⟩
    simp [record_snp_hit]
  · rcases h s hs with h0 | ⟨c, hc, hcs⟩
    · left
      simp only [record_snp_hit]
      rw [index_table_add_table]
      unfold add_table
      rw [Function.update_noteq (Ne.symm he)]
      exact h0
    · right
      refine ⟨c, ?_, hcs⟩
      simp only [record_snp_hit]
      rcases List.mem_append.1 hc with h1 | h1
      · simp [h1]
      · simp [h1]

theorem aux_loop_covered (body : ProbeState → Nat → Nat → ProbeState) (pos_list : Nat → Nat)
    (hb : ∀ st i pos, st.covered → (body st i pos).covered) :
    ∀ (cols i : Nat) (st : ProbeState), st.covered →
      (aux_loop body pos_list cols i st).covered := by
  intro cols
  induction cols with
  | zero => intro i st h; exact h
  | succ cols ih =>
    intro i st h
    unfold aux_loop
    split_ifs
    · exact h
    · exact ih _ _ (hb _ _ _ h)

theorem direct_ref_hit_covered (H : LavaH) (D : Dicts) (kmer offset : Nat)
    (st st1 : ProbeState) (h : st.covered)
    (hr : direct_ref_hit H D kmer offset st = .ok st1) : st1.covered := by
  unfold direct_ref_hit at hr
  split at hr
  · cases hr; exact h
  · split_ifs at hr
    · cases hr; exact record_ref_hit_covered _ _ _ _ h
    · cases hr
      exact aux_loop_covered _ _ (fun st _ pos hst => record_ref_hit_covered st _ pos _ hst)
        _ _ _ h
    · cases hr; exact h

theorem direct_snp_hit_covered (H : LavaH) (D : Dicts) (kmer offset : Nat)
    (st st1 : ProbeState) (h : st.covered)
    (hr : direct_snp_hit H D kmer offset st = .ok st1) : st1.covered := by
  unfold direct_snp_hit at hr
  split at hr
  · cases hr; exact h
  · split_ifs at hr
    · cases hr; exact record_snp_hit_covered _ _ _ _ h
    · cases hr
      exact aux_loop_covered _ _ (fun st _ pos hst => record_snp_hit_covered st _ pos _ hst)
        _ _ _ h
    · cases hr; exact h

theorem neighbor_ref_hit_covered (H : LavaH) (D : Dicts) (pileup_table : Nat → pileup_entry)
    (neighbor offset diff_base_pos : Nat) (st : ProbeState) (h : st.covered) :
    (neighbor_ref_hit H D pileup_table neighbor offset diff_base_pos st).covered := by
  have haux : ∀ pos_list : Nat → Nat,
      (aux_loop
        (fun st _ pos =>
          if (pileup_table ((pos + diff_base_pos) % 2 ^ 32)).ref = 0 ∧
              (pileup_table ((pos + diff_base_pos) % 2 ^ 32)).alt = 0 then
            record_ref_hit st neighbor pos offset
          else st)
        pos_list H.AUX_TABLE_COLS 0 st).covered := by
    intro pos_list
    apply aux_loop_covered _ _ _ _ _ _ h
    intro st i pos hst
    dsimp only
    split_ifs
    · exact record_ref_hit_covered _ _ _ _ hst
    · exact hst
  unfold neighbor_ref_hit
  split
  · exact h
  · simp only
    split_ifs
    all_goals first
      | exact h
      | exact record_ref_hit_covered _ _ _ _ h
      | exact haux _

theorem neighbor_snp_hit_covered (H : LavaH) (D : Dicts)
    (neighbor offset diff_base_pos : Nat) (st : ProbeState) (h : st.covered) :
    (neighbor_snp_hit H D neighbor offset diff_base_pos st).covered := by
  unfold neighbor_snp_hit
  split
  · exact h
  · split_ifs
    · exact record_snp_hit_covered _ _ _ _ h
    · apply aux_loop_covered _ _ _ _ _ _ h
      intro st i pos hst
      dsimp only
      split_ifs
      · exact record_snp_hit_covered _ _ _ _ hst
      · exact hst
    · exact h
    · exact h

theorem neighbor_loop_covered (H : LavaH) (D : Dicts) (pileup_table : Nat → pileup_entry)
    (kmer offset : Nat) (st : ProbeState) (h : st.covered) :
    (neighbor_loop H D pileup_table kmer offset st).covered := by
  unfold neighbor_loop
  apply foldl_preserves ProbeState.covered _ _ _ _ h
  intro st1 d h1
  dsimp only
  apply foldl_preserves ProbeState.covered _ _ _ _ h1
  intro st2 j h2
  dsimp only
  split_ifs
  · exact h2
  · exact neighbor_snp_hit_covered _ _ _ _ _ _ (neighbor_ref_hit_covered _ _ _ _ _ _ _ h2)

theorem probe_kmer_covered (H : LavaH) (D : Dicts) (pileup_table : Nat → pileup_entry)
    (i kmer : Nat) (st st1 : ProbeState) (h : st.covered)
    (hr : probe_kmer H D pileup_table i kmer st = .ok st1) : st1.covered := by
  unfold probe_kmer at hr
  simp only at hr
  split at hr
  · cases hr
  · next sa ha =>
    split at hr
    · cases hr
    · next sb hb =>
      cases hr
      exact neighbor_loop_covered _ _ _ _ _ _
        (direct_snp_hit_covered _ _ _ _ _ _ (direct_ref_hit_covered _ _ _ _ _ _ h ha) hb)

theorem probe_kmers_covered (H : LavaH) (D : Dicts) (pileup_table : Nat → pileup_entry)
    (kmers : List Nat) :
    ∀ (i : Nat) (st st1 : ProbeState), st.covered →
      probe_kmers H D pileup_table i kmers st = .ok st1 → st1.covered := by
  induction kmers with
  | nil => intro i st st1 h hr; cases hr; exact h
  | cons k rest ih =>
    intro i st st1 h hr
    unfold probe_kmers at hr
    split at hr
    · cases hr
    · next sa ha => exact ih _ _ _ (probe_kmer_covered _ _ _ _ _ _ _ h ha) hr

theorem walk_contexts_fst (H : LavaH) (process_read : Bool) (target_index : Nat)
    (contexts : List kmer_context) :
    ∀ (index_table : IndexTable) (pileup_table : Nat → pileup_entry),
      (walk_contexts H process_read target_index contexts index_table pileup_table).1
        = clear_indices index_table (contexts.map (fun c => c.position)) := by
  induction contexts with
  | nil => intro it pt; rfl
  | cons c rest ih =>
    intro it pt
    unfold walk_contexts clear_indices
    simp only [List.foldl_cons, List.map_cons]
    exact ih _ _

/-- The two walks of lines 702–794 leave every slot of the voter with count 0
when every non-empty slot is the slot of a recorded context. -/
theorem walks_clear_voter (H : LavaH) (st : ProbeState) (pileup_table : Nat → pileup_entry)
    (process_read : Bool) (target_index : Nat) (h : st.covered) (s : Nat)
    (hs : s < INDEX_TABLE_SLOT_COUNT) :
    (((walk_contexts H process_read target_index st.snp_hit_contexts
      (walk_contexts H process_read target_index st.ref_hit_contexts st.index_table
        pileup_table).1
      (walk_contexts H process_read target_index st.ref_hit_contexts st.index_table
        pileup_table).2).1).table s).count = 0 := by
  rw [walk_contexts_fst, walk_contexts_fst]
  unfold clear_indices
  rw [← List.foldl_append]
  apply (clear_index_fold _ _).2.2
  rcases h s hs with h0 | ⟨c, hc, hcs⟩
  · exact Or.inl h0
  · right
    refine ⟨c.position, ?_, hcs⟩
    rw [← List.map_append]
    exact List.mem_map_of_mem _ hc

theorem scan_from_head_voter (H : LavaH) (D : Dicts) (len : Nat) :
    ∀ (fuel : Nat) (revcompl : Bool) (read : List Char) (index_table : IndexTable)
      (pileup_table : Nat → pileup_entry) (passes : List PassRecord) (r : ReadResult),
      (∀ s, s < INDEX_TABLE_SLOT_COUNT → (index_table.table s).count = 0) →
      scan_from_head H D len fuel revcompl read index_table pileup_table passes = .ok r →
      r.index_table.best = none ∧ r.index_table.ambiguous = false ∧
      ∀ s, s < INDEX_TABLE_SLOT_COUNT → (r.index_table.table s).count = 0 := by
  intro fuel
  induction fuel with
  | zero => intro _ _ _ _ _ r _ h; cases h
  | succ fuel ih =>
    intro revcompl read index_table pileup_table passes r h0 h
    rw [scan_from_head] at h
    split at h
    · cases h
      exact ⟨rfl, rfl, h0⟩
    · split at h
      · cases h
        exact ⟨rfl, rfl, h0⟩
      · split at h
        · cases h
        · next st hst =>
          have hcov : st.covered :=
            probe_kmers_covered H D pileup_table _ 0
              { index_table := index_table, ref_hit_contexts := [], snp_hit_contexts := [] }
              st (fun s hs => Or.inl (h0 s hs)) hst
          have hw := walks_clear_voter H st pileup_table (process_read_of st.index_table)
            (target_index_of st.index_table) hcov
          dsimp only at h
          split_ifs at h
          · refine ih _ _ _ _ _ r ?_ h
            intro s hs
            exact hw s hs
          · cases h
            exact ⟨rfl, rfl, hw⟩

/-- C14. When every slot of the voter has count 0 before a read and the hits of
the read stay within the capacity of the hit context arrays and of the voter
slots, then the read either stops the program at the assertion of lines 547 and
578 or is handled to its end, and after it, along every path (processed on the
forward pass, retried reverse-complemented, or dropped at `nohit`), `best` is
null, `ambiguous` is false and every slot has count 0; so no count exceeds the
number of k-mers of the read. -/
theorem scan_read_leaves_voter_empty (H : LavaH) (D : Dicts) (read : List Char)
    (index_table : IndexTable) (pileup_table : Nat → pileup_entry)
    (hempty : ∀ s, s < INDEX_TABLE_SLOT_COUNT → (index_table.table s).count = 0)
    (_hcap : scan_within_capacity H D read index_table pileup_table) :
    scan_read H D read index_table pileup_table = .error .assertion ∨
    ∃ r, scan_read H D read index_table pileup_table = .ok r ∧
      r.index_table.best = none ∧ r.index_table.ambiguous = false ∧
      (∀ s, s < INDEX_TABLE_SLOT_COUNT → (r.index_table.table s).count = 0) ∧
      ∀ s, s < INDEX_TABLE_SLOT_COUNT → (r.index_table.table s).count ≤ read.length / 32 := by
  cases hr : scan_read H D read index_table pileup_table with
  | error e =>
    left
    cases e with
    | assertion => rfl
    | fuel => exact absurd hr (scan_read_fuel_suffices H D read index_table pileup_table)
  | ok r =>
    right
    obtain ⟨h1, h2, h3⟩ := scan_from_head_voter H D _ 2 false read index_table pileup_table [] r
      hempty hr
    exact ⟨r, rfl, h1, h2, h3, fun s hs => by rw [h3 s hs]; exact Nat.zero_le _⟩

theorem scan_read_leaves_voter_empty_witness :
    (∀ s, s < INDEX_TABLE_SLOT_COUNT → (empty_index_table.table s).count = 0) ∧
    scan_within_capacity example_header example_dicts example_read empty_index_table
      example_pileup ∧
    (scan_read example_header example_dicts example_read empty_index_table example_pileup
        = .error .assertion ∨
    ∃ r, scan_read example_header example_dicts example_read empty_index_table example_pileup
        = .ok r ∧
      r.index_table.best = none ∧ r.index_table.ambiguous = false ∧
      (∀ s, s < INDEX_TABLE_SLOT_COUNT → (r.index_table.table s).count = 0) ∧
      ∀ s, s < INDEX_TABLE_SLOT_COUNT →
        (r.index_table.table s).count ≤ example_read.length / 32) :=
  ⟨fun _ _ => rfl, by decide!,
    scan_read_leaves_voter_empty example_header example_dicts example_read empty_index_table
      example_pileup (fun _ _ => rfl) (by decide!)⟩

/-! ### The bounds of the pileup entries -/

theorem kmer_get_base_lt (kmer i : Nat) : kmer_get_base kmer i < 4 := by
  unfold kmer_get_base
  have := @Nat.and_le_right (kmer >>> (2 * i)) 3
  omega

theorem pileup_cover_in_bounds (H : LavaH) (hcov : H.MAX_COV ≤ 255) (p : pileup_entry)
    (base : Nat) (h : p.in_bounds H) : (pileup_cover H p base).in_bounds H := by
  obtain ⟨h1, h2, h3⟩ := h
  unfold pileup_cover
  split_ifs with a b c d e
  · refine ⟨h1, ?_, h3⟩
    dsimp only
    rw [Nat.mod_eq_of_lt (by omega)]
    omega
  · exact ⟨h1, h2, h3⟩
  · refine ⟨h1, h2, ?_⟩
    dsimp only
    rw [Nat.mod_eq_of_lt (by omega)]
    omega
  · exact ⟨h1, h2, h3⟩
  · exact ⟨h1, h2, h3⟩
  · exact ⟨h1, h2, h3⟩

theorem pileup_walk_in_bounds (H : LavaH) (hcov : H.MAX_COV ≤ 255) (size : Nat)
    (pileup_table : Nat → pileup_entry) (kmer kmer_pos : Nat)
    (h : ∀ i, i < size → (pileup_table i).in_bounds H) :
    ∀ i, i < size → (pileup_walk H pileup_table kmer kmer_pos i).in_bounds H := by
  unfold pileup_walk
  apply foldl_preserves (fun pt : Nat → pileup_entry => ∀ i, i < size → (pt i).in_bounds H)
    _ _ _ _ h
  intro pt j hpt i hi
  by_cases e : i = (kmer_pos + j) % 2 ^ 32
  · subst e
    rw [Function.update_same]
    exact pileup_cover_in_bounds H hcov _ _ (hpt _ hi)
  · rw [Function.update_noteq e]
    exact hpt i hi

theorem walk_contexts_in_bounds (H : LavaH) (hcov : H.MAX_COV ≤ 255) (size : Nat)
    (process_read : Bool) (target_index : Nat) (contexts : List kmer_context)
    (index_table : IndexTable) (pileup_table : Nat → pileup_entry)
    (h : ∀ i, i < size → (pileup_table i).in_bounds H) :
    ∀ i, i < size →
      ((walk_contexts H process_read target_index contexts index_table
        pileup_table).2 i).in_bounds H := by
  unfold walk_contexts
  apply foldl_preserves
    (fun acc : IndexTable × (Nat → pileup_entry) => ∀ i, i < size → (acc.2 i).in_bounds H)
    _ _ _ _ h
  intro acc c hacc
  dsimp only
  split_ifs
  · exact pileup_walk_in_bounds H hcov size _ _ _ hacc
  · exact hacc

theorem scan_from_head_in_bounds (H : LavaH) (D : Dicts) (hcov : H.MAX_COV ≤ 255)
    (size len : Nat) :
    ∀ (fuel : Nat) (revcompl : Bool) (read : List Char) (index_table : IndexTable)
      (pileup_table : Nat → pileup_entry) (passes : List PassRecord) (r : ReadResult),
      (∀ i, i < size → (pileup_table i).in_bounds H) →
      scan_from_head H D len fuel revcompl read index_table pileup_table passes = .ok r →
      ∀ i, i < size → (r.pileup_table i).in_bounds H := by
  intro fuel
  induction fuel with
  | zero => intro _ _ _ _ _ r _ h; cases h
  | succ fuel ih =>
    intro revcompl read index_table pileup_table passes r h0 h
    rw [scan_from_head] at h
    split at h
    · cases h
      exact h0
    · split at h
      · cases h
        exact h0
      · split at h
        · cases h
        · next st hst =>
          have hw := walk_contexts_in_bounds H hcov size (process_read_of st.index_table)
            (target_index_of st.index_table) st.snp_hit_contexts
            (walk_contexts H (process_read_of st.index_table) (target_index_of st.index_table)
              st.ref_hit_contexts st.index_table pileup_table).1 _
            (walk_contexts_in_bounds H hcov size (process_read_of st.index_table)
              (target_index_of st.index_table) st.ref_hit_contexts st.index_table
              pileup_table h0)
          dsimp only at h
          split_ifs at h
          · refine ih _ _ _ _ _ r ?_ h
            exact hw
          · cases h
            exact hw

theorem scan_reads_in_bounds (H : LavaH) (D : Dicts) (hcov : H.MAX_COV ≤ 255) (size : Nat)
    (reads : List (List Char)) :
    ∀ (index_table : IndexTable) (pileup_table : Nat → pileup_entry)
      (r : IndexTable × (Nat → pileup_entry)),
      (∀ i, i < size → (pileup_table i).in_bounds H) →
      scan_reads H D reads index_table pileup_table = .ok r →
      ∀ i, i < size → (r.2 i).in_bounds H := by
  induction reads with
  | nil => intro it pt r h0 h; cases h; exact h0
  | cons read rest ih =>
    intro it pt r h0 h
    unfold scan_reads at h
    split at h
    · cases h
    · next r1 h1 =>
      exact ih _ _ r (scan_from_head_in_bounds H D hcov size _ 2 false read it pt [] r1 h0 h1) h

theorem snp_expected_in_bounds (H : LavaH)
    (href : ∀ s, H.SNP_INFO_REF s &&& H.BASE_N = 0 → H.SNP_INFO_REF s < 4)
    (file : List snp_file_entry) (s : Nat) :
    (snp_expected H file s pileup_zero).in_bounds H := by
  unfold snp_expected
  split
  · next e he =>
    have hq := List.find?_some he
    simp only [decide_eq_true_eq] at hq
    refine ⟨fun _ => ⟨href _ hq.1.1, kmer_get_base_lt _ _⟩, ?_, ?_⟩
    · exact Nat.zero_le _
    · exact Nat.zero_le _
  · exact ⟨fun h => absurd rfl h, Nat.zero_le _, Nat.zero_le _⟩

/-- Without growth of the pileup table the bounds hold: when `MAX_COV` fits the
8-bit counters, the header's test `(SNP_INFO_REF(snp) & BASE_N) == 0` admits only
the base codes `0..3`, and every SNP position of the dictionary lies inside the
table as allocated, then after loading, and after scanning any sequence of
reads against any dictionaries, every pileup entry is within its bounds. -/
theorem pileup_bounds_without_growth (H : LavaH) (D : Dicts) (jumpgate0 : Nat → Nat)
    (heap : Nat → pileup_entry) (max_pos : Nat) (file : List snp_file_entry)
    (reads : List (List Char)) (index_table : IndexTable)
    (hcov : H.MAX_COV ≤ 255)
    (href : ∀ s, H.SNP_INFO_REF s &&& H.BASE_N = 0 → H.SNP_INFO_REF s < 4)
    (hlen : file.length ≤ 2 ^ 32)
    (hfit : ∀ e ∈ file, snp_qualifies H e → snp_pos_of H e < max_pos + 32 + 1) :
    ∃ d, load_snp_dict H jumpgate0 (pileup_init heap max_pos) file = some d ∧
      d.pileup.pileup_size = max_pos + 32 + 1 ∧
      (∀ i, i < d.pileup.pileup_size → (d.pileup.pileup_table i).in_bounds H) ∧
      ∀ r, scan_reads H D reads index_table d.pileup.pileup_table = .ok r →
        ∀ i, i < d.pileup.pileup_size → (r.2 i).in_bounds H := by
  obtain ⟨d, hd, hsize, htab⟩ :=
    snp_pileup_without_growth H jumpgate0 heap max_pos file hlen hfit
  have hb : ∀ i, i < d.pileup.pileup_size → (d.pileup.pileup_table i).in_bounds H := by
    intro i hi
    rw [htab i (by omega)]
    exact snp_expected_in_bounds H href file i
  exact ⟨d, hd, hsize, hb, fun r hr => scan_reads_in_bounds H D hcov _ reads _ _ r hb hr⟩

/-- C16, the bounds fail when the pileup table has to grow.  The reference
dictionary's largest position is 7, so the table is allocated with 40 zeroed
entries; the SNP entry of `growth_snp_file` lies at position 40.  The block is
reallocated to 41 entries and nothing zeroes entry 40: with memory that reads
`ref_cnt = 200` there, entry 40 has `ref = 1`, `alt = 0` and `ref_cnt = 200`,
above `MAX_COV = 64`.  `pileup_size` becomes the byte size 246, so that entry
100 counts as a pileup entry too: it is memory behind the block, here with
`ref = 7` and `alt = 5`.  Scanning no read leaves the table as it is. -/
theorem pileup_bounds_fail_after_growth :
    ∃ d, load_snp_dict example_header (fun _ => 0) (pileup_init junk_heap 7) growth_snp_file
        = some d ∧
      d.pileup.allocated = 41 ∧ d.pileup.pileup_size = 246 ∧
      d.pileup.pileup_table 40 =
        { ref := 1, alt := 0, ref_freq := 200, alt_freq := 55, ref_cnt := 200, alt_cnt := 0 } ∧
      example_header.MAX_COV = 64 ∧
      ¬ (d.pileup.pileup_table 40).in_bounds example_header ∧
      d.pileup.pileup_table 100 =
        { ref := 7, alt := 5, ref_freq := 0, alt_freq := 0, ref_cnt := 200, alt_cnt := 0 } ∧
      ¬ (d.pileup.pileup_table 100).in_bounds example_header ∧
      scan_reads example_header example_dicts [] empty_index_table d.pileup.pileup_table
        = .ok (empty_index_table, d.pileup.pileup_table) := by
  refine ⟨_, rfl, rfl, rfl, rfl, rfl, ?_, rfl, ?_, rfl⟩
  · decide
  · decide

theorem pileup_bounds_without_growth_example :
    ∃ d, load_snp_dict example_header (fun _ => 0) (pileup_init junk_heap 132)
        example_snp_file = some d ∧
      d.pileup.pileup_size = 132 + 32 + 1 ∧
      (∀ i, i < d.pileup.pileup_size → (d.pileup.pileup_table i).in_bounds example_header) ∧
      ∀ r, scan_reads example_header example_dicts [example_read, underflow_read]
          empty_index_table d.pileup.pileup_table = .ok r →
        ∀ i, i < d.pileup.pileup_size → (r.2 i).in_bounds example_header :=
  pileup_bounds_without_growth example_header example_dicts (fun _ => 0) junk_heap 132
    example_snp_file [example_read, underflow_read] empty_index_table (by decide)
    (by
      intro s hs
      have h8 : s % 8 < 8 := Nat.mod_lt _ (by decide)
      show s % 8 < 4
      have hs1 : s % 8 &&& 4 = 0 := hs
      generalize s % 8 = x at h8 hs1
      interval_cases x <;> simp_all)
    (by decide) (by decide)

/-! ### The size of the pileup table -/

/-- C17, pileup indices outside the table.  The reference dictionary
`aux_ref_file` has two ambiguous entries, whose `pos` fields are the aux rows 0
and 1, so `max_pos = 1` and the pileup table is allocated with 34 entries; the
SNP dictionary is empty.  The aux rows place the k-mers at the positions 1000
and 1032.  The example read is placed at position 1000 on its forward pass, and
the walk counts the memory entries 1000 to 1063, which lie behind the end of the
table. -/
theorem pileup_walk_outside_table :
    ∃ L, load_dictionaries example_header site_heap (fun _ => 0) (fun _ => 0)
        (fun _ => { pos_list := fun _ => 0 })
        (fun _ => { pos_list := fun _ => 0, snp_list := fun _ => 0 })
        aux_ref_file aux_ref_rows [] [] = some L ∧
      L.pileup.allocated = 34 ∧ L.pileup.pileup_size = 34 ∧
      L.pileup.pileup_table 1000 = site_heap 1000 ∧
      L.pileup.pileup_table 1063 = site_heap 1063 ∧
      (match scan_read example_header L.dicts example_read empty_index_table
          L.pileup.pileup_table with
        | .ok r => some (r.passes, r.pileup_table 1000, r.pileup_table 1063)
        | .error _ => none)
        = some ([{ revcompl := false, probed := true, processed := true }],
            { ref := 0, alt := 1, ref_freq := 0, alt_freq := 0, ref_cnt := 1, alt_cnt := 0 },
            { ref := 0, alt := 1, ref_freq := 0, alt_freq := 0, ref_cnt := 0, alt_cnt := 1 }) := by
  refine ⟨_, rfl, rfl, rfl, rfl, rfl, ?_⟩
  decide!

theorem max_pos_fold_ge (file : List ref_file_entry) :
    ∀ m : Nat, m ≤ file.foldl (fun m e => if e.pos > m then e.pos else m) m ∧
      ∀ e ∈ file, e.pos ≤ file.foldl (fun m e => if e.pos > m then e.pos else m) m := by
  induction file with
  | nil => intro m; exact ⟨le_refl _, fun e he => by cases he⟩
  | cons a rest ih =>
    intro m
    simp only [List.foldl_cons]
    obtain ⟨h1, h2⟩ := ih (if a.pos > m then a.pos else m)
    generalize rest.foldl (fun m e => if e.pos > m then e.pos else m)
      (if a.pos > m then a.pos else m) = x at h1 h2 ⊢
    constructor
    · split_ifs at h1 <;> omega
    · intro e he
      rcases List.mem_cons.1 he with h | h
      · subst h
        split_ifs at h1 <;> omega
      · exact h2 e h

theorem snp_pileup_step_allocated (H : LavaH) (hsz : 1 ≤ H.sizeof_pileup_entry)
    (st : PileupState) (e : snp_file_entry) (h : st.allocated ≤ st.pileup_size) :
    st.allocated ≤ (snp_pileup_step H st e).allocated ∧
    (snp_pileup_step H st e).allocated ≤ (snp_pileup_step H st e).pileup_size := by
  unfold snp_pileup_step
  dsimp only
  split_ifs with h1 h2
  · dsimp only
    refine ⟨by omega, ?_⟩
    exact Nat.le_mul_of_pos_right _ hsz
  · exact ⟨le_refl _, h⟩
  · exact ⟨le_refl _, h⟩

theorem snp_pileup_fold_allocated (H : LavaH) (hsz : 1 ≤ H.sizeof_pileup_entry)
    (file : List snp_file_entry) :
    ∀ st : PileupState, st.allocated ≤ st.pileup_size →
      st.allocated ≤ (file.foldl (snp_pileup_step H) st).allocated := by
  induction file with
  | nil => intro st _; exact le_refl _
  | cons e rest ih =>
    intro st h
    obtain ⟨h1, h2⟩ := snp_pileup_step_allocated H hsz st e h
    simp only [List.foldl_cons]
    exact le_trans h1 (ih _ h2)

/-- What the loader does guarantee: the pileup block holds at least
`pos + 32 + 1` entries for the `pos` field of every entry of the reference
dictionary, and nothing is guaranteed for positions that only occur in an aux
row or in the SNP dictionary. -/
theorem pileup_covers_ref_entries (H : LavaH) (heap : Nat → pileup_entry)
    (ref_jumpgate0 snp_jumpgate0 : Nat → Nat)
    (ref_aux0 : Nat → aux_table) (snp_aux0 : Nat → snp_aux_table)
    (ref_file : List ref_file_entry) (ref_aux_rows : List aux_table)
    (snp_file : List snp_file_entry) (snp_aux_rows : List snp_aux_table) (L : Loaded)
    (hsz : 1 ≤ H.sizeof_pileup_entry)
    (hL : load_dictionaries H heap ref_jumpgate0 snp_jumpgate0 ref_aux0 snp_aux0 ref_file
      ref_aux_rows snp_file snp_aux_rows = some L) :
    ∀ e ∈ ref_file, e.pos + 32 + 1 ≤ L.pileup.allocated := by
  unfold load_dictionaries at hL
  unfold load_ref_dict load_snp_dict at hL
  split_ifs at hL with h1 h2
  simp only [Option.some.injEq] at hL
  subst hL
  intro e he
  dsimp only
  have hm := (max_pos_fold_ge ref_file 0).2 e he
  have ha := snp_pileup_fold_allocated H hsz snp_file
    (pileup_init heap (ref_file.foldl (fun m e => if e.pos > m then e.pos else m) 0))
    (le_refl _)
  have hi : (pileup_init heap
      (ref_file.foldl (fun m e => if e.pos > m then e.pos else m) 0)).allocated
      = ref_file.foldl (fun m e => if e.pos > m then e.pos else m) 0 + 32 + 1 := rfl
  omega

/-- The growth of lines 329–332 stops at the SNP site: with a reference
dictionary whose largest position is 7 and the SNP entry of `growth_snp_file`
at position 40, the block holds 41 entries after loading, fewer than the
`40 + 32 + 1` that a k-mer placed at position 40 needs. -/
theorem pileup_growth_too_small (heap : Nat → pileup_entry) :
    ∃ L, load_dictionaries example_header heap (fun _ => 0) (fun _ => 0)
        (fun _ => { pos_list := fun _ => 0 })
        (fun _ => { pos_list := fun _ => 0, snp_list := fun _ => 0 })
        [{ kmer := 1, pos := 7, ambig_flag := 0 }] [] growth_snp_file [] = some L ∧
      L.pileup.allocated = 41 ∧ L.pileup.allocated < 40 + 32 + 1 ∧
      L.dicts.snp_dict = [{ kmer_lo40 := 0, pos := 40, snp := 1, ambig_flag := 0 }] :=
  ⟨_, rfl, rfl, (by show 41 < 40 + 32 + 1; decide), rfl⟩

/-! ### The neighbours of a k-mer -/

theorem testBit_three (c : Nat) : Nat.testBit 3 c = decide (c < 2) := by
  have := Nat.testBit_two_pow_sub_one 2 c
  simpa using this

theorem testBit_lt_four (j : Nat) (hj : j < 4) (c : Nat) (hc : 2 ≤ c) :
    Nat.testBit j c = false := by
  apply Nat.testBit_lt_two_pow
  calc j < 2 ^ 2 := hj
    _ ≤ 2 ^ c := Nat.pow_le_pow_right (by decide) hc

theorem testBit_kmer_get_base (x e c : Nat) :
    (kmer_get_base x e).testBit c = (x.testBit (2 * e + c) && decide (c < 2)) := by
  unfold kmer_get_base
  rw [Nat.testBit_and, Nat.testBit_shiftRight, testBit_three]

theorem loop_base_eq (kmer d : Nat) :
    (kmer &&& (3 <<< (2 * d))) >>> (2 * d) = kmer_get_base kmer d := by
  apply Nat.eq_of_testBit_eq
  intro c
  rw [testBit_kmer_get_base, Nat.testBit_shiftRight, Nat.testBit_and, Nat.testBit_shiftLeft,
    testBit_three]
  have : 2 * d + c - 2 * d = c := by omega
  rw [this]
  simp

theorem testBit_mask (d : Nat) (hd : d < 32) (b : Nat) :
    (2 ^ 64 - 1 - (3 <<< (2 * d))).testBit b
      = (decide (b < 64) && !(decide (b = 2 * d) || decide (b = 2 * d + 1))) := by
  have hlt : 3 <<< (2 * d) < 2 ^ 64 := by
    rw [Nat.shiftLeft_eq]
    calc 3 * 2 ^ (2 * d) < 4 * 2 ^ (2 * d) :=
          Nat.mul_lt_mul_of_pos_right (by decide) (Nat.two_pow_pos _)
      _ = 2 ^ (2 * d + 2) := by rw [pow_succ, pow_succ]; ring
      _ ≤ 2 ^ 64 := Nat.pow_le_pow_right (by decide) (by omega)
  have e : 2 ^ 64 - 1 - (3 <<< (2 * d)) = 2 ^ 64 - (3 <<< (2 * d) + 1) := by omega
  rw [e, Nat.testBit_two_pow_sub_succ hlt, Nat.testBit_shiftLeft, testBit_three]
  by_cases h1 : b < 64 <;> by_cases h2 : b ≥ 2 * d <;> by_cases h3 : b - 2 * d < 2 <;>
    simp [h1, h2, h3] <;> omega

theorem testBit_neighbor_of (kmer d j : Nat) (hd : d < 32) (hj : j < 4) (b : Nat) :
    (neighbor_of kmer (2 * d) j).testBit b
      = if b = 2 * d then j.testBit 0
        else if b = 2 * d + 1 then j.testBit 1
        else (kmer.testBit b && decide (b < 64)) := by
  unfold neighbor_of
  rw [Nat.testBit_or, Nat.testBit_and, testBit_mask d hd, Nat.testBit_shiftLeft]
  by_cases h1 : b = 2 * d
  · subst h1
    simp
  · rw [if_neg h1]
    by_cases h2 : b = 2 * d + 1
    · subst h2
      simp
    · rw [if_neg h2]
      by_cases h3 : b ≥ 2 * d
      · have : j.testBit (b - 2 * d) = false := testBit_lt_four j hj _ (by omega)
        simp [h1, h2, this]
      · simp [h1, h2, h3]

theorem neighbor_of_lt (kmer d j : Nat) (hd : d < 32) (hj : j < 4) :
    neighbor_of kmer (2 * d) j < 2 ^ 64 := by
  apply Nat.lt_pow_two_of_testBit
  intro b hb
  rw [testBit_neighbor_of kmer d j hd hj, if_neg (by omega), if_neg (by omega)]
  simp
  omega

theorem kmer_get_base_neighbor_same (kmer d j : Nat) (hd : d < 32) (hj : j < 4) :
    kmer_get_base (neighbor_of kmer (2 * d) j) d = j := by
  apply Nat.eq_of_testBit_eq
  intro c
  rw [testBit_kmer_get_base, testBit_neighbor_of kmer d j hd hj]
  by_cases h0 : c = 0
  · subst h0; simp
  · by_cases h1 : c = 1
    · subst h1; simp
    · rw [if_neg (by omega), if_neg (by omega)]
      have : ¬ c < 2 := by omega
      simp [this, testBit_lt_four j hj c (by omega)]

theorem kmer_get_base_neighbor_other (kmer d j e : Nat) (hd : d < 32) (hj : j < 4)
    (he : e < 32) (hne : e ≠ d) :
    kmer_get_base (neighbor_of kmer (2 * d) j) e = kmer_get_base kmer e := by
  apply Nat.eq_of_testBit_eq
  intro c
  rw [testBit_kmer_get_base, testBit_kmer_get_base, testBit_neighbor_of kmer d j hd hj]
  by_cases hc : c < 2
  · rw [if_neg (by omega), if_neg (by omega)]
    have : 2 * e + c < 64 := by omega
    simp [this]
  · simp [hc]

/-- Two 64-bit values with the same 32 bases are equal. -/
theorem eq_of_bases_eq (x y : Nat) (hx : x < 2 ^ 64) (hy : y < 2 ^ 64)
    (h : ∀ e, e < 32 → kmer_get_base x e = kmer_get_base y e) : x = y := by
  apply Nat.eq_of_testBit_eq
  intro b
  by_cases hb : b < 64
  · have := congrArg (fun v => Nat.testBit v (b % 2)) (h (b / 2) (by omega))
    simp only [testBit_kmer_get_base] at this
    have e : 2 * (b / 2) + b % 2 = b := by omega
    rw [e] at this
    have h2 : b % 2 < 2 := Nat.mod_lt _ (by decide)
    simpa [h2] using this
  · have h1 : x.testBit b = false := Nat.testBit_lt_two_pow
      (lt_of_lt_of_le hx (Nat.pow_le_pow_right (by decide) (by omega)))
    have h2 : y.testBit b = false := Nat.testBit_lt_two_pow
      (lt_of_lt_of_le hy (Nat.pow_le_pow_right (by decide) (by omega)))
    rw [h1, h2]

theorem foldl_skip {α : Type} (g : α → Nat → α) (b : Nat) (l : List Nat) :
    ∀ a : α, l.foldl (fun a j => if j = b then a else g a j) a
      = (l.filter (fun j => decide (j ≠ b))).foldl g a := by
  induction l with
  | nil => intro a; rfl
  | cons x l ih =>
    intro a
    by_cases h : x = b
    · simp only [List.foldl_cons, h, if_true]
      rw [List.filter_cons_of_neg (by simp)]
      exact ih a
    · simp only [List.foldl_cons, if_neg h]
      rw [List.filter_cons_of_pos (by simpa using h), List.foldl_cons]
      exact ih _

theorem foldl_flatMap_eq {α β γ : Type} (g : α → γ → α) (f : β → List γ) (l : List β) :
    ∀ a : α, l.foldl (fun a d => (f d).foldl g a) a = (l.flatMap f).foldl g a := by
  induction l with
  | nil => intro a; rfl
  | cons x l ih =>
    intro a
    rw [List.foldl_cons, List.flatMap_cons, List.foldl_append]
    exact ih _

/-- The neighbour loop probes the values of `neighbors`, in their order. -/
theorem neighbor_loop_eq_foldl (H : LavaH) (D : Dicts) (pileup_table : Nat → pileup_entry)
    (kmer offset : Nat) (st : ProbeState) :
    neighbor_loop H D pileup_table kmer offset st
      = (neighbors kmer).foldl
          (fun st p =>
            neighbor_snp_hit H D p.2 offset p.1
              (neighbor_ref_hit H D pileup_table p.2 offset p.1 st))
          st := by
  unfold neighbor_loop neighbors
  rw [← foldl_flatMap_eq]
  congr 1
  funext st1 d
  dsimp only
  rw [foldl_skip, List.foldl_map]

theorem mem_neighbors (kmer d n : Nat) :
    (d, n) ∈ neighbors kmer ↔
      d < 32 ∧ ∃ j, j < 4 ∧ j ≠ kmer_get_base kmer d ∧ n = neighbor_of kmer (2 * d) j := by
  unfold neighbors
  simp only [List.mem_flatMap, List.mem_range, List.mem_map, List.mem_filter, loop_base_eq,
    decide_eq_true_eq, Prod.mk.injEq]
  constructor
  · rintro ⟨d1, hd1, j, ⟨hj, hne⟩, hd, hn⟩
    have e : d1 = d := by omega
    subst e
    exact ⟨hd1, j, hj, hne, hn.symm⟩
  · rintro ⟨hd, j, hj, hne, hn⟩
    exact ⟨d, hd, j, ⟨hj, hne⟩, by omega, hn.symm⟩

theorem filter_ne_length (b : Nat) (hb : b < 4) :
    ((List.range 4).filter (fun j => decide (j ≠ b))).length = 3 := by
  interval_cases b <;> rfl

theorem neighbors_length (kmer : Nat) : (neighbors kmer).length = 96 := by
  unfold neighbors
  rw [List.length_flatMap]
  have : (List.map (List.length ∘ fun d =>
      ((List.range 4).filter (fun j => decide (j ≠ (kmer &&& (3 <<< (2 * d))) >>> (2 * d)))).map
        (fun j => (2 * d / 2, neighbor_of kmer (2 * d) j))) (List.range 32))
      = List.map (fun _ => 3) (List.range 32) := by
    apply List.map_congr_left
    intro d _
    simp only [Function.comp, List.length_map]
    rw [loop_base_eq]
    exact filter_ne_length _ (kmer_get_base_lt kmer d)
  rw [this]
  rfl

theorem neighbors_values_nodup (kmer : Nat) : ((neighbors kmer).map (fun p => p.2)).Nodup := by
  unfold neighbors
  rw [List.map_flatMap, List.nodup_flatMap]
  constructor
  · intro d hd
    have hd1 := List.mem_range.1 hd
    rw [List.map_map]
    apply List.Nodup.map_on
    · intro x hx y hy hxy
      have hx4 : x < 4 := List.mem_range.1 (List.mem_filter.1 hx).1
      have hy4 : y < 4 := List.mem_range.1 (List.mem_filter.1 hy).1
      have := congrArg (fun v => kmer_get_base v d) hxy
      simp only [Function.comp] at this
      rw [kmer_get_base_neighbor_same kmer d x hd1 hx4,
        kmer_get_base_neighbor_same kmer d y hd1 hy4] at this
      exact this
    · exact (List.nodup_range 4).filter _
  · have hp : (List.range 32).Pairwise (· ≠ ·) := List.nodup_range 32
    refine List.Pairwise.imp_of_mem ?_ hp
    intro d1 d2 h1 h2 hne
    have hd1 := List.mem_range.1 h1
    have hd2 := List.mem_range.1 h2
    simp only [Function.onFun]
    intro n hn1 hn2
    simp only [List.map_map, List.mem_map, List.mem_filter, List.mem_range, Function.comp,
      decide_eq_true_eq, loop_base_eq] at hn1 hn2
    obtain ⟨j1, ⟨hj1, hb1⟩, e1⟩ := hn1
    obtain ⟨j2, ⟨hj2, _⟩, e2⟩ := hn2
    have a1 := kmer_get_base_neighbor_same kmer d1 j1 hd1 hj1
    have a2 := kmer_get_base_neighbor_other kmer d2 j2 d1 hd2 hj2 hd1 hne
    rw [e1] at a1
    rw [e2] at a2
    exact hb1 (by rw [← a1, a2])

/-- C20. For every k-mer the neighbour loop probes the values of
`neighbors`, which are exactly 96; they are pairwise distinct; each is a 64-bit
value other than the k-mer that differs from it in the base at the
`diff_base_pos` reported with it and in no other of the 32 bases; and every
64-bit value that differs from the k-mer in exactly one base is among them,
with that base as its `diff_base_pos`, exactly once. -/
theorem neighbor_loop_enumerates (H : LavaH) (D : Dicts) (pileup_table : Nat → pileup_entry)
    (kmer offset : Nat) (st : ProbeState) :
    neighbor_loop H D pileup_table kmer offset st
      = (neighbors kmer).foldl
          (fun st p =>
            neighbor_snp_hit H D p.2 offset p.1
              (neighbor_ref_hit H D pileup_table p.2 offset p.1 st))
          st ∧
    (neighbors kmer).length = 96 ∧
    ((neighbors kmer).map (fun p => p.2)).Nodup ∧
    (∀ p ∈ neighbors kmer,
      p.1 < 32 ∧ p.2 < 2 ^ 64 ∧ p.2 ≠ kmer ∧
      kmer_get_base p.2 p.1 ≠ kmer_get_base kmer p.1 ∧
      ∀ e, e < 32 → e ≠ p.1 → kmer_get_base p.2 e = kmer_get_base kmer e) ∧
    (∀ n d, n < 2 ^ 64 → d < 32 → kmer_get_base n d ≠ kmer_get_base kmer d →
      (∀ e, e < 32 → e ≠ d → kmer_get_base n e = kmer_get_base kmer e) →
      (d, n) ∈ neighbors kmer ∧ ((neighbors kmer).map (fun p => p.2)).count n = 1) := by
  refine ⟨neighbor_loop_eq_foldl H D pileup_table kmer offset st, neighbors_length kmer,
    neighbors_values_nodup kmer, ?_, ?_⟩
  · rintro ⟨d, n⟩ hp
    obtain ⟨hd, j, hj, hne, hn⟩ := (mem_neighbors kmer d n).1 hp
    subst hn
    have hsame := kmer_get_base_neighbor_same kmer d j hd hj
    refine ⟨hd, neighbor_of_lt kmer d j hd hj, ?_, ?_, ?_⟩
    · intro heq
      dsimp only at heq
      rw [heq] at hsame
      exact hne hsame.symm
    · dsimp only
      rw [hsame]
      exact hne
    · intro e he hed
      exact kmer_get_base_neighbor_other kmer d j e hd hj he hed
  · intro n d hn hd hdiff hsame
    have hj : kmer_get_base n d < 4 := kmer_get_base_lt n d
    have hmem : (d, n) ∈ neighbors kmer := by
      rw [mem_neighbors]
      refine ⟨hd, kmer_get_base n d, hj, hdiff, ?_⟩
      apply eq_of_bases_eq n _ hn (neighbor_of_lt kmer d _ hd hj)
      intro e he
      by_cases hed : e = d
      · subst hed
        rw [kmer_get_base_neighbor_same kmer e _ hd hj]
      · rw [kmer_get_base_neighbor_other kmer d _ e hd hj he hed]
        exact hsame e he hed
    refine ⟨hmem, ?_⟩
    apply List.count_eq_one_of_mem (neighbors_values_nodup kmer)
    exact List.mem_map.2 ⟨(d, n), hmem, rfl⟩

/-! ### The order of the strict comparisons -/

/-- C25. Outside the short circuit, with `P0`, `P1`, `P2` the three joint values:
the caller returns `GTYPE_REF` exactly when `P0 > P1` and `P0 > P2`; it returns
`GTYPE_HET` exactly when that fails and `P1 > P0` and `P1 > P2`; it returns
`GTYPE_ALT` in every remaining case, in particular when the three values are
equal. -/
theorem choose_best_genotype_strict_tests {F D : Type} [LinearOrder F] (H : LavaH)
    (A : CallerArith F D) (ref_cnt alt_cnt ref_freq_enc alt_freq_enc : Nat)
    (hs : ¬ short_circuited H ref_cnt alt_cnt) :
    ((choose_best_genotype H A ref_cnt alt_cnt ref_freq_enc alt_freq_enc).genotype
        = Genotype.GTYPE_REF ↔
      (joint_values A ref_cnt alt_cnt ref_freq_enc alt_freq_enc).1
          > (joint_values A ref_cnt alt_cnt ref_freq_enc alt_freq_enc).2.1 ∧
        (joint_values A ref_cnt alt_cnt ref_freq_enc alt_freq_enc).1
          > (joint_values A ref_cnt alt_cnt ref_freq_enc alt_freq_enc).2.2) ∧
    ((choose_best_genotype H A ref_cnt alt_cnt ref_freq_enc alt_freq_enc).genotype
        = Genotype.GTYPE_HET ↔
      ¬ ((joint_values A ref_cnt alt_cnt ref_freq_enc alt_freq_enc).1
          > (joint_values A ref_cnt alt_cnt ref_freq_enc alt_freq_enc).2.1 ∧
        (joint_values A ref_cnt alt_cnt ref_freq_enc alt_freq_enc).1
          > (joint_values A ref_cnt alt_cnt ref_freq_enc alt_freq_enc).2.2) ∧
      (joint_values A ref_cnt alt_cnt ref_freq_enc alt_freq_enc).2.1
          > (joint_values A ref_cnt alt_cnt ref_freq_enc alt_freq_enc).1 ∧
        (joint_values A ref_cnt alt_cnt ref_freq_enc alt_freq_enc).2.1
          > (joint_values A ref_cnt alt_cnt ref_freq_enc alt_freq_enc).2.2) ∧
    ((choose_best_genotype H A ref_cnt alt_cnt ref_freq_enc alt_freq_enc).genotype
        = Genotype.GTYPE_ALT ↔
      ¬ ((joint_values A ref_cnt alt_cnt ref_freq_enc alt_freq_enc).1
          > (joint_values A ref_cnt alt_cnt ref_freq_enc alt_freq_enc).2.1 ∧
        (joint_values A ref_cnt alt_cnt ref_freq_enc alt_freq_enc).1
          > (joint_values A ref_cnt alt_cnt ref_freq_enc alt_freq_enc).2.2) ∧
      ¬ ((joint_values A ref_cnt alt_cnt ref_freq_enc alt_freq_enc).2.1
          > (joint_values A ref_cnt alt_cnt ref_freq_enc alt_freq_enc).1 ∧
        (joint_values A ref_cnt alt_cnt ref_freq_enc alt_freq_enc).2.1
          > (joint_values A ref_cnt alt_cnt ref_freq_enc alt_freq_enc).2.2)) ∧
    ((joint_values A ref_cnt alt_cnt ref_freq_enc alt_freq_enc).1
        = (joint_values A ref_cnt alt_cnt ref_freq_enc alt_freq_enc).2.1 →
      (joint_values A ref_cnt alt_cnt ref_freq_enc alt_freq_enc).2.1
        = (joint_values A ref_cnt alt_cnt ref_freq_enc alt_freq_enc).2.2 →
      (choose_best_genotype H A ref_cnt alt_cnt ref_freq_enc alt_freq_enc).genotype
        = Genotype.GTYPE_ALT) := by
  rw [choose_best_genotype_branch H A ref_cnt alt_cnt ref_freq_enc alt_freq_enc hs]
  generalize joint_values A ref_cnt alt_cnt ref_freq_enc alt_freq_enc = P
  obtain ⟨p0, p1, p2⟩ := P
  simp only [gt_iff_lt]
  by_cases c1 : p1 < p0 ∧ p2 < p0
  · rw [if_pos c1]
    refine ⟨⟨fun _ => c1, fun _ => rfl⟩, ⟨fun h => (by cases h), fun h => absurd c1 h.1⟩,
      ⟨fun h => (by cases h), fun h => absurd c1 h.1⟩, ?_⟩
    intro h01 _
    rw [h01] at c1
    exact absurd c1.1 (lt_irrefl _)
  · rw [if_neg c1]
    by_cases c2 : p0 < p1 ∧ p2 < p1
    · rw [if_pos c2]
      refine ⟨⟨fun h => (by cases h), fun h => absurd h c1⟩, ⟨fun _ => ⟨c1, c2⟩, fun _ => rfl⟩,
        ⟨fun h => (by cases h), fun h => absurd c2 h.2⟩, ?_⟩
      intro h01 _
      rw [h01] at c2
      exact absurd c2.1 (lt_irrefl _)
    · rw [if_neg c2]
      exact ⟨⟨fun h => (by cases h), fun h => absurd h c1⟩,
        ⟨fun h => (by cases h), fun h => absurd h.2 c2⟩,
        ⟨fun _ => ⟨c1, c2⟩, fun _ => rfl⟩, fun _ _ => rfl⟩

theorem choose_best_genotype_strict_tests_witness :
    ¬ short_circuited example_header 0 1 ∧
    (joint_values (exact_arith (1 / 50)) 0 1 250 5
      = ((1250 : ℚ) / 65025, (1250 : ℚ) / 65025, (49 : ℚ) / 130050)) ∧
    ((choose_best_genotype example_header (exact_arith (1 / 50)) 0 1 250 5).genotype
        = Genotype.GTYPE_ALT ↔
      ¬ ((joint_values (exact_arith (1 / 50)) 0 1 250 5).1
          > (joint_values (exact_arith (1 / 50)) 0 1 250 5).2.1 ∧
        (joint_values (exact_arith (1 / 50)) 0 1 250 5).1
          > (joint_values (exact_arith (1 / 50)) 0 1 250 5).2.2) ∧
      ¬ ((joint_values (exact_arith (1 / 50)) 0 1 250 5).2.1
          > (joint_values (exact_arith (1 / 50)) 0 1 250 5).1 ∧
        (joint_values (exact_arith (1 / 50)) 0 1 250 5).2.1
          > (joint_values (exact_arith (1 / 50)) 0 1 250 5).2.2)) :=
  ⟨by unfold short_circuited; decide,
    by simp only [joint_values, exact_arith]; norm_num,
    (choose_best_genotype_strict_tests example_header (exact_arith (1 / 50)) 0 1 250 5
      (by unfold short_circuited; decide)).2.2.1⟩

/-! ### What the voter stores -/

/-- C26. After a sequence of `index_table_add` calls on a cleared voter in which
no slot receives more than 500 distinct indices and no index is added more than
255 times: every added index is stored in exactly one live entry, that entry is
in the slot of the index modulo 1009 and its `freq` is the number of times the
index was added; every live entry holds an added index; and every slot's count
is the number of distinct added indices of that slot, at most 500. -/
theorem index_table_add_stores (t0 : IndexTable) (xs : List Nat)
    (hcap : within_capacity xs) :
    (∀ x ∈ xs, ∃ e, (add_all (index_table_clear t0) xs).live e ∧
      ((add_all (index_table_clear t0) xs).entry e).index = x ∧
      e.1 = x % INDEX_TABLE_SLOT_COUNT ∧
      ((add_all (index_table_clear t0) xs).entry e).freq = xs.count x ∧
      ∀ e1, (add_all (index_table_clear t0) xs).live e1 →
        ((add_all (index_table_clear t0) xs).entry e1).index = x → e1 = e) ∧
    (∀ e, (add_all (index_table_clear t0) xs).live e →
      ((add_all (index_table_clear t0) xs).entry e).index ∈ xs) ∧
    (∀ s, s < INDEX_TABLE_SLOT_COUNT →
      ((add_all (index_table_clear t0) xs).table s).count
        = (xs.toFinset.filter (fun x => x % INDEX_TABLE_SLOT_COUNT = s)).card ∧
      ((add_all (index_table_clear t0) xs).table s).count ≤ INDEX_TABLE_ENTRY_DEPTH) := by
  have hV := voter_add_all xs (index_table_clear t0) [] (voter_clear t0)
    (by simpa using hcap.2)
  simp only [List.nil_append] at hV
  generalize add_all (index_table_clear t0) xs = t at hV ⊢
  refine ⟨?_, hV.mem, ?_⟩
  · intro x hx
    obtain ⟨e, hl, hi⟩ := hV.stored x hx
    refine ⟨e, hl, hi, ?_, ?_, ?_⟩
    · rw [← hi]
      exact (hV.slot_of e hl).symm
    · rw [hV.freq_eq e hl, hi]
    · intro e1 hl1 hi1
      exact hV.inj e1 e hl1 hl (by rw [hi1, hi])
  · intro s hs
    refine ⟨hV.count_eq s hs, ?_⟩
    rw [hV.count_eq s hs]
    exact hcap.1 s

theorem index_table_add_stores_witness :
    within_capacity [5, 1014, 5] ∧
    ((∀ x ∈ [5, 1014, 5], ∃ e,
      (add_all (index_table_clear empty_index_table) [5, 1014, 5]).live e ∧
      ((add_all (index_table_clear empty_index_table) [5, 1014, 5]).entry e).index = x ∧
      e.1 = x % INDEX_TABLE_SLOT_COUNT ∧
      ((add_all (index_table_clear empty_index_table) [5, 1014, 5]).entry e).freq
        = [5, 1014, 5].count x ∧
      ∀ e1, (add_all (index_table_clear empty_index_table) [5, 1014, 5]).live e1 →
        ((add_all (index_table_clear empty_index_table) [5, 1014, 5]).entry e1).index = x →
        e1 = e) ∧
    (∀ e, (add_all (index_table_clear empty_index_table) [5, 1014, 5]).live e →
      ((add_all (index_table_clear empty_index_table) [5, 1014, 5]).entry e).index
        ∈ [5, 1014, 5]) ∧
    (∀ s, s < INDEX_TABLE_SLOT_COUNT →
      ((add_all (index_table_clear empty_index_table) [5, 1014, 5]).table s).count
        = (([5, 1014, 5] : List Nat).toFinset.filter
            (fun x => x % INDEX_TABLE_SLOT_COUNT = s)).card ∧
      ((add_all (index_table_clear empty_index_table) [5, 1014, 5]).table s).count
        ≤ INDEX_TABLE_ENTRY_DEPTH)) :=
  ⟨within_capacity_of_short _ (by decide),
    index_table_add_stores empty_index_table [5, 1014, 5]
      (within_capacity_of_short _ (by decide))⟩

/-! ### Direct hits -/

theorem aux_loop_eq_foldl (body : ProbeState → Nat → Nat → ProbeState) (pos_list : Nat → Nat) :
    ∀ (cols i : Nat) (st : ProbeState),
      aux_loop body pos_list cols i st
        = ((List.range' i cols).takeWhile (fun c => decide (pos_list c ≠ 0))).foldl
            (fun st c => body st c (pos_list c)) st := by
  intro cols
  induction cols with
  | zero => intro i st; rfl
  | succ cols ih =>
    intro i st
    rw [aux_loop, List.range'_succ]
    by_cases h : pos_list i = 0
    · rw [if_pos h, List.takeWhile_cons_of_neg (by simpa using h)]
      rfl
    · rw [if_neg h, List.takeWhile_cons_of_pos (by simpa using h), List.foldl_cons]
      exact ih _ _

theorem aux_loop_columns (body : ProbeState → Nat → Nat → ProbeState) (pos_list : Nat → Nat)
    (cols : Nat) (st : ProbeState) :
    aux_loop body pos_list cols 0 st
      = (aux_row_columns pos_list cols).foldl (fun st c => body st c (pos_list c)) st := by
  rw [aux_loop_eq_foldl, aux_row_columns, List.range_eq_range']

/-- The columns visited are the first `n` columns, for the `n` that is the column
of the first zero of the row, or the number of columns when there is no zero. -/
theorem aux_row_columns_spec (pos_list : Nat → Nat) (cols : Nat) :
    ∃ n, n ≤ cols ∧ aux_row_columns pos_list cols = List.range n ∧
      (∀ i, i < n → pos_list i ≠ 0) ∧ (n < cols → pos_list n = 0) := by
  unfold aux_row_columns
  induction cols with
  | zero =>
    exact ⟨0, le_refl _, rfl, fun i hi => absurd hi (Nat.not_lt_zero _),
      fun h => absurd h (Nat.lt_irrefl _)⟩
  | succ cols ih =>
    obtain ⟨n, hn, he, h1, h2⟩ := ih
    rw [List.range_succ, List.takeWhile_append]
    by_cases hc : n < cols
    · have hlen : ((List.range cols).takeWhile (fun i => decide (pos_list i ≠ 0))).length
          ≠ (List.range cols).length := by
        rw [he, List.length_range, List.length_range]; omega
      refine ⟨n, by omega, ?_, h1, fun _ => h2 hc⟩
      rw [if_neg hlen, he]
    · have hnc : n = cols := by omega
      subst hnc
      have hlen : ((List.range n).takeWhile (fun i => decide (pos_list i ≠ 0))).length
          = (List.range n).length := by rw [he]
      rw [if_pos hlen]
      by_cases hz : pos_list n = 0
      · refine ⟨n, by omega, ?_, h1, fun _ => hz⟩
        rw [List.takeWhile_cons_of_neg (by simpa using hz), List.append_nil]
      · refine ⟨n + 1, le_refl _, ?_, ?_, fun h => absurd h (Nat.lt_irrefl _)⟩
        · rw [List.takeWhile_cons_of_pos (by simpa using hz), List.takeWhile_nil,
            List.range_succ]
        · intro i hi
          rcases Nat.lt_succ_iff_lt_or_eq.1 hi with h | h
          · exact h1 i h
          · subst h; exact hz

theorem record_ref_hits_fields (kmer offset : Nat) (ps : List Nat) :
    ∀ st : ProbeState,
      (record_ref_hits st kmer ps offset).index_table
        = add_all st.index_table (ps.map (fun pos => read_pos_of pos offset)) ∧
      (record_ref_hits st kmer ps offset).ref_hit_contexts
        = st.ref_hit_contexts ++ ps.map (context_of kmer offset) ∧
      (record_ref_hits st kmer ps offset).snp_hit_contexts = st.snp_hit_contexts := by
  induction ps with
  | nil => intro st; exact ⟨rfl, (List.append_nil _).symm, rfl⟩
  | cons p ps ih =>
    intro st
    obtain ⟨h1, h2, h3⟩ := ih (record_ref_hit st kmer p offset)
    unfold record_ref_hits at h1 h2 h3 ⊢
    rw [List.foldl_cons]
    refine ⟨?_, ?_, ?_⟩
    · rw [h1]; rfl
    · rw [h2]
      simp [record_ref_hit, context_of]
    · rw [h3]; rfl

theorem record_snp_hits_fields (kmer offset : Nat) (ps : List Nat) :
    ∀ st : ProbeState,
      (record_snp_hits st kmer ps offset).index_table
        = add_all st.index_table (ps.map (fun pos => read_pos_of pos offset)) ∧
      (record_snp_hits st kmer ps offset).snp_hit_contexts
        = st.snp_hit_contexts ++ ps.map (context_of kmer offset) ∧
      (record_snp_hits st kmer ps offset).ref_hit_contexts = st.ref_hit_contexts := by
  induction ps with
  | nil => intro st; exact ⟨rfl, (List.append_nil _).symm, rfl⟩
  | cons p ps ih =>
    intro st
    obtain ⟨h1, h2, h3⟩ := ih (record_snp_hit st kmer p offset)
    unfold record_snp_hits at h1 h2 h3 ⊢
    rw [List.foldl_cons]
    refine ⟨?_, ?_, ?_⟩
    · rw [h1]; rfl
    · rw [h2]
      simp [record_snp_hit, context_of]
    · rw [h3]; rfl

theorem read_pos_of_sub (pos offset : Nat) (h : offset ≤ pos) (hp : pos < 2 ^ 32) :
    read_pos_of pos offset = pos - offset := by
  unfold read_pos_of
  have ho : offset < 2 ^ 32 := by omega
  rw [Nat.mod_eq_of_lt ho]
  have : pos + 2 ^ 32 - offset = (pos - offset) + 2 ^ 32 := by omega
  rw [this, Nat.add_mod_right, Nat.mod_eq_of_lt (by omega)]

/-- C21. A direct hit of the k-mer at offset `offset`, in either dictionary:
with `pos == POS_AMBIGUOUS` nothing is cast or recorded; an UNAMBIGUOUS entry
casts exactly one vote, for `pos - offset` (32-bit), with the context
`{kmer, pos - offset, pos}`; an AMBIGUOUS entry casts exactly one vote for each
position of its aux row before the row's first zero, in row order, and none for
a column at or after the first zero.  The votes and contexts of a list of
positions are spelled out, as are the columns visited. -/
theorem direct_hit_votes (H : LavaH) (D : Dicts) (kmer offset : Nat) (st : ProbeState)
    (hflag : H.FLAG_UNAMBIGUOUS ≠ H.FLAG_AMBIGUOUS) :
    (∀ hit : kmer_entry, ref_hit_of D kmer = some hit →
      (hit.pos = H.POS_AMBIGUOUS → direct_ref_hit H D kmer offset st = .ok st) ∧
      (hit.pos ≠ H.POS_AMBIGUOUS → hit.ambig_flag = H.FLAG_UNAMBIGUOUS →
        direct_ref_hit H D kmer offset st = .ok (record_ref_hits st kmer [hit.pos] offset)) ∧
      (hit.pos ≠ H.POS_AMBIGUOUS → hit.ambig_flag = H.FLAG_AMBIGUOUS →
        direct_ref_hit H D kmer offset st = .ok (record_ref_hits st kmer
          (aux_row_positions (D.ref_aux_table hit.pos).pos_list H.AUX_TABLE_COLS) offset))) ∧
    (∀ hit : snp_kmer_entry, snp_hit_of D kmer = some hit →
      (hit.pos = H.POS_AMBIGUOUS → direct_snp_hit H D kmer offset st = .ok st) ∧
      (hit.pos ≠ H.POS_AMBIGUOUS → hit.ambig_flag = H.FLAG_UNAMBIGUOUS →
        direct_snp_hit H D kmer offset st = .ok (record_snp_hits st kmer [hit.pos] offset)) ∧
      (hit.pos ≠ H.POS_AMBIGUOUS → hit.ambig_flag = H.FLAG_AMBIGUOUS →
        direct_snp_hit H D kmer offset st = .ok (record_snp_hits st kmer
          (aux_row_positions (D.snp_aux_table hit.pos).pos_list H.AUX_TABLE_COLS) offset))) ∧
    (∀ ps : List Nat,
      (record_ref_hits st kmer ps offset).index_table
        = add_all st.index_table (ps.map (fun pos => read_pos_of pos offset)) ∧
      (record_ref_hits st kmer ps offset).ref_hit_contexts
        = st.ref_hit_contexts ++ ps.map (context_of kmer offset) ∧
      (record_ref_hits st kmer ps offset).snp_hit_contexts = st.snp_hit_contexts ∧
      (record_snp_hits st kmer ps offset).index_table
        = add_all st.index_table (ps.map (fun pos => read_pos_of pos offset)) ∧
      (record_snp_hits st kmer ps offset).snp_hit_contexts
        = st.snp_hit_contexts ++ ps.map (context_of kmer offset) ∧
      (record_snp_hits st kmer ps offset).ref_hit_contexts = st.ref_hit_contexts) ∧
    (∀ pos_list : Nat → Nat, ∃ n, n ≤ H.AUX_TABLE_COLS ∧
      aux_row_positions pos_list H.AUX_TABLE_COLS = (List.range n).map pos_list ∧
      (∀ i, i < n → pos_list i ≠ 0) ∧ (n < H.AUX_TABLE_COLS → pos_list n = 0)) ∧
    (∀ pos, offset ≤ pos → pos < 2 ^ 32 →
      context_of kmer offset pos = { kmer := kmer, position := pos - offset, kmer_pos := pos }) := by
  refine ⟨?_, ?_, ?_, ?_, ?_⟩
  · intro hit hq
    refine ⟨?_, ?_, ?_⟩
    · intro hp
      unfold direct_ref_hit
      rw [hq]
      simp only [ne_eq, hp, not_true_eq_false, if_false]
    · intro hp hf
      unfold direct_ref_hit
      rw [hq]
      simp only [ne_eq, hp, not_false_eq_true, if_true, hf]
      rfl
    · intro hp hf
      unfold direct_ref_hit
      rw [hq]
      simp only [ne_eq, hp, not_false_eq_true, if_true]
      rw [if_neg (by rw [hf]; exact fun h => hflag h.symm), if_pos hf, aux_loop_columns]
      unfold record_ref_hits aux_row_positions
      rw [List.foldl_map]
  · intro hit hq
    refine ⟨?_, ?_, ?_⟩
    · intro hp
      unfold direct_snp_hit
      rw [hq]
      simp only [ne_eq, hp, not_true_eq_false, if_false]
    · intro hp hf
      unfold direct_snp_hit
      rw [hq]
      simp only [ne_eq, hp, not_false_eq_true, if_true, hf]
      rfl
    · intro hp hf
      unfold direct_snp_hit
      rw [hq]
      simp only [ne_eq, hp, not_false_eq_true, if_true]
      rw [if_neg (by rw [hf]; exact fun h => hflag h.symm), if_pos hf, aux_loop_columns]
      unfold record_snp_hits aux_row_positions
      rw [List.foldl_map]
  · intro ps
    obtain ⟨a1, a2, a3⟩ := record_ref_hits_fields kmer offset ps st
    obtain ⟨b1, b2, b3⟩ := record_snp_hits_fields kmer offset ps st
    exact ⟨a1, a2, a3, b1, b2, b3⟩
  · intro pos_list
    obtain ⟨n, hn, he, h1, h2⟩ := aux_row_columns_spec pos_list H.AUX_TABLE_COLS
    refine ⟨n, hn, ?_, h1, h2⟩
    unfold aux_row_positions
    rw [he]
  · intro pos hle hp
    unfold context_of
    rw [read_pos_of_sub pos offset hle hp]

theorem direct_hit_votes_witness :
    example_header.FLAG_UNAMBIGUOUS ≠ example_header.FLAG_AMBIGUOUS ∧
    ref_hit_of example_dicts 0x5555555555555555
      = some { kmer_lo := 0x55555555, pos := 132, ambig_flag := 0 } ∧
    direct_ref_hit example_header example_dicts 0x5555555555555555 32
        { index_table := empty_index_table, ref_hit_contexts := [], snp_hit_contexts := [] }
      = .ok (record_ref_hits
          { index_table := empty_index_table, ref_hit_contexts := [], snp_hit_contexts := [] }
          0x5555555555555555 [132] 32) ∧
    (record_ref_hits
        { index_table := empty_index_table, ref_hit_contexts := [], snp_hit_contexts := [] }
        0x5555555555555555 [132] 32).ref_hit_contexts
      = [{ kmer := 0x5555555555555555, position := 100, kmer_pos := 132 }] :=
  ⟨by decide, rfl,
    ((direct_hit_votes example_header example_dicts 0x5555555555555555 32
        { index_table := empty_index_table, ref_hit_contexts := [], snp_hit_contexts := [] }
        (by decide)).1 { kmer_lo := 0x55555555, pos := 132, ambig_flag := 0 } rfl).2.1
      (by decide) rfl,
    by decide⟩

/-! ### Neighbour hits -/

theorem foldl_filter_if {α β : Type} (g : α → β → α) (p : β → Prop) [DecidablePred p]
    (l : List β) :
    ∀ a : α, l.foldl (fun a x => if p x then g a x else a) a
      = (l.filter (fun x => decide (p x))).foldl g a := by
  induction l with
  | nil => intro a; rfl
  | cons x l ih =>
    intro a
    by_cases h : p x
    · simp only [List.foldl_cons, if_pos h]
      rw [List.filter_cons_of_pos (by simpa using h), List.foldl_cons]
      exact ih _
    · simp only [List.foldl_cons, if_neg h]
      rw [List.filter_cons_of_neg (by simpa using h)]
      exact ih _

/-- C22. A neighbour that hits the reference dictionary with
`pos != POS_AMBIGUOUS`, the substituted base being at `diff_base_pos`: an
UNAMBIGUOUS entry casts its one vote (with its context) exactly when the pileup
entry at `pos + diff_base_pos` is blank, and nothing otherwise; an AMBIGUOUS
entry casts one vote for each position `p` of its aux row before the first zero
for which the pileup entry at `p + diff_base_pos` is blank, in row order, and
none for the other positions.  The sum is the 32-bit sum, which is the plain
sum below `2 ^ 32`. -/
theorem neighbor_ref_hit_votes (H : LavaH) (D : Dicts) (pileup_table : Nat → pileup_entry)
    (neighbor offset diff_base_pos : Nat) (st : ProbeState)
    (hflag : H.FLAG_UNAMBIGUOUS ≠ H.FLAG_AMBIGUOUS) :
    (∀ hit : kmer_entry, ref_hit_of D neighbor = some hit → hit.pos ≠ H.POS_AMBIGUOUS →
      (hit.ambig_flag = H.FLAG_UNAMBIGUOUS →
        neighbor_ref_hit H D pileup_table neighbor offset diff_base_pos st
          = if pileup_blank pileup_table (diff_loc hit.pos diff_base_pos) then
              record_ref_hits st neighbor [hit.pos] offset
            else st) ∧
      (hit.ambig_flag = H.FLAG_AMBIGUOUS →
        neighbor_ref_hit H D pileup_table neighbor offset diff_base_pos st
          = record_ref_hits st neighbor
              ((aux_row_positions (D.ref_aux_table hit.pos).pos_list H.AUX_TABLE_COLS).filter
                (fun p => decide (pileup_blank pileup_table (diff_loc p diff_base_pos))))
              offset)) ∧
    (∀ p, p + diff_base_pos < 2 ^ 32 → diff_loc p diff_base_pos = p + diff_base_pos) ∧
    (∀ ps : List Nat,
      (record_ref_hits st neighbor ps offset).index_table
        = add_all st.index_table (ps.map (fun pos => read_pos_of pos offset)) ∧
      (record_ref_hits st neighbor ps offset).ref_hit_contexts
        = st.ref_hit_contexts ++ ps.map (context_of neighbor offset) ∧
      (record_ref_hits st neighbor ps offset).snp_hit_contexts = st.snp_hit_contexts) := by
  refine ⟨?_, ?_, ?_⟩
  · intro hit hq hp
    constructor
    · intro hf
      unfold neighbor_ref_hit
      rw [hq]
      simp only [ne_eq, hp, not_false_eq_true, if_true, hf, true_and]
      have hne : ¬ H.FLAG_UNAMBIGUOUS = H.FLAG_AMBIGUOUS := hflag
      unfold pileup_blank diff_loc
      split_ifs <;> rfl
    · intro hf
      have hne : ¬ hit.ambig_flag = H.FLAG_UNAMBIGUOUS := by
        rw [hf]; exact fun h => hflag h.symm
      unfold neighbor_ref_hit
      rw [hq]
      simp only [ne_eq, hp, not_false_eq_true, if_true, hne, false_and, if_false]
      rw [if_pos hf, aux_loop_columns]
      unfold record_ref_hits aux_row_positions
      rw [List.filter_map, List.foldl_map]
      exact foldl_filter_if
        (fun st c => record_ref_hit st neighbor ((D.ref_aux_table hit.pos).pos_list c) offset)
        (fun c => pileup_blank pileup_table
          (diff_loc ((D.ref_aux_table hit.pos).pos_list c) diff_base_pos)) _ st
  · intro p hlt
    unfold diff_loc
    exact Nat.mod_eq_of_lt hlt
  · intro ps
    exact record_ref_hits_fields neighbor offset ps st

theorem neighbor_ref_hit_votes_witness :
    example_header.FLAG_UNAMBIGUOUS ≠ example_header.FLAG_AMBIGUOUS ∧
    ref_hit_of example_dicts 0 = some { kmer_lo := 0, pos := 100, ambig_flag := 0 } ∧
    ¬ pileup_blank example_pileup (diff_loc 100 10) ∧
    neighbor_ref_hit example_header example_dicts example_pileup 0 0 10
        { index_table := empty_index_table, ref_hit_contexts := [], snp_hit_contexts := [] }
      = (if pileup_blank example_pileup (diff_loc 100 10) then
          record_ref_hits
            { index_table := empty_index_table, ref_hit_contexts := [], snp_hit_contexts := [] }
            0 [100] 0
        else
          { index_table := empty_index_table, ref_hit_contexts := [], snp_hit_contexts := [] }) ∧
    pileup_blank example_pileup (diff_loc 100 0) ∧
    neighbor_ref_hit example_header example_dicts example_pileup 0 0 0
        { index_table := empty_index_table, ref_hit_contexts := [], snp_hit_contexts := [] }
      = (if pileup_blank example_pileup (diff_loc 100 0) then
          record_ref_hits
            { index_table := empty_index_table, ref_hit_contexts := [], snp_hit_contexts := [] }
            0 [100] 0
        else
          { index_table := empty_index_table, ref_hit_contexts := [], snp_hit_contexts := [] }) :=
  ⟨by decide, rfl, by decide,
    ((neighbor_ref_hit_votes example_header example_dicts example_pileup 0 0 10
        { index_table := empty_index_table, ref_hit_contexts := [], snp_hit_contexts := [] }
        (by decide)).1 { kmer_lo := 0, pos := 100, ambig_flag := 0 } rfl (by decide)).1 rfl,
    by decide,
    ((neighbor_ref_hit_votes example_header example_dicts example_pileup 0 0 0
        { index_table := empty_index_table, ref_hit_contexts := [], snp_hit_contexts := [] }
        (by decide)).1 { kmer_lo := 0, pos := 100, ambig_flag := 0 } rfl (by decide)).1 rfl⟩

/-- C23. A neighbour that hits the SNP dictionary with `pos != POS_AMBIGUOUS`,
the substituted base being at `diff_base_pos`: an UNAMBIGUOUS entry casts its
one vote (with its context) exactly when `SNP_INFO_POS` of its `snp` byte
differs from `diff_base_pos`, and nothing otherwise; an AMBIGUOUS entry casts
one vote for the position of each column of its aux row before the first zero
whose `snp_list` byte has a `SNP_INFO_POS` other than `diff_base_pos`, in row
order, and none for the other columns. -/
theorem neighbor_snp_hit_votes (H : LavaH) (D : Dicts)
    (neighbor offset diff_base_pos : Nat) (st : ProbeState)
    (hflag : H.FLAG_UNAMBIGUOUS ≠ H.FLAG_AMBIGUOUS) :
    (∀ hit : snp_kmer_entry, snp_hit_of D neighbor = some hit → hit.pos ≠ H.POS_AMBIGUOUS →
      (hit.ambig_flag = H.FLAG_UNAMBIGUOUS →
        neighbor_snp_hit H D neighbor offset diff_base_pos st
          = if H.SNP_INFO_POS hit.snp ≠ diff_base_pos then
              record_snp_hits st neighbor [hit.pos] offset
            else st) ∧
      (hit.ambig_flag = H.FLAG_AMBIGUOUS →
        neighbor_snp_hit H D neighbor offset diff_base_pos st
          = record_snp_hits st neighbor
              (((aux_row_columns (D.snp_aux_table hit.pos).pos_list H.AUX_TABLE_COLS).filter
                (fun c => decide
                  (H.SNP_INFO_POS ((D.snp_aux_table hit.pos).snp_list c) ≠ diff_base_pos))).map
                (D.snp_aux_table hit.pos).pos_list)
              offset)) ∧
    (∀ ps : List Nat,
      (record_snp_hits st neighbor ps offset).index_table
        = add_all st.index_table (ps.map (fun pos => read_pos_of pos offset)) ∧
      (record_snp_hits st neighbor ps offset).snp_hit_contexts
        = st.snp_hit_contexts ++ ps.map (context_of neighbor offset) ∧
      (record_snp_hits st neighbor ps offset).ref_hit_contexts = st.ref_hit_contexts) := by
  refine ⟨?_, ?_⟩
  · intro hit hq hp
    constructor
    · intro hf
      have hne : ¬ H.FLAG_UNAMBIGUOUS = H.FLAG_AMBIGUOUS := hflag
      unfold neighbor_snp_hit
      rw [hq]
      simp only [ne_eq, hp, not_false_eq_true, if_true, hf, true_and]
      split_ifs <;> rfl
    · intro hf
      have hne : ¬ hit.ambig_flag = H.FLAG_UNAMBIGUOUS := by
        rw [hf]; exact fun h => hflag h.symm
      unfold neighbor_snp_hit
      rw [hq]
      simp only [ne_eq, hp, not_false_eq_true, if_true, hne, false_and, if_false]
      rw [if_pos hf, aux_loop_columns]
      unfold record_snp_hits
      rw [List.foldl_map]
      rw [← foldl_filter_if
        (fun st c => record_snp_hit st neighbor ((D.snp_aux_table hit.pos).pos_list c) offset)
        (fun c => H.SNP_INFO_POS ((D.snp_aux_table hit.pos).snp_list c) ≠ diff_base_pos)]
  · intro ps
    exact record_snp_hits_fields neighbor offset ps st

theorem neighbor_snp_hit_votes_witness :
    example_header.FLAG_UNAMBIGUOUS ≠ example_header.FLAG_AMBIGUOUS ∧
    snp_hit_of example_dicts (2 * 4 ^ 10)
      = some { kmer_lo40 := 2 * 4 ^ 10, pos := 100, snp := 80, ambig_flag := 0 } ∧
    example_header.SNP_INFO_POS 80 = 10 ∧
    neighbor_snp_hit example_header example_dicts (2 * 4 ^ 10) 0 10
        { index_table := empty_index_table, ref_hit_contexts := [], snp_hit_contexts := [] }
      = (if example_header.SNP_INFO_POS 80 ≠ 10 then
          record_snp_hits
            { index_table := empty_index_table, ref_hit_contexts := [], snp_hit_contexts := [] }
            (2 * 4 ^ 10) [100] 0
        else
          { index_table := empty_index_table, ref_hit_contexts := [], snp_hit_contexts := [] }) ∧
    neighbor_snp_hit example_header example_dicts (2 * 4 ^ 10) 0 3
        { index_table := empty_index_table, ref_hit_contexts := [], snp_hit_contexts := [] }
      = (if example_header.SNP_INFO_POS 80 ≠ 3 then
          record_snp_hits
            { index_table := empty_index_table, ref_hit_contexts := [], snp_hit_contexts := [] }
            (2 * 4 ^ 10) [100] 0
        else
          { index_table := empty_index_table, ref_hit_contexts := [], snp_hit_contexts := [] }) :=
  ⟨by decide, rfl, by decide,
    ((neighbor_snp_hit_votes example_header example_dicts (2 * 4 ^ 10) 0 10
        { index_table := empty_index_table, ref_hit_contexts := [], snp_hit_contexts := [] }
        (by decide)).1 { kmer_lo40 := 2 * 4 ^ 10, pos := 100, snp := 80, ambig_flag := 0 }
        (by rfl) (by decide)).1 rfl,
    ((neighbor_snp_hit_votes example_header example_dicts (2 * 4 ^ 10) 0 3
        { index_table := empty_index_table, ref_hit_contexts := [], snp_hit_contexts := [] }
        (by decide)).1 { kmer_lo40 := 2 * 4 ^ 10, pos := 100, snp := 80, ambig_flag := 0 }
        (by rfl) (by decide)).1 rfl⟩

/-! ### What a read changes in the pileup table -/

theorem foldl_preserves_mem {α β : Type} (P : α → Prop) (f : α → β → α) (l : List β)
    (h : ∀ a x, x ∈ l → P a → P (f a x)) : ∀ a, P a → P (l.foldl f a) := by
  induction l with
  | nil => intro a ha; exact ha
  | cons x l ih =>
    intro a ha
    exact ih (fun a y hy => h a y (List.mem_cons_of_mem _ hy)) _
      (h a x (List.mem_cons_self _ _) ha)

theorem pileup_cover_same_site (H : LavaH) (p : pileup_entry) (base : Nat) :
    same_site p (pileup_cover H p base) ∧
    (pileup_cover H p base ≠ p → p.ref ≠ p.alt) := by
  unfold pileup_cover same_site
  split_ifs with h <;> simp_all

theorem pileup_cover_counts (H : LavaH) (hcov : H.MAX_COV ≤ 255) (p : pileup_entry)
    (base : Nat) (h1 : p.ref_cnt ≤ H.MAX_COV) (h2 : p.alt_cnt ≤ H.MAX_COV) :
    p.ref_cnt ≤ (pileup_cover H p base).ref_cnt ∧ p.alt_cnt ≤ (pileup_cover H p base).alt_cnt ∧
    (pileup_cover H p base).ref_cnt ≤ H.MAX_COV ∧
    (pileup_cover H p base).alt_cnt ≤ H.MAX_COV := by
  unfold pileup_cover
  split_ifs with a b c d e
  · dsimp only
    rw [Nat.mod_eq_of_lt (by omega)]
    omega
  · omega
  · dsimp only
    rw [Nat.mod_eq_of_lt (by omega)]
    omega
  · omega
  · omega
  · omega

theorem framed_refl (p : Nat → pileup_entry) (touched : Nat → Prop) : framed p touched p :=
  fun _ => ⟨⟨rfl, rfl, rfl, rfl⟩, fun h => absurd rfl h⟩

theorem framed_cover (H : LavaH) (p q : Nat → pileup_entry) (touched : Nat → Prop)
    (k base : Nat) (hq : framed p touched q) (hk : touched k) :
    framed p touched (Function.update q k (pileup_cover H (q k) base)) := by
  intro i
  by_cases e : i = k
  · subst e
    rw [Function.update_same]
    obtain ⟨hs, hc⟩ := hq i
    obtain ⟨cs, cc⟩ := pileup_cover_same_site H (q i) base
    unfold same_site at hs cs ⊢
    refine ⟨⟨by rw [cs.1, hs.1], by rw [cs.2.1, hs.2.1], by rw [cs.2.2.1, hs.2.2.1],
      by rw [cs.2.2.2, hs.2.2.2]⟩, ?_⟩
    intro hne
    refine ⟨?_, hk⟩
    by_cases hqi : q i = p i
    · rw [hqi] at hne cc
      exact cc hne
    · exact (hc hqi).1
  · rw [Function.update_noteq e]
    exact hq i

theorem pileup_walk_framed (H : LavaH) (p q : Nat → pileup_entry) (touched : Nat → Prop)
    (kmer kmer_pos : Nat) (hq : framed p touched q)
    (ht : ∀ j, j < 32 → touched ((kmer_pos + j) % 2 ^ 32)) :
    framed p touched (pileup_walk H q kmer kmer_pos) := by
  unfold pileup_walk
  apply foldl_preserves_mem (framed p touched) _ _ _ _ hq
  intro pt j hj hpt
  exact framed_cover H p pt touched _ _ hpt (ht j (List.mem_range.1 hj))

theorem walk_contexts_framed (H : LavaH) (p q : Nat → pileup_entry) (touched : Nat → Prop)
    (process_read : Bool) (target_index : Nat) (contexts : List kmer_context)
    (index_table : IndexTable) (hq : framed p touched q)
    (ht : process_read = true → ∀ c ∈ contexts, c.position = target_index →
      ∀ j, j < 32 → touched ((c.kmer_pos + j) % 2 ^ 32)) :
    framed p touched
      (walk_contexts H process_read target_index contexts index_table q).2 := by
  unfold walk_contexts
  apply foldl_preserves_mem
    (fun acc : IndexTable × (Nat → pileup_entry) => framed p touched acc.2) _ _ _ _ hq
  intro acc c hc hacc
  dsimp only
  split_ifs with h
  · exact pileup_walk_framed H p acc.2 touched _ _ hacc (ht h.1 c hc h.2)
  · exact hacc

theorem counted_up_refl (H : LavaH) (p : Nat → pileup_entry)
    (hb : ∀ i, (p i).ref_cnt ≤ H.MAX_COV ∧ (p i).alt_cnt ≤ H.MAX_COV) : counted_up H p p :=
  fun i => ⟨le_refl _, le_refl _, (hb i).1, (hb i).2⟩

theorem pileup_walk_counted_up (H : LavaH) (hcov : H.MAX_COV ≤ 255)
    (p q : Nat → pileup_entry) (kmer kmer_pos : Nat) (hq : counted_up H p q) :
    counted_up H p (pileup_walk H q kmer kmer_pos) := by
  unfold pileup_walk
  apply foldl_preserves (counted_up H p) _ _ _ _ hq
  intro pt j hpt i
  by_cases e : i = (kmer_pos + j) % 2 ^ 32
  · subst e
    rw [Function.update_same]
    obtain ⟨h1, h2, h3, h4⟩ := hpt ((kmer_pos + j) % 2 ^ 32)
    obtain ⟨c1, c2, c3, c4⟩ := pileup_cover_counts H hcov (pt ((kmer_pos + j) % 2 ^ 32))
      (kmer_get_base kmer j) h3 h4
    exact ⟨le_trans h1 c1, le_trans h2 c2, c3, c4⟩
  · rw [Function.update_noteq e]
    exact hpt i

theorem walk_contexts_counted_up (H : LavaH) (hcov : H.MAX_COV ≤ 255)
    (p q : Nat → pileup_entry) (process_read : Bool) (target_index : Nat)
    (contexts : List kmer_context) (index_table : IndexTable) (hq : counted_up H p q) :
    counted_up H p (walk_contexts H process_read target_index contexts index_table q).2 := by
  unfold walk_contexts
  apply foldl_preserves
    (fun acc : IndexTable × (Nat → pileup_entry) => counted_up H p acc.2) _ _ _ _ hq
  intro acc c hacc
  dsimp only
  split_ifs
  · exact pileup_walk_counted_up H hcov p acc.2 _ _ hacc
  · exact hacc

theorem scan_from_head_counted_up (H : LavaH) (D : Dicts) (hcov : H.MAX_COV ≤ 255)
    (len : Nat) :
    ∀ (fuel : Nat) (revcompl : Bool) (read : List Char) (index_table : IndexTable)
      (pileup_table : Nat → pileup_entry) (passes : List PassRecord) (r : ReadResult),
      (∀ i, (pileup_table i).ref_cnt ≤ H.MAX_COV ∧ (pileup_table i).alt_cnt ≤ H.MAX_COV) →
      scan_from_head H D len fuel revcompl read index_table pileup_table passes = .ok r →
      counted_up H pileup_table r.pileup_table := by
  intro fuel
  induction fuel with
  | zero => intro _ _ _ _ _ r _ h; cases h
  | succ fuel ih =>
    intro revcompl read index_table pileup_table passes r hb h
    rw [scan_from_head] at h
    split at h
    · cases h
      exact counted_up_refl H _ hb
    · split at h
      · cases h
        exact counted_up_refl H _ hb
      · split at h
        · cases h
        · next st hst =>
          have hw := walk_contexts_counted_up H hcov pileup_table _
            (process_read_of st.index_table) (target_index_of st.index_table)
            st.snp_hit_contexts
            (walk_contexts H (process_read_of st.index_table) (target_index_of st.index_table)
              st.ref_hit_contexts st.index_table pileup_table).1
            (walk_contexts_counted_up H hcov pileup_table pileup_table
              (process_read_of st.index_table) (target_index_of st.index_table)
              st.ref_hit_contexts st.index_table (counted_up_refl H _ hb))
          dsimp only at h
          split_ifs at h with hretry
          · have hpt : (walk_contexts H (process_read_of st.index_table)
                (target_index_of st.index_table) st.snp_hit_contexts
                (walk_contexts H (process_read_of st.index_table)
                  (target_index_of st.index_table) st.ref_hit_contexts st.index_table
                  pileup_table).1
                (walk_contexts H (process_read_of st.index_table)
                  (target_index_of st.index_table) st.ref_hit_contexts st.index_table
                  pileup_table).2).2 = pileup_table := by
              rw [hretry.1, walk_contexts_not_processed, walk_contexts_not_processed]
            rw [hpt] at h
            exact ih _ _ _ _ _ r hb h
          · cases h
            exact hw

/-- The pileup table that a read leaves is the table it found, or the table
after the walks of the one pass of the scan that was processed. -/
theorem scan_read_pileup_cases (H : LavaH) (D : Dicts) (read : List Char)
    (index_table : IndexTable) (pileup_table : Nat → pileup_entry) (r : ReadResult)
    (h : scan_read H D read index_table pileup_table = .ok r) :
    r.pileup_table = pileup_table ∨
    ∃ st, pass_state H D read index_table pileup_table st ∧
      process_read_of st.index_table = true ∧
      r.pileup_table = pileup_after_walks H st pileup_table := by
  unfold scan_read at h
  unfold scan_from_head at h
  simp only [Bool.false_eq_true, if_false] at h
  cases hen : encode_read read (read.length / 32 * 32) with
  | none =>
    rw [hen] at h
    simp only [Except.ok.injEq] at h
    subst h
    exact Or.inl rfl
  | some kmers =>
    rw [hen] at h
    simp only at h
    cases hp : probe_kmers H D pileup_table 0 kmers
        { index_table := index_table, ref_hit_contexts := [], snp_hit_contexts := [] } with
    | error e => rw [hp] at h; cases h
    | ok st =>
      have hfw : forward_probe H D read index_table pileup_table = some st := by
        unfold forward_probe
        rw [hen]
        simp only
        rw [hp]
      rw [hp] at h
      simp only [and_true, List.nil_append] at h
      cases hpr : process_read_of st.index_table with
      | true =>
        rw [hpr] at h
        simp only [Bool.true_eq_false, if_false, Except.ok.injEq] at h
        subst h
        right
        refine ⟨st, Or.inl hfw, hpr, ?_⟩
        simp only [nohit, pileup_after_walks, hpr]
      | false =>
        rw [hpr] at h
        simp only [if_true] at h
        simp only [walk_contexts_not_processed] at h
        unfold scan_from_head at h
        simp only [if_true] at h
        cases hrc : reverse_complement read (read.length / 32 * 32) with
        | none =>
          rw [hrc] at h
          simp only [Except.ok.injEq] at h
          subst h
          exact Or.inl rfl
        | some read1 =>
          rw [hrc] at h
          simp only at h
          cases hen1 : encode_read read1 (read.length / 32 * 32) with
          | none =>
            rw [hen1] at h
            simp only [Except.ok.injEq] at h
            subst h
            exact Or.inl rfl
          | some kmers1 =>
            rw [hen1] at h
            simp only at h
            have hrp : reverse_pass H D read index_table pileup_table
                = some (kmers1,
                    { voter_after_walks H st pileup_table with
                      best := none, ambiguous := false },
                    pileup_after_walks H st pileup_table) := by
              unfold reverse_pass
              rw [hfw]
              simp only [hpr, if_true]
              rw [hrc]
              simp only
              rw [hen1]
            have hpt : pileup_after_walks H st pileup_table = pileup_table := by
              simp only [pileup_after_walks, hpr, walk_contexts_not_processed]
            have hvt : voter_after_walks H st pileup_table
                = (walk_contexts H false (target_index_of st.index_table) st.snp_hit_contexts
                    (walk_contexts H false (target_index_of st.index_table)
                      st.ref_hit_contexts st.index_table pileup_table).1 pileup_table).1 := by
              simp only [voter_after_walks, hpr, walk_contexts_not_processed]
            cases hp1 : probe_kmers H D pileup_table 0 kmers1
                { index_table :=
                    { voter_after_walks H st pileup_table with
                      best := none, ambiguous := false },
                  ref_hit_contexts := [], snp_hit_contexts := [] } with
            | error e =>
              rw [hvt] at hp1
              rw [hp1] at h
              cases h
            | ok st1 =>
              have hrv : reverse_probe H D read index_table pileup_table = some st1 := by
                unfold reverse_probe
                rw [hrp]
                simp only
                rw [hpt, hp1]
              rw [hvt] at hp1
              rw [hp1] at h
              simp only [Bool.true_eq_false, and_false, if_false, Except.ok.injEq] at h
              subst h
              cases hpr1 : process_read_of st1.index_table with
              | false =>
                left
                simp only [nohit, hpr1, walk_contexts_not_processed]
              | true =>
                right
                refine ⟨st1, Or.inr hrv, hpr1, ?_⟩
                simp only [nohit, pileup_after_walks, hpr1]

/-- The two walks of a pass change the pileup table only in the counts, and only
at entries with `ref != alt` that the walk of a hit context at the winning index
of a processed pass visits. -/
theorem pileup_after_walks_framed (H : LavaH) (st : ProbeState)
    (pileup_table : Nat → pileup_entry) (touched : Nat → Prop)
    (ht : process_read_of st.index_table = true →
      ∀ c ∈ st.ref_hit_contexts ++ st.snp_hit_contexts,
        c.position = target_index_of st.index_table →
        ∀ j, j < 32 → touched ((c.kmer_pos + j) % 2 ^ 32)) :
    framed pileup_table touched (pileup_after_walks H st pileup_table) := by
  unfold pileup_after_walks
  exact walk_contexts_framed H pileup_table _ touched
    (process_read_of st.index_table) (target_index_of st.index_table)
    st.snp_hit_contexts
    (walk_contexts H (process_read_of st.index_table) (target_index_of st.index_table)
      st.ref_hit_contexts st.index_table pileup_table).1
    (walk_contexts_framed H pileup_table pileup_table touched
      (process_read_of st.index_table) (target_index_of st.index_table)
      st.ref_hit_contexts st.index_table (framed_refl _ _)
      (fun hp c hc => ht hp c (List.mem_append_left _ hc)))
    (fun hp c hc => ht hp c (List.mem_append_right _ hc))

/-- The frame of a read.  For a read whose hits stay within the capacity of the
hit context arrays and of the voter slots: the read either stops the program at
the assertion or is handled to its end, and then no entry of the pileup table
changes its `ref`, `alt`, `ref_freq` or `alt_freq`; an entry changes only if it
has `ref != alt` and its index is `kmer_pos + j` (32-bit sum) for a `j` below 32
and a hit context, recorded in a processed pass of this scan, whose position is
the winning index of that pass; and when `MAX_COV` is at most 255 and no count of
the table exceeds `MAX_COV`, no count decreases and none exceeds `MAX_COV`
afterwards. -/
theorem scan_read_frame (H : LavaH) (D : Dicts) (read : List Char)
    (index_table : IndexTable) (pileup_table : Nat → pileup_entry)
    (_hcap : scan_within_capacity H D read index_table pileup_table) :
    scan_read H D read index_table pileup_table = .error .assertion ∨
    ∃ r, scan_read H D read index_table pileup_table = .ok r ∧
      (∀ i, read_effect H D read index_table pileup_table i (r.pileup_table i)) ∧
      (H.MAX_COV ≤ 255 →
        (∀ i, (pileup_table i).ref_cnt ≤ H.MAX_COV ∧ (pileup_table i).alt_cnt ≤ H.MAX_COV) →
        counted_up H pileup_table r.pileup_table) ∧
      (∀ (c : kmer_context) (i : Nat), walked_by c i → c.kmer_pos + 32 ≤ 2 ^ 32 →
        c.kmer_pos ≤ i ∧ i < c.kmer_pos + 32) := by
  cases hr : scan_read H D read index_table pileup_table with
  | error e =>
    left
    cases e with
    | assertion => rfl
    | fuel => exact absurd hr (scan_read_fuel_suffices H D read index_table pileup_table)
  | ok r =>
    right
    refine ⟨r, rfl, ?_, ?_, ?_⟩
    · intro i
      rcases scan_read_pileup_cases H D read index_table pileup_table r hr with hpt | hst
      · rw [hpt]
        exact ⟨⟨rfl, rfl, rfl, rfl⟩, fun hne => absurd rfl hne⟩
      · obtain ⟨st, hpass, hproc, hpt⟩ := hst
        rw [hpt]
        exact pileup_after_walks_framed H st pileup_table
          (read_touches H D read index_table pileup_table)
          (fun hp c hc hpos j hj => ⟨st, hpass, hp, c, hc, hpos, j, hj, rfl⟩) i
    · intro hcov hb
      exact scan_from_head_counted_up H D hcov _ 2 false read index_table pileup_table [] r
        hb hr
    · rintro c i ⟨j, hj, rfl⟩ hle
      rw [Nat.mod_eq_of_lt (by omega)]
      omega

theorem scan_read_frame_witness :
    scan_within_capacity example_header example_dicts example_read empty_index_table
      example_pileup ∧
    (scan_read example_header example_dicts example_read empty_index_table example_pileup
        = .error .assertion ∨
      ∃ r, scan_read example_header example_dicts example_read empty_index_table
          example_pileup = .ok r ∧
        (∀ i, read_effect example_header example_dicts example_read empty_index_table
          example_pileup i (r.pileup_table i)) ∧
        (example_header.MAX_COV ≤ 255 →
          (∀ i, (example_pileup i).ref_cnt ≤ example_header.MAX_COV ∧
            (example_pileup i).alt_cnt ≤ example_header.MAX_COV) →
          counted_up example_header example_pileup r.pileup_table) ∧
        (∀ (c : kmer_context) (i : Nat), walked_by c i → c.kmer_pos + 32 ≤ 2 ^ 32 →
          c.kmer_pos ≤ i ∧ i < c.kmer_pos + 32)) :=
  ⟨by decide!,
    scan_read_frame example_header example_dicts example_read empty_index_table
      example_pileup (by decide!)⟩

/-- C27, failing input.  The reference dictionary holds 32 `A` at position 7, its
largest position, so the pileup table is allocated with 40 zeroed entries.  The
SNP dictionary holds 32 `C` at position 39 with the SNP at offset 31, position
70: the table grows to 71 entries and nothing zeroes the new ones, so with
memory that reads `ref_cnt = 255`, `alt_cnt = 255` entry 70 is a SNP site with
both counts at 255, above `MAX_COV = 64`.  The read of 32 `A` and 32 `C` stays
within the capacity of the arrays; its two k-mers vote for position 7 and the
read is processed on its forward pass.  The walk of the SNP hit context visits
entries 39 to 70, all inside the block of 71 entries; at entry 70 the base `C`
is the alternate base, the test `alt_cnt != MAX_COV` passes and the 8-bit
increment wraps: the count falls from 255 to 0. -/
theorem scan_read_count_wraps_after_growth :
    ∃ L, load_dictionaries example_header stale_heap (fun _ => 0) (fun _ => 0)
        (fun _ => { pos_list := fun _ => 0 })
        (fun _ => { pos_list := fun _ => 0, snp_list := fun _ => 0 })
        early_ref_file [] late_snp_file [] = some L ∧
      L.pileup.allocated = 71 ∧
      L.pileup.pileup_table 70 =
        { ref := 0, alt := 1, ref_freq := 200, alt_freq := 55, ref_cnt := 255,
          alt_cnt := 255 } ∧
      example_header.MAX_COV = 64 ∧
      scan_within_capacity example_header L.dicts example_read empty_index_table
        L.pileup.pileup_table ∧
      (match forward_probe example_header L.dicts example_read empty_index_table
          L.pileup.pileup_table with
        | some st => some (st.ref_hit_contexts, st.snp_hit_contexts)
        | none => none)
        = some ([{ kmer := 0, position := 7, kmer_pos := 7 }],
                [{ kmer := 0x5555555555555555, position := 7, kmer_pos := 39 }]) ∧
      (match scan_read example_header L.dicts example_read empty_index_table
          L.pileup.pileup_table with
        | .ok r => some (r.passes, r.pileup_table 70)
        | .error _ => none)
        = some ([{ revcompl := false, probed := true, processed := true }],
            { ref := 0, alt := 1, ref_freq := 200, alt_freq := 55, ref_cnt := 255,
              alt_cnt := 0 }) := by
  refine ⟨_, rfl, rfl, rfl, rfl, ?_, ?_, ?_⟩
  · decide!
  · decide!
  · decide!

/-- The example read on the example pileup table: the scan ends normally, entry
110 (the SNP site) is counted and entry 105 is not changed. -/
theorem scan_read_frame_example :
    (match scan_read example_header example_dicts example_read empty_index_table
        example_pileup with
      | .ok r => some (r.pileup_table 110, r.pileup_table 105, example_pileup 110)
      | .error _ => none)
      = some ({ ref := 0, alt := 2, ref_freq := 200, alt_freq := 55, ref_cnt := 1,
                alt_cnt := 0 },
              pileup_zero,
              { ref := 0, alt := 2, ref_freq := 200, alt_freq := 55, ref_cnt := 0,
                alt_cnt := 0 }) := by
  decide!

/-! ### Votes of one k-mer -/

/-- C24, two votes of one k-mer for one placement.  The reference dictionary
holds 32 `A` at position 100; the SNP dictionary holds its alternate form with
`G` at offset 10 as an ambiguous entry with the aux positions 100 and 500.
Ambiguous SNP entries are not written to the pileup table, so entry 110 is
blank after loading.  The read `alt_read` has one k-mer, the alternate form:
its direct SNP hit votes for 100 and 500, and its neighbour with `A` at offset
10 hits the reference dictionary at 100 and passes the blank test, a second
vote for 100.  The winning entry has index 100 and `freq = 2`, and the read is
processed on its forward pass. -/
theorem one_kmer_votes_twice :
    ∃ L, load_dictionaries example_header (fun _ => pileup_zero) (fun _ => 0) (fun _ => 0)
        (fun _ => { pos_list := fun _ => 0 })
        (fun _ => { pos_list := fun _ => 0, snp_list := fun _ => 0 })
        single_ref_file [] ambiguous_snp_file ambiguous_snp_rows = some L ∧
      L.pileup.pileup_size = 133 ∧
      pileup_blank L.pileup.pileup_table 110 ∧
      encode_read alt_read (alt_read.length / 32 * 32) = some [2 * 4 ^ 10] ∧
      (match forward_probe example_header L.dicts alt_read empty_index_table
          L.pileup.pileup_table with
        | some st => some (st.ref_hit_contexts, st.snp_hit_contexts,
            st.index_table.best.map
              (fun b => ((st.index_table.entry b).index, (st.index_table.entry b).freq)),
            st.index_table.ambiguous)
        | none => none)
        = some ([{ kmer := 0, position := 100, kmer_pos := 100 }],
                [{ kmer := 2 * 4 ^ 10, position := 100, kmer_pos := 100 },
                 { kmer := 2 * 4 ^ 10, position := 500, kmer_pos := 500 }],
                some (100, 2), false) ∧
      (match scan_read example_header L.dicts alt_read empty_index_table
          L.pileup.pileup_table with
        | .ok r => some r.passes
        | .error _ => none)
        = some [{ revcompl := false, probed := true, processed := true }] := by
  refine ⟨_, rfl, rfl, ?_, ?_, ?_, ?_⟩
  · decide
  · decide
  · decide!
  · decide!

theorem voter_perm (t : IndexTable) (xs ys : List Nat) (hV : Voter t xs) (hp : xs.Perm ys) :
    Voter t ys where
  slot_of := hV.slot_of
  freq_eq := fun e hl => by rw [hV.freq_eq e hl]; exact hp.count_eq _
  mem := fun e hl => hp.mem_iff.1 (hV.mem e hl)
  inj := hV.inj
  stored := fun x hx => hV.stored x (hp.mem_iff.2 hx)
  count_eq := fun s hs => by
    rw [hV.count_eq s hs, List.toFinset_eq_of_perm _ _ hp]
  best_none := fun h => hV.best_none (by subst h; exact hp.eq_nil)
  best_some := fun h => hV.best_some (by
    intro hx
    subst hx
    exact h hp.nil_eq.symm)

/-- A property of the probing state that every recorded hit keeps is kept by
the probing of a list of k-mers. -/
theorem probe_kmers_preserves (P : ProbeState → Prop) (H : LavaH) (D : Dicts)
    (pileup_table : Nat → pileup_entry)
    (href : ∀ st kmer pos offset, P st → P (record_ref_hit st kmer pos offset))
    (hsnp : ∀ st kmer pos offset, P st → P (record_snp_hit st kmer pos offset))
    (kmers : List Nat) :
    ∀ (i : Nat) (st st1 : ProbeState), P st →
      probe_kmers H D pileup_table i kmers st = .ok st1 → P st1 := by
  have haux : ∀ (body : ProbeState → Nat → Nat → ProbeState) (pos_list : Nat → Nat),
      (∀ st i pos, P st → P (body st i pos)) →
      ∀ (cols i : Nat) (st : ProbeState), P st → P (aux_loop body pos_list cols i st) := by
    intro body pos_list hb cols
    induction cols with
    | zero => intro i st h; exact h
    | succ cols ih =>
      intro i st h
      unfold aux_loop
      split_ifs
      · exact h
      · exact ih _ _ (hb _ _ _ h)
  have hdr : ∀ kmer offset st st1, P st → direct_ref_hit H D kmer offset st = .ok st1 →
      P st1 := by
    intro kmer offset st st1 h hr
    unfold direct_ref_hit at hr
    split at hr
    · cases hr; exact h
    · split_ifs at hr
      · cases hr; exact href _ _ _ _ h
      · cases hr
        exact haux _ _ (fun st _ pos hst => href st _ pos _ hst) _ _ _ h
      · cases hr; exact h
  have hds : ∀ kmer offset st st1, P st → direct_snp_hit H D kmer offset st = .ok st1 →
      P st1 := by
    intro kmer offset st st1 h hr
    unfold direct_snp_hit at hr
    split at hr
    · cases hr; exact h
    · split_ifs at hr
      · cases hr; exact hsnp _ _ _ _ h
      · cases hr
        exact haux _ _ (fun st _ pos hst => hsnp st _ pos _ hst) _ _ _ h
      · cases hr; exact h
  have hnr : ∀ neighbor offset d st, P st →
      P (neighbor_ref_hit H D pileup_table neighbor offset d st) := by
    intro neighbor offset d st h
    have hx : ∀ pos_list : Nat → Nat,
        P (aux_loop
          (fun st _ pos =>
            if (pileup_table ((pos + d) % 2 ^ 32)).ref = 0 ∧
                (pileup_table ((pos + d) % 2 ^ 32)).alt = 0 then
              record_ref_hit st neighbor pos offset
            else st)
          pos_list H.AUX_TABLE_COLS 0 st) := by
      intro pos_list
      apply haux _ _ _ _ _ _ h
      intro st i pos hst
      dsimp only
      split_ifs
      · exact href _ _ _ _ hst
      · exact hst
    unfold neighbor_ref_hit
    split
    · exact h
    · simp only
      split_ifs
      all_goals first
        | exact h
        | exact href _ _ _ _ h
        | exact hx _
  have hns : ∀ neighbor offset d st, P st →
      P (neighbor_snp_hit H D neighbor offset d st) := by
    intro neighbor offset d st h
    unfold neighbor_snp_hit
    split
    · exact h
    · split_ifs
      · exact hsnp _ _ _ _ h
      · apply haux _ _ _ _ _ _ h
        intro st i pos hst
        dsimp only
        split_ifs
        · exact hsnp _ _ _ _ hst
        · exact hst
      · exact h
      · exact h
  have hnl : ∀ kmer offset st, P st → P (neighbor_loop H D pileup_table kmer offset st) := by
    intro kmer offset st h
    unfold neighbor_loop
    apply foldl_preserves P _ _ _ _ h
    intro st1 d h1
    dsimp only
    apply foldl_preserves P _ _ _ _ h1
    intro st2 j h2
    dsimp only
    split_ifs
    · exact h2
    · exact hns _ _ _ _ (hnr _ _ _ _ h2)
  induction kmers with
  | nil => intro i st st1 h hr; cases hr; exact h
  | cons k rest ih =>
    intro i st st1 h hr
    unfold probe_kmers at hr
    split at hr
    · cases hr
    · next sa ha =>
      refine ih _ _ _ ?_ hr
      unfold probe_kmer at ha
      simp only at ha
      split at ha
      · cases ha
      · next sb hb =>
        split at ha
        · cases ha
        · next sc hc =>
          cases ha
          exact hnl _ _ _ (hds _ _ _ _ (hdr _ _ _ _ h hb) hc)

theorem record_ref_hit_votes (st : ProbeState) (kmer pos offset : Nat)
    (h : st.votes.length ≤ 255 → Voter st.index_table st.votes) :
    (record_ref_hit st kmer pos offset).votes.length ≤ 255 →
      Voter (record_ref_hit st kmer pos offset).index_table
        (record_ref_hit st kmer pos offset).votes := by
  intro hlen
  have hperm : (st.votes ++ [read_pos_of pos offset]).Perm
      (record_ref_hit st kmer pos offset).votes := by
    unfold ProbeState.votes record_ref_hit
    simp only [List.map_append, List.map_cons, List.map_nil, List.append_assoc,
      List.singleton_append]
    exact (List.perm_append_left_iff _).2 (List.perm_append_singleton _ _)
  have hl : st.votes.length + 1 ≤ 255 := by
    have := hperm.length_eq
    rw [List.length_append, List.length_singleton] at this
    omega
  have hV := h (by omega)
  have hcount : st.votes.count (read_pos_of pos offset) ≤ 254 :=
    le_trans (List.count_le_length _ _) (by omega)
  exact voter_perm _ _ _ (voter_step _ _ _ hV hcount) hperm

theorem record_snp_hit_votes (st : ProbeState) (kmer pos offset : Nat)
    (h : st.votes.length ≤ 255 → Voter st.index_table st.votes) :
    (record_snp_hit st kmer pos offset).votes.length ≤ 255 →
      Voter (record_snp_hit st kmer pos offset).index_table
        (record_snp_hit st kmer pos offset).votes := by
  intro hlen
  have hperm : (st.votes ++ [read_pos_of pos offset]).Perm
      (record_snp_hit st kmer pos offset).votes := by
    unfold ProbeState.votes record_snp_hit
    simp only [List.map_append, List.map_cons, List.map_nil, List.append_assoc]
    exact List.Perm.refl _
  have hl : st.votes.length + 1 ≤ 255 := by
    have := hperm.length_eq
    rw [List.length_append, List.length_singleton] at this
    omega
  have hV := h (by omega)
  have hcount : st.votes.count (read_pos_of pos offset) ≤ 254 :=
    le_trans (List.count_le_length _ _) (by omega)
  exact voter_perm _ _ _ (voter_step _ _ _ hV hcount) hperm

/-- What does hold for the votes of a read: probing from a voter with no entry,
with at most 255 hits recorded, the `freq` of every stored placement is the
number of hit contexts recorded for it; so a read is processed only if at least
two hits, of the direct or neighbour probes of its k-mers, were recorded for the
winning placement. -/
theorem processed_read_has_two_hits (H : LavaH) (D : Dicts) (read : List Char)
    (index_table : IndexTable) (pileup_table : Nat → pileup_entry) (st : ProbeState)
    (hc : ∀ s, s < INDEX_TABLE_SLOT_COUNT → (index_table.table s).count = 0)
    (hb : index_table.best = none)
    (hfp : forward_probe H D read index_table pileup_table = some st)
    (hlen : st.votes.length ≤ 255) :
    Voter st.index_table st.votes ∧
    (process_read_of st.index_table = true →
      2 ≤ st.votes.count (target_index_of st.index_table)) := by
  have hV : Voter st.index_table st.votes := by
    unfold forward_probe at hfp
    split at hfp
    · cases hfp
    · split at hfp
      · next st1 hst =>
        cases hfp
        exact probe_kmers_preserves
          (fun st => st.votes.length ≤ 255 → Voter st.index_table st.votes) H D pileup_table
          record_ref_hit_votes record_snp_hit_votes _ 0 _ st
          (fun _ => voter_of_empty index_table hc hb) hst hlen
      · cases hfp
  refine ⟨hV, ?_⟩
  intro hp
  unfold process_read_of at hp
  unfold target_index_of
  cases hbest : st.index_table.best with
  | none => rw [hbest] at hp; cases hp
  | some b =>
    rw [hbest] at hp
    simp only [Bool.and_eq_true, decide_eq_true_eq] at hp
    have hne : st.votes ≠ [] := by
      intro h
      have := hV.best_none h
      rw [hbest] at this
      cases this
    obtain ⟨b1, hb1, hl, _, _⟩ := hV.best_some hne
    rw [hbest] at hb1
    cases hb1
    have := hV.freq_eq b hl
    unfold IndexTable.entry at this
    dsimp only
    rw [← this]
    exact hp.1

end Lava
